import Mathlib

/-!
# straw.cpp: a shallow embedding of the .hic reader

The embedding follows `src/src/straw.cpp` function by function.

* A C++ `std::string`, a file and a fetched buffer are lists of bytes
  (`Nat` values below 256).
* An `istream` is a byte list with a read position and the two state bits
  the code depends on (`eofbit`, `failbit`).
* `int`, `short` and `long` values are `Int`s kept in range by `wrap 32`,
  `wrap 16` and `wrap 64` (LP64: `sizeof(long) = 8`).
* `float` and `double` values are their IEEE-754 bit patterns; arithmetic on
  them is taken from a `FloatOps` record, so every statement holds for any
  implementation of the floating-point unit. The sample runs use `sampleFp`,
  IEEE-754 arithmetic in round to nearest.
* Bytes that C++ leaves indeterminate (the destination of a read that hits
  the end of the stream, the part of a buffer that a short file does not
  fill, a local variable that is never assigned) are supplied by explicit
  junk arguments, so every function is total and statements quantify over
  the junk.
* Events that stop the call (a thrown `std::invalid_argument`, an integer
  division by zero, a failed allocation) are values of `Fault`; so is a store
  past the end of a vector, which is undefined behaviour.
-/

set_option maxRecDepth 4000

namespace Straw

/-! ## Bytes, strings and machine integers -/

/-- A byte string: the chars of a `std::string`, or the bytes of a file. -/
abbrev Str := List Nat

/-- The bytes of an ASCII literal. -/
def ascii (s : String) : Str := s.toList.map Char.toNat

/-- Value of `x` after conversion to a signed two's-complement type of `w` bits. -/
def wrap (w : Nat) (x : Int) : Int := (x + 2 ^ (w - 1)) % 2 ^ w - 2 ^ (w - 1)

/-- Unsigned little-endian value of a byte list. -/
def leNat : List Nat → Nat
  | [] => 0
  | b :: bs => b % 256 + 256 * leNat bs

/-- Signed little-endian value of `n` bytes. -/
def leInt (bs : List Nat) : Int := wrap (8 * bs.length) (leNat bs)

/-- The `n` little-endian bytes of the object representation of `x`. -/
def bytesOf (n : Nat) (x : Int) : List Nat :=
  (List.range n).map (fun i => ((x / 256 ^ i) % 256).toNat)

/-- Decimal text of an `int` as `operator<<` writes it. -/
def intToStr (x : Int) : Str :=
  if x < 0 then 45 :: (Nat.toDigits 10 x.natAbs).map Char.toNat
  else (Nat.toDigits 10 x.natAbs).map Char.toNat

/-- Events that end a call without a return value. -/
inductive Fault where
  | invalidArgument   -- std::stol: no conversion could be performed
  | outOfRange        -- std::stol: the value does not fit a long
  | divByZero         -- integer division by zero (or LONG_MIN / -1)
  | badAlloc          -- allocation of a negative or unrepresentable size
  | outOfBounds       -- a store past the end of a vector (undefined behaviour)
  deriving DecidableEq, Repr

/-- C++ integer division of two `long` operands (truncation toward zero). -/
def cdiv (a b : Int) : Except Fault Int :=
  if b = 0 then .error .divByZero
  else if a = -(2 ^ 63) ∧ b = -1 then .error .divByZero
  else .ok (Int.tdiv a b)

/-! ## Input streams -/

/-- An `istream` over a byte list: `pos` is the get position, `eof` and `fail`
are `eofbit` and `failbit`; `junk k` is the `k`-th indeterminate byte found in
a temporary that a read did not fill, `used` counts the ones handed out. -/
structure IStream where
  data : List Nat
  pos : Nat
  eof : Bool
  fail : Bool
  junk : Nat → Nat
  used : Nat

/-- A freshly opened stream over `data`. -/
def IStream.open (data : List Nat) (junk : Nat → Nat) : IStream :=
  { data := data, pos := 0, eof := false, fail := false, junk := junk, used := 0 }

/-- `istream::good()`. -/
def IStream.good (s : IStream) : Bool := !s.eof && !s.fail

/-- `istream::read(dst, n)` where `dst` holds the bytes `old` before the call:
on a stream that is not good nothing is stored and `failbit` is set; otherwise
the available bytes are stored, and `eofbit | failbit` are set when fewer than
`n` are available. Returns the content of `dst` after the call. -/
def IStream.read (s : IStream) (n : Nat) (old : List Nat) : List Nat × IStream :=
  if s.good then
    let avail := (s.data.drop s.pos).take n
    if avail.length = n then (avail, { s with pos := s.pos + n })
    else (avail ++ old.drop avail.length,
          { s with pos := s.pos + avail.length, eof := true, fail := true })
  else (old, { s with fail := true })

/-- The next `n` indeterminate bytes of the stream's junk supply. -/
def IStream.junkBytes (s : IStream) (n : Nat) : List Nat :=
  (List.range n).map (fun i => s.junk (s.used + i) % 256)

/-- A `read` into a fresh, uninitialised temporary of `n` bytes. -/
def IStream.readTemp (s : IStream) (n : Nat) : List Nat × IStream :=
  let r := s.read n (s.junkBytes n)
  (r.1, { r.2 with used := s.used + n })

/-- `istream::seekg(p, ios::beg)` on a file stream (C++11): `eofbit` is
cleared first; on a failed stream nothing else happens; a negative offset
sets `failbit`; seeking past the end of the file succeeds. -/
def IStream.seekg (s : IStream) (p : Int) : IStream :=
  if s.fail then { s with eof := false }
  else if p < 0 then { s with eof := false, fail := true }
  else { s with eof := false, pos := p.toNat }

/-- `std::getline(fin, str, delim)` where `str` holds `old` before the call:
on a stream that is not good `failbit` is set and `str` is untouched;
otherwise chars are extracted up to and including the delimiter (which is not
stored); reaching the end sets `eofbit`, and `failbit` too when nothing at all
was extracted. -/
def getline (s : IStream) (old : Str) (delim : Nat) : Str × IStream :=
  if s.good then
    let rest := s.data.drop s.pos
    let line := rest.takeWhile (fun b => b != delim)
    if line.length < rest.length then (line, { s with pos := s.pos + line.length + 1 })
    else (line, { s with pos := s.pos + line.length, eof := true,
                         fail := line.isEmpty })
  else (old, { s with fail := true })

/-- `readMagicString`: the leading NUL-terminated string starts with `HIC`.
`str[i]` for `i = str.size()` is the terminating NUL, and `&&` stops at the
first mismatch, so no char beyond it is inspected. -/
def readMagicString (fin : IStream) : Bool × IStream :=
  let r := getline fin [] 0
  (r.1.getD 0 0 == 72 && r.1.getD 1 0 == 73 && r.1.getD 2 0 == 67, r.2)

/-- `readCharFromFile`. -/
def readCharFromFile (fin : IStream) : Int × IStream :=
  let r := fin.readTemp 1
  (leInt r.1, r.2)

/-- `readShortFromFile`. -/
def readShortFromFile (fin : IStream) : Int × IStream :=
  let r := fin.readTemp 2
  (leInt r.1, r.2)

/-- `readIntFromFile`. -/
def readIntFromFile (fin : IStream) : Int × IStream :=
  let r := fin.readTemp 4
  (leInt r.1, r.2)

/-- `readLongFromFile`. -/
def readLongFromFile (fin : IStream) : Int × IStream :=
  let r := fin.readTemp 8
  (leInt r.1, r.2)

/-- `readFloatFromFile`: the bit pattern of the `float`. -/
def readFloatFromFile (fin : IStream) : Nat × IStream :=
  let r := fin.readTemp 4
  (leNat r.1, r.2)

/-- `readDoubleFromFile`: the bit pattern of the `double`. -/
def readDoubleFromFile (fin : IStream) : Nat × IStream :=
  let r := fin.readTemp 8
  (leNat r.1, r.2)

/-! ## Records declared in straw.h -/

/-- Modelled from the spec: straw.h is not among the sources; `chromosome` is
the spec's Chromosome entity (name, 0-based index, length as int64). -/
structure chromosome where
  name : Str
  index : Int
  length : Int

/-- Modelled from the spec: straw.h is not among the sources; `indexEntry` is
the spec's IndexEntry (position int64, size int64). -/
structure indexEntry where
  size : Int
  position : Int

/-- Modelled from the spec: straw.h is not among the sources; `contactRecord`
is the spec's ContactRecord. `binX` and `binY` hold the on-disk int32 bins in
what `readBlock` returns and the scaled coordinates in what `straw` returns;
`counts` is the bit pattern of a float32. -/
structure contactRecord where
  binX : Int
  binY : Int
  counts : Nat
  deriving DecidableEq, Repr

/-- A `std::map<string, chromosome>`: at most one entry per key. -/
abbrev ChromMap := List (Str × chromosome)

/-- `chromosomeMap[name] = chr`. -/
def ChromMap.set (m : ChromMap) (name : Str) (chr : chromosome) : ChromMap :=
  (name, chr) :: m.filter (fun p => p.1 != name)

/-- `chromosomeMap.count(name)`. -/
def ChromMap.count (m : ChromMap) (name : Str) : Nat :=
  if (m.lookup name).isSome then 1 else 0

/-- `chromosomeMap[name]` read access: absent keys give a value-initialised
chromosome. -/
def ChromMap.at (m : ChromMap) (name : Str) : chromosome :=
  (m.lookup name).getD { name := [], index := 0, length := 0 }

/-! ## readHeader -/

/-- The attribute loop of `readHeader`: `n` key/value string pairs are read
and dropped. -/
def skipAttributes : Nat → IStream → IStream
  | 0, fin => fin
  | n + 1, fin => skipAttributes n (getline (getline fin [] 0).2 [] 0).2

/-- The chromosome loop of `readHeader`, from serial index `i`, `n` iterations
to go. -/
def readChromosomes (version : Int) : Nat → Int → IStream → ChromMap → ChromMap × IStream
  | 0, _, fin, m => (m, fin)
  | n + 1, i, fin, m =>
    let nm := getline fin [] 0
    let len := if version > 8 then readLongFromFile nm.2 else readIntFromFile nm.2
    readChromosomes version n (i + 1) len.2
      (m.set nm.1 { name := nm.1, index := i, length := len.1 })

/-- What `readHeader` leaves behind: the returned map, the out-parameter
`masterIndexPosition`, the global `version`, and the stream. -/
structure HeaderResult where
  chromosomeMap : ChromMap
  masterIndexPosition : Int
  version : Int
  fin : IStream

/-- The part of `readHeader` after the version check (lines 199-234): the
master index position, the genome id, for `version > 8` two more longs, the
attribute dictionary and the chromosome table. -/
def readHeaderBody (version : Int) (fin : IStream) (master0 : Int) : HeaderResult :=
  let mp := fin.read 8 (bytesOf 8 master0)
  let genomeID := getline mp.2 [] 0
  let f1 := if version > 8 then (readLongFromFile (readLongFromFile genomeID.2).2).2
            else genomeID.2
  let nattributes := readIntFromFile f1
  let f2 := skipAttributes nattributes.1.toNat nattributes.2
  let nChrs := readIntFromFile f2
  let r := readChromosomes version nChrs.1.toNat 0 nChrs.2 []
  { chromosomeMap := r.1, masterIndexPosition := leInt mp.1, version := version, fin := r.2 }

/-- `readHeader`. `version0` is the global `version` before the call and
`master0` the caller's `master` before the call; both are read into in
place, so a short read keeps their remaining old bytes. -/
def readHeader (fin : IStream) (version0 master0 : Int) : HeaderResult :=
  let magic := readMagicString fin
  if !magic.1 then
    { chromosomeMap := [], masterIndexPosition := -1, version := version0, fin := magic.2 }
  else
    let v := magic.2.read 4 (bytesOf 4 version0)
    let version := leInt v.1
    if version < 6 then
      { chromosomeMap := [], masterIndexPosition := -1, version := version, fin := v.2 }
    else readHeaderBody version v.2 master0

/-! ## readFooter -/

/-- The master-index loop of `readFooter`: `n` entries `(key, fpos, size)` to
go; a matching key stores `fpos` into `myFilePos` and sets `found`. -/
def readMasterIndex (key : Str) : Nat → IStream → Bool → Int → Bool × Int × IStream
  | 0, fin, found, myFilePos => (found, myFilePos, fin)
  | n + 1, fin, found, myFilePos =>
    let str := getline fin [] 0
    let fpos := readLongFromFile str.2
    let sizeinbytes := readIntFromFile fpos.2
    if str.1 = key then readMasterIndex key n sizeinbytes.2 true fpos.1
    else readMasterIndex key n sizeinbytes.2 found myFilePos

/-- The value loops of the expected-value maps: `n` numbers are read and
dropped, floats when `version > 8` and doubles otherwise. -/
def skipValues (version : Int) : Nat → IStream → IStream
  | 0, fin => fin
  | n + 1, fin =>
    skipValues version n
      (if version > 8 then (readFloatFromFile fin).2 else (readDoubleFromFile fin).2)

/-- The normalization-factor loops of the expected-value maps: `n` pairs
`(chrIdx, value)` are read and dropped. -/
def skipFactors (version : Int) : Nat → IStream → IStream
  | 0, fin => fin
  | n + 1, fin =>
    let chrIdx := readIntFromFile fin
    skipFactors version n
      (if version > 8 then (readFloatFromFile chrIdx.2).2 else (readDoubleFromFile chrIdx.2).2)

/-- One expected-value map loop of `readFooter`, `n` entries to go; `typed`
is true for the second map, whose entries start with an extra string. -/
def skipExpectedValues (version : Int) (typed : Bool) : Nat → IStream → IStream
  | 0, fin => fin
  | n + 1, fin =>
    let f0 := if typed then (getline fin [] 0).2 else fin
    let str := getline f0 [] 0
    let binSize := readIntFromFile str.2
    let nValues := if version > 8 then readLongFromFile binSize.2 else readIntFromFile binSize.2
    let f1 := skipValues version nValues.1.toNat nValues.2
    let nNormalizationFactors := readIntFromFile f1
    skipExpectedValues version typed n
      (skipFactors version nNormalizationFactors.1.toNat nNormalizationFactors.2)

/-- The state of the normalization-vector index loop of `readFooter`. -/
structure NormIndex where
  c1NormEntry : indexEntry
  c2NormEntry : indexEntry
  found1 : Bool
  found2 : Bool
  fin : IStream

/-- One entry of the normalization-vector index of the footer. -/
structure NormEntry where
  normtype : Str
  chrIdx : Int
  unit1 : Str
  resolution1 : Int
  entry : indexEntry

/-- The reads of one iteration of the normalization-vector index loop of
`readFooter` (lines 347-359): the entry and the stream behind it. -/
def readNormEntry (version : Int) (fin : IStream) : NormEntry × IStream :=
  let normtype := getline fin [] 0
  let chrIdx := readIntFromFile normtype.2
  let unit1 := getline chrIdx.2 [] 0
  let resolution1 := readIntFromFile unit1.2
  let filePosition := readLongFromFile resolution1.2
  let sizeInBytes := if version > 8 then readLongFromFile filePosition.2
                     else readIntFromFile filePosition.2
  ({ normtype := normtype.1, chrIdx := chrIdx.1, unit1 := unit1.1,
     resolution1 := resolution1.1,
     entry := { size := sizeInBytes.1, position := filePosition.1 } }, sizeInBytes.2)

/-- The normalization-vector index loop of `readFooter`, `n` entries to go. -/
def readNormIndex (version c1 c2 : Int) (norm unit : Str) (resolution : Int) :
    Nat → NormIndex → NormIndex
  | 0, st => st
  | n + 1, st =>
    let e := readNormEntry version st.fin
    let hit := e.1.normtype = norm ∧ e.1.unit1 = unit ∧ e.1.resolution1 = resolution
    let m1 : Bool := decide (e.1.chrIdx = c1 ∧ hit)
    let m2 : Bool := decide (e.1.chrIdx = c2 ∧ hit)
    readNormIndex version c1 c2 norm unit resolution n
      { c1NormEntry := if m1 then e.1.entry else st.c1NormEntry,
        c2NormEntry := if m2 then e.1.entry else st.c2NormEntry,
        found1 := st.found1 || m1,
        found2 := st.found2 || m2,
        fin := e.2 }

/-- What `readFooter` leaves behind: its return value, the three
out-parameters and the stream. -/
structure FooterResult where
  ret : Bool
  myFilePos : Int
  c1NormEntry : indexEntry
  c2NormEntry : indexEntry
  fin : IStream

/-- The key `readFooter` looks for: `ss << c1 << "_" << c2`. -/
def footerKey (c1 c2 : Int) : Str := intToStr c1 ++ [95] ++ intToStr c2

/-- `readFooter`. `myFilePos0`, `e1` and `e2` are the contents of the three
out-parameters before the call. -/
def readFooter (fin : IStream) (version c1 c2 : Int) (norm unit : Str) (resolution : Int)
    (myFilePos0 : Int) (e1 e2 : indexEntry) : FooterResult :=
  let f0 := if version > 8 then (readLongFromFile fin).2 else (readIntFromFile fin).2
  let key := footerKey c1 c2
  let nEntries := readIntFromFile f0
  let mi := readMasterIndex key nEntries.1.toNat nEntries.2 false myFilePos0
  if !mi.1 then
    { ret := false, myFilePos := mi.2.1, c1NormEntry := e1, c2NormEntry := e2, fin := mi.2.2 }
  else if norm = ascii "NONE" then
    { ret := true, myFilePos := mi.2.1, c1NormEntry := e1, c2NormEntry := e2, fin := mi.2.2 }
  else
    let nExpectedValues := readIntFromFile mi.2.2
    let f1 := skipExpectedValues version false nExpectedValues.1.toNat nExpectedValues.2
    let nExpectedValues2 := readIntFromFile f1
    let f2 := skipExpectedValues version true nExpectedValues2.1.toNat nExpectedValues2.2
    let nEntries2 := readIntFromFile f2
    let ni := readNormIndex version c1 c2 norm unit resolution nEntries2.1.toNat
      { c1NormEntry := e1, c2NormEntry := e2, found1 := false, found2 := false,
        fin := nEntries2.2 }
    { ret := true, myFilePos := mi.2.1, c1NormEntry := ni.c1NormEntry,
      c2NormEntry := ni.c2NormEntry, fin := ni.fin }

/-! ## readMatrix -/

/-- A `std::map<int, indexEntry>`. -/
abbrev BlockMap := List (Int × indexEntry)

/-- `blockMap[blockNumber] = entry`. -/
def BlockMap.set (m : BlockMap) (blockNumber : Int) (entry : indexEntry) : BlockMap :=
  (blockNumber, entry) :: m.filter (fun p => p.1 != blockNumber)

/-- `blockMap[blockNumber]` read access: an absent key gives a
value-initialised entry (size 0, position 0). -/
def BlockMap.at (m : BlockMap) (blockNumber : Int) : indexEntry :=
  (m.lookup blockNumber).getD { size := 0, position := 0 }

/-- The block-table loop of `readMatrixZoomData`, `n` entries to go: each is
read, and stored only when this resolution matched. -/
def readBlockTable (found : Bool) : Nat → IStream → BlockMap → BlockMap × IStream
  | 0, fin, m => (m, fin)
  | n + 1, fin, m =>
    let blockNumber := readIntFromFile fin
    let filePosition := readLongFromFile blockNumber.2
    let blockSizeInBytes := readIntFromFile filePosition.2
    let entry : indexEntry := { size := blockSizeInBytes.1, position := filePosition.1 }
    readBlockTable found n blockSizeInBytes.2
      (if found then m.set blockNumber.1 entry else m)

/-- What a matrix reader leaves behind: the returned block map, the two
out-parameters, the `found` flag and the stream. -/
structure ZoomResult where
  blockMap : BlockMap
  myBlockBinCount : Int
  myBlockColumnCount : Int
  found : Bool
  fin : IStream

/-- `readMatrixZoomData`. `bbc0` and `bcc0` are the contents of the
out-parameters before the call. -/
def readMatrixZoomData (fin : IStream) (myunit : Str) (mybinsize : Int) (bbc0 bcc0 : Int) :
    ZoomResult :=
  let unit := getline fin [] 0
  let f1 := (readIntFromFile unit.2).2
  let f2 := (readFloatFromFile f1).2
  let f3 := (readFloatFromFile f2).2
  let f4 := (readFloatFromFile f3).2
  let f5 := (readFloatFromFile f4).2
  let binSize := readIntFromFile f5
  let blockBinCount := readIntFromFile binSize.2
  let blockColumnCount := readIntFromFile blockBinCount.2
  let found : Bool := decide (myunit = unit.1 ∧ mybinsize = binSize.1)
  let nBlocks := readIntFromFile blockColumnCount.2
  let t := readBlockTable found nBlocks.1.toNat nBlocks.2 []
  { blockMap := t.1,
    myBlockBinCount := if found then blockBinCount.1 else bbc0,
    myBlockColumnCount := if found then blockColumnCount.1 else bcc0,
    found := found, fin := t.2 }

/-- The loop `while (i < nRes && !found)` of `readMatrix`, `n = nRes - i`
iterations left at most. -/
def readMatrixLoop (unit : Str) (resolution : Int) : Nat → ZoomResult → ZoomResult
  | 0, st => st
  | n + 1, st =>
    if st.found then st
    else readMatrixLoop unit resolution n
      (readMatrixZoomData st.fin unit resolution st.myBlockBinCount st.myBlockColumnCount)

/-- `readMatrix`. `bbc0` and `bcc0` are the contents of `myBlockBinCount` and
`myBlockColumnCount` before the call. -/
def readMatrix (fin : IStream) (myFilePosition : Int) (unit : Str) (resolution : Int)
    (bbc0 bcc0 : Int) : ZoomResult :=
  let f0 := fin.seekg myFilePosition
  let c1 := readIntFromFile f0
  let c2 := readIntFromFile c1.2
  let nRes := readIntFromFile c2.2
  readMatrixLoop unit resolution nRes.1.toNat
    { blockMap := [], myBlockBinCount := bbc0, myBlockColumnCount := bcc0, found := false,
      fin := nRes.2 }

/-! ## The HTTP byte source -/

/-- `getData(curl, position, chunksize)` against a server that holds the
resource `res`: the range request `position-(position+chunksize)` is
inclusive, so up to `chunksize + 1` bytes come back; a request the server
cannot satisfy yields no bytes. -/
def getData (res : List Nat) (position chunksize : Int) : List Nat :=
  if position < 0 ∨ chunksize < 0 then []
  else (res.drop position.toNat).take (chunksize.toNat + 1)

/-- The bytes seen through `membuf(buffer, buffer + n)` when `buffer` holds
`bs`: the first `n` bytes, those past what was received being indeterminate
heap content. -/
def membuf (bs : List Nat) (n : Int) (junk : Nat → Nat) : List Nat :=
  (List.range n.toNat).map (fun i => bs.getD i (junk i % 256))

/-- What `readMatrixZoomDataHttp` leaves behind: the returned block map, the
in/out parameter `myFilePosition`, the two out-parameters and `found`. -/
structure ZoomHttpResult where
  blockMap : BlockMap
  myFilePosition : Int
  myBlockBinCount : Int
  myBlockColumnCount : Int
  found : Bool

/-- `readMatrixZoomDataHttp`. `st` holds the contents of the reference
parameters before the call. -/
def readMatrixZoomDataHttp (res : List Nat) (junk : Nat → Nat) (myunit : Str)
    (mybinsize : Int) (st : ZoomHttpResult) : ZoomHttpResult :=
  let first := (getData res st.myFilePosition 1).getD 0 (junk 0 % 256)
  if first != 66 && first != 70 then { st with blockMap := [] }
  else
    let header_size : Int := if first == 66 then 36 + 3 else 36 + 5
    let fin := IStream.open
      (membuf (getData res st.myFilePosition header_size) header_size junk) junk
    let unit := getline fin [] 0
    let f1 := (readIntFromFile unit.2).2
    let f2 := (readFloatFromFile f1).2
    let f3 := (readFloatFromFile f2).2
    let f4 := (readFloatFromFile f3).2
    let f5 := (readFloatFromFile f4).2
    let binSize := readIntFromFile f5
    let blockBinCount := readIntFromFile binSize.2
    let blockColumnCount := readIntFromFile blockBinCount.2
    let found : Bool := decide (myunit = unit.1 ∧ mybinsize = binSize.1)
    let nBlocks := readIntFromFile blockColumnCount.2
    let tableBytes : Int := wrap 64 (nBlocks.1 * 16)
    if found then
      let fin2 := IStream.open
        (membuf (getData res (st.myFilePosition + header_size) tableBytes) tableBytes junk) junk
      { blockMap := (readBlockTable true nBlocks.1.toNat fin2 []).1,
        myFilePosition := st.myFilePosition,
        myBlockBinCount := blockBinCount.1,
        myBlockColumnCount := blockColumnCount.1,
        found := true }
    else
      { st with blockMap := [],
                myFilePosition := wrap 64 (st.myFilePosition + header_size + tableBytes),
                found := false }

/-- The loop `while (i < nRes && !found)` of `readMatrixHttp`. -/
def readMatrixHttpLoop (res : List Nat) (junk : Nat → Nat) (unit : Str) (resolution : Int) :
    Nat → ZoomHttpResult → ZoomHttpResult
  | 0, st => st
  | n + 1, st =>
    if st.found then st
    else readMatrixHttpLoop res junk unit resolution n
      (readMatrixZoomDataHttp res junk unit resolution st)

/-- `readMatrixHttp`. -/
def readMatrixHttp (res : List Nat) (junk : Nat → Nat) (myFilePosition : Int) (unit : Str)
    (resolution : Int) (bbc0 bcc0 : Int) : ZoomHttpResult :=
  let bufin := IStream.open (membuf (getData res myFilePosition 12) 12 junk) junk
  let c1 := readIntFromFile bufin
  let c2 := readIntFromFile c1.2
  let nRes := readIntFromFile c2.2
  readMatrixHttpLoop res junk unit resolution nRes.1.toNat
    { blockMap := [], myFilePosition := wrap 64 (myFilePosition + 12),
      myBlockBinCount := bbc0, myBlockColumnCount := bcc0, found := false }

/-! ## Region-to-block mappers -/

/-- `blocksSet.insert(x)` on a `std::set<int>` kept as a strictly ascending
list. -/
def setInsert (x : Int) : List Int → List Int
  | [] => [x]
  | y :: ys => if x < y then x :: y :: ys else if x = y then y :: ys else y :: setInsert x ys

/-- The values a loop `for (int v = lo; v <= hi; v++)` runs through (the
counter itself is not wrapped: `hi` is below `INT_MAX` whenever the loop
ends). -/
def intRange (lo hi : Int) : List Int :=
  (List.range (hi - lo + 1).toNat).map (fun k => lo + (k : Int))

/-- The nested loops of the block mappers: for `r` in `[r1, r2]` and `c` in
`[c1, c2]` the block number `r * blockColumnCount + c`, computed in `int`,
is inserted. -/
def insertGrid (blockColumnCount r1 r2 c1 c2 : Int) (blocksSet : List Int) : List Int :=
  (intRange r1 r2).foldl
    (fun acc r => (intRange c1 c2).foldl
      (fun acc2 c => setInsert (wrap 32 (r * blockColumnCount + c)) acc2) acc)
    blocksSet

/-- `getBlockNumbersForRegionFromBinPosition`; `regionIndices` is
`[ri0, ri1, ri2, ri3]`. -/
def getBlockNumbersForRegionFromBinPosition (ri0 ri1 ri2 ri3 : Int)
    (blockBinCount blockColumnCount : Int) (intra : Bool) : Except Fault (List Int) := do
  let col1 := wrap 32 (← cdiv ri0 blockBinCount)
  let col2 := wrap 32 (← cdiv (wrap 64 (ri1 + 1)) blockBinCount)
  let row1 := wrap 32 (← cdiv ri2 blockBinCount)
  let row2 := wrap 32 (← cdiv (wrap 64 (ri3 + 1)) blockBinCount)
  let blocksSet := insertGrid blockColumnCount row1 row2 col1 col2 []
  if intra then
    pure (insertGrid blockColumnCount col1 col2 row1 row2 blocksSet)
  else
    pure blocksSet

/-- The floating-point unit and libm, as far as the code uses them. Floats
and doubles are bit patterns. -/
structure FloatOps where
  /-- Conversion `(float) s` of a `short`. -/
  ofShort : Int → Nat
  /-- Conversion `(double) f` of a `float`. -/
  toDouble : Nat → Nat
  /-- Conversion `(float) d` of a `double`. -/
  toFloat : Nat → Nat
  /-- Product of two `double`s. -/
  mul : Nat → Nat → Nat
  /-- Quotient of two `double`s. -/
  div : Nat → Nat → Nat
  /-- Conversion to `int` of `log2(1 + a / sqrt(2) / b)` for a `long a` and an
  `int b`. -/
  depth : Int → Int → Int

/-- `getBlockNumbersForRegionFromBinPositionV9Intra`. -/
def getBlockNumbersForRegionFromBinPositionV9Intra (fp : FloatOps) (ri0 ri1 ri2 ri3 : Int)
    (blockBinCount blockColumnCount : Int) : Except Fault (List Int) := do
  let translatedLowerPAD := wrap 32 (← cdiv (Int.tdiv (wrap 64 (ri0 + ri2)) 2) blockBinCount)
  let translatedHigherPAD :=
    wrap 32 ((← cdiv (Int.tdiv (wrap 64 (ri1 + ri3)) 2) blockBinCount) + 1)
  let translatedNearerDepth := fp.depth (wrap 64 (ri0 - ri3)).natAbs blockBinCount
  let translatedFurtherDepth := fp.depth (wrap 64 (ri1 - ri2)).natAbs blockBinCount
  let nearerDepth :=
    if (ri0 > ri3 ∧ ri1 < ri2) ∨ (ri1 > ri2 ∧ ri0 < ri3) then 0
    else min translatedNearerDepth translatedFurtherDepth
  let furtherDepth := wrap 32 (max translatedNearerDepth translatedFurtherDepth + 1)
  pure (insertGrid blockColumnCount nearerDepth furtherDepth
    translatedLowerPAD translatedHigherPAD [])

/-! ## readBlock and readSize -/

/-- A value-initialised `contactRecord`, as `vector<contactRecord> v(n)`
holds them. -/
def zeroRecord : contactRecord := { binX := 0, binY := 0, counts := 0 }

/-- `isnan` on the bit pattern of a `float`. -/
def isnan (f : Nat) : Bool := (f / 2 ^ 23) % 256 == 255 && f % 2 ^ 23 != 0

/-- The state of the decoding loops of `readBlock`: the vector `v`, the
write position `index` and the stream over the inflated bytes. -/
structure Decode where
  v : List contactRecord
  index : Nat
  bufferin : IStream

/-- `v[index] = record; index++`, then continue on stream `s`. A store past
the end of the vector leaves the vector as it is and shows in `index`, which
`Decode.result` tests. -/
def Decode.store (st : Decode) (record : contactRecord) (s : IStream) : Decode :=
  { v := st.v.set st.index record, index := st.index + 1, bufferin := s }

/-- The vector a decoding loop leaves, `size` being the number of elements
it was created with. The loops store at `0, 1, ..., index - 1`; when `index`
has passed `size` a store went past the end of the vector, which is undefined
behaviour: the run is taken to stop. -/
def Decode.result (st : Decode) (size : Nat) : Except Fault (List contactRecord) :=
  if size < st.index then .error .outOfBounds else .ok st.v

/-- The record loop of `readBlock` for `version < 7`, `n` records to go. -/
def readRecordsV6 : Nat → Decode → Decode
  | 0, st => st
  | n + 1, st =>
    let binX := readIntFromFile st.bufferin
    let binY := readIntFromFile binX.2
    let counts := readFloatFromFile binY.2
    readRecordsV6 n (st.store { binX := binX.1, binY := binY.1, counts := counts.1 } counts.2)

/-- Column loop of the branch `useShortBinX && useShortBinY`. -/
def colsShortShort (fp : FloatOps) (useShort : Bool) (binXOffset binY : Int) :
    Nat → Decode → Decode
  | 0, st => st
  | n + 1, st =>
    let x := readShortFromFile st.bufferin
    let binX := wrap 32 (binXOffset + x.1)
    let s := readShortFromFile x.2
    let f := readFloatFromFile x.2
    colsShortShort fp useShort binXOffset binY n
      (if useShort then st.store { binX := binX, binY := binY, counts := fp.ofShort s.1 } s.2
       else st.store { binX := binX, binY := binY, counts := f.1 } f.2)

/-- Row loop of the branch `useShortBinX && useShortBinY`. -/
def rowsShortShort (fp : FloatOps) (useShort : Bool) (binXOffset binYOffset : Int) :
    Nat → Decode → Decode
  | 0, st => st
  | n + 1, st =>
    let y := readShortFromFile st.bufferin
    let binY := wrap 32 (binYOffset + y.1)
    let colCount := readShortFromFile y.2
    rowsShortShort fp useShort binXOffset binYOffset n
      (colsShortShort fp useShort binXOffset binY colCount.1.toNat { st with bufferin := colCount.2 })

/-- Column loop of the branch `useShortBinX && !useShortBinY`. -/
def colsShortInt (fp : FloatOps) (useShort : Bool) (binXOffset binY : Int) :
    Nat → Decode → Decode
  | 0, st => st
  | n + 1, st =>
    let x := readShortFromFile st.bufferin
    let binX := wrap 32 (binXOffset + x.1)
    let s := readShortFromFile x.2
    let f := readFloatFromFile x.2
    colsShortInt fp useShort binXOffset binY n
      (if useShort then st.store { binX := binX, binY := binY, counts := fp.ofShort s.1 } s.2
       else st.store { binX := binX, binY := binY, counts := f.1 } f.2)

/-- Row loop of the branch `useShortBinX && !useShortBinY`. -/
def rowsShortInt (fp : FloatOps) (useShort : Bool) (binXOffset binYOffset : Int) :
    Nat → Decode → Decode
  | 0, st => st
  | n + 1, st =>
    let y := readIntFromFile st.bufferin
    let binY := wrap 32 (binYOffset + y.1)
    let colCount := readShortFromFile y.2
    rowsShortInt fp useShort binXOffset binYOffset n
      (colsShortInt fp useShort binXOffset binY colCount.1.toNat { st with bufferin := colCount.2 })

/-- Column loop of the branch `!useShortBinX && useShortBinY`. -/
def colsIntShort (fp : FloatOps) (useShort : Bool) (binXOffset binY : Int) :
    Nat → Decode → Decode
  | 0, st => st
  | n + 1, st =>
    let x := readIntFromFile st.bufferin
    let binX := wrap 32 (binXOffset + x.1)
    let s := readShortFromFile x.2
    let f := readFloatFromFile x.2
    colsIntShort fp useShort binXOffset binY n
      (if useShort then st.store { binX := binX, binY := binY, counts := fp.ofShort s.1 } s.2
       else st.store { binX := binX, binY := binY, counts := f.1 } f.2)

/-- Row loop of the branch `!useShortBinX && useShortBinY`. -/
def rowsIntShort (fp : FloatOps) (useShort : Bool) (binXOffset binYOffset : Int) :
    Nat → Decode → Decode
  | 0, st => st
  | n + 1, st =>
    let y := readShortFromFile st.bufferin
    let binY := wrap 32 (binYOffset + y.1)
    let colCount := readIntFromFile y.2
    rowsIntShort fp useShort binXOffset binYOffset n
      (colsIntShort fp useShort binXOffset binY colCount.1.toNat { st with bufferin := colCount.2 })

/-- Column loop of the last branch (neither bin is short). -/
def colsIntInt (fp : FloatOps) (useShort : Bool) (binXOffset binY : Int) :
    Nat → Decode → Decode
  | 0, st => st
  | n + 1, st =>
    let x := readIntFromFile st.bufferin
    let binX := wrap 32 (binXOffset + x.1)
    let s := readShortFromFile x.2
    let f := readFloatFromFile x.2
    colsIntInt fp useShort binXOffset binY n
      (if useShort then st.store { binX := binX, binY := binY, counts := fp.ofShort s.1 } s.2
       else st.store { binX := binX, binY := binY, counts := f.1 } f.2)

/-- Row loop of the last branch (neither bin is short). -/
def rowsIntInt (fp : FloatOps) (useShort : Bool) (binXOffset binYOffset : Int) :
    Nat → Decode → Decode
  | 0, st => st
  | n + 1, st =>
    let y := readIntFromFile st.bufferin
    let binY := wrap 32 (binYOffset + y.1)
    let colCount := readIntFromFile y.2
    rowsIntInt fp useShort binXOffset binYOffset n
      (colsIntInt fp useShort binXOffset binY colCount.1.toNat { st with bufferin := colCount.2 })

/-- The cell loop of a type 2 block, `n` cells to go from cell `i`. -/
def denseLoop (fp : FloatOps) (useShort : Bool) (binXOffset binYOffset w : Int) :
    Nat → Int → Decode → Except Fault Decode
  | 0, _, st => .ok st
  | n + 1, i, st =>
    if w = 0 then .error .divByZero
    else
      let row := Int.tdiv i w
      let col := wrap 32 (i - row * w)
      let bin1 := wrap 32 (binXOffset + col)
      let bin2 := wrap 32 (binYOffset + row)
      let c := readShortFromFile st.bufferin
      let counts := readFloatFromFile st.bufferin
      denseLoop fp useShort binXOffset binYOffset w n (i + 1)
        (if useShort then
           (if c.1 ≠ -32768 then
              st.store { binX := bin1, binY := bin2, counts := fp.ofShort c.1 } c.2
            else { st with bufferin := c.2 })
         else
           (if !isnan counts.1 then
              st.store { binX := bin1, binY := bin2, counts := counts.1 } counts.2
            else { st with bufferin := counts.2 }))

/-- The part of `readBlock` that parses the inflated bytes. -/
def parseBlock (fp : FloatOps) (version : Int) (bufferin : IStream) :
    Except Fault (List contactRecord) :=
  let nRecords := readIntFromFile bufferin
  if nRecords.1 < 0 then .error .badAlloc
  else
    let st : Decode :=
      { v := List.replicate nRecords.1.toNat zeroRecord, index := 0, bufferin := nRecords.2 }
    if version < 7 then (readRecordsV6 nRecords.1.toNat st).result nRecords.1.toNat
    else
      let binXOffset := readIntFromFile nRecords.2
      let binYOffset := readIntFromFile binXOffset.2
      let us := readCharFromFile binYOffset.2
      let useShort : Bool := us.1 == 0
      let ux := readCharFromFile us.2
      let uy := readCharFromFile ux.2
      let useShortBinX : Bool := if version > 8 then ux.1 == 0 else true
      let useShortBinY : Bool := if version > 8 then uy.1 == 0 else true
      let type := readCharFromFile (if version > 8 then uy.2 else us.2)
      let st1 : Decode := { st with bufferin := type.2 }
      if type.1 = 1 then
        if useShortBinX && useShortBinY then
          let rowCount := readShortFromFile st1.bufferin
          (rowsShortShort fp useShort binXOffset.1 binYOffset.1 rowCount.1.toNat
            { st1 with bufferin := rowCount.2 }).result nRecords.1.toNat
        else if useShortBinX && !useShortBinY then
          let rowCount := readIntFromFile st1.bufferin
          (rowsShortInt fp useShort binXOffset.1 binYOffset.1 rowCount.1.toNat
            { st1 with bufferin := rowCount.2 }).result nRecords.1.toNat
        else if !useShortBinX && useShortBinY then
          let rowCount := readShortFromFile st1.bufferin
          (rowsIntShort fp useShort binXOffset.1 binYOffset.1 rowCount.1.toNat
            { st1 with bufferin := rowCount.2 }).result nRecords.1.toNat
        else
          let rowCount := readIntFromFile st1.bufferin
          (rowsIntInt fp useShort binXOffset.1 binYOffset.1 rowCount.1.toNat
            { st1 with bufferin := rowCount.2 }).result nRecords.1.toNat
      else if type.1 = 2 then
        let nPts := readIntFromFile st1.bufferin
        let w := readShortFromFile nPts.2
        (denseLoop fp useShort binXOffset.1 binYOffset.1 w.1 nPts.1.toNat 0
          { st1 with bufferin := w.2 }).bind (fun d => d.result nRecords.1.toNat)
      else .ok st1.v

/-- The bytes `readBlock` and `readSize` hand to the parser: the compressed
bytes of the index entry (a range request over HTTP when `http` holds the
resource, a seek and a read into a new buffer otherwise), inflated into a
buffer of ten times the size. `inflate input capacity` is zlib: the bytes
`inflateInit; inflate(Z_NO_FLUSH); inflateEnd` put into the output buffer. -/
def inflateBlock (inflate : List Nat → Nat → List Nat) (junk : Nat → Nat) (fin : IStream)
    (http : Option (List Nat)) (idx : indexEntry) : List Nat × IStream :=
  match http with
  | some res =>
    (inflate (membuf (getData res idx.position idx.size) idx.size junk) (10 * idx.size.toNat), fin)
  | none =>
    let r := (fin.seekg idx.position).readTemp idx.size.toNat
    (inflate r.1 (10 * idx.size.toNat), r.2)

/-- `readBlock`: the records of one block, and the file stream afterwards. -/
def readBlock (fp : FloatOps) (inflate : List Nat → Nat → List Nat) (junk : Nat → Nat)
    (version : Int) (fin : IStream) (http : Option (List Nat)) (idx : indexEntry) :
    Except Fault (List contactRecord × IStream) :=
  if idx.size = 0 then .ok ([], fin)
  else if idx.size < 0 then .error .badAlloc
  else
    let u := inflateBlock inflate junk fin http idx
    (parseBlock fp version (IStream.open u.1 junk)).map (fun v => (v, u.2))

/-- `readSize`: the leading `nRecords` field of one block, and the file
stream afterwards. -/
def readSize (inflate : List Nat → Nat → List Nat) (junk : Nat → Nat)
    (fin : IStream) (http : Option (List Nat)) (idx : indexEntry) :
    Except Fault (Int × IStream) :=
  if idx.size = 0 then .ok (0, fin)
  else if idx.size < 0 then .error .badAlloc
  else
    let u := inflateBlock inflate junk fin http idx
    .ok ((readIntFromFile (IStream.open u.1 junk)).1, u.2)

/-! ## readNormalizationVector -/

/-- The value loop of `readNormalizationVector`: `values[i] = ...` for `n`
more values from position `i`. A store past the end of the vector is
undefined behaviour; the run is taken to stop there. -/
def readNormValues (fp : FloatOps) (version : Int) :
    Nat → Nat → IStream → List Nat → Except Fault (List Nat)
  | 0, _, _, values => .ok values
  | n + 1, i, bufferin, values =>
    if values.length ≤ i then .error .outOfBounds
    else
      let f := readFloatFromFile bufferin
      let d := readDoubleFromFile bufferin
      if version > 8 then
        readNormValues fp version n (i + 1) f.2 (values.set i (fp.toDouble f.1))
      else readNormValues fp version n (i + 1) d.2 (values.set i d.1)

/-- `readNormalizationVector`: the vector has `(int) nValues` entries, and the
loop stores `nValues` values into it. -/
def readNormalizationVector (fp : FloatOps) (version : Int) (bufferin : IStream) :
    Except Fault (List Nat) :=
  let nValues := if version > 8 then readLongFromFile bufferin else readIntFromFile bufferin
  if wrap 32 nValues.1 < 0 then .error .badAlloc
  else readNormValues fp version nValues.1.toNat 0 nValues.2
    (List.replicate (wrap 32 nValues.1).toNat 0)

/-! ## straw and getSize -/

/-- `isspace` in the C locale. -/
def isSpace (c : Nat) : Bool := c == 32 || (9 ≤ c && c ≤ 13)

/-- A decimal digit. -/
def isDigit (c : Nat) : Bool := 48 ≤ c && c ≤ 57

/-- The value of a run of decimal digits. -/
def digitsValue (ds : List Nat) : Nat := ds.foldl (fun acc d => 10 * acc + (d - 48)) 0

/-- `std::stol(str)`: leading white space and one optional sign are skipped,
the longest run of digits is converted; no digit throws
`std::invalid_argument`, a value outside `long` throws `std::out_of_range`. -/
def stol (str : Str) : Except Fault Int :=
  let t := str.dropWhile isSpace
  let neg : Bool := t.head? == some 45
  let u := if t.head? == some 45 || t.head? == some 43 then t.tail else t
  let ds := u.takeWhile isDigit
  let v : Int := if neg then -(digitsValue ds : Int) else (digitsValue ds : Int)
  if ds.isEmpty then .error .invalidArgument
  else if v < -(2 ^ 63) ∨ 2 ^ 63 - 1 < v then .error .outOfRange
  else .ok v

/-- Everything a call depends on besides its arguments. -/
structure Env where
  /-- The floating-point unit. -/
  fp : FloatOps
  /-- zlib: `inflate input capacity`. -/
  inflate : List Nat → Nat → List Nat
  /-- The file system: the content of each file that can be opened. -/
  files : Str → Option (List Nat)
  /-- The network: the resource behind each URL for which `initCURL`
  returns a handle. -/
  urls : Str → Option (List Nat)
  /-- The global `version` before the call. -/
  version : Int
  /-- Indeterminate bytes. -/
  junk : Nat → Nat
  /-- The uninitialised local `master`. -/
  master : Int
  /-- The uninitialised local `myFilePos`. -/
  myFilePos : Int
  /-- The uninitialised local `c1NormEntry`. -/
  c1NormEntry : indexEntry
  /-- The uninitialised local `c2NormEntry`. -/
  c2NormEntry : indexEntry
  /-- The uninitialised local `blockBinCount`. -/
  blockBinCount : Int
  /-- The uninitialised local `blockColumnCount`. -/
  blockColumnCount : Int

/-- The state after the source has been opened and the header read (lines
842-876 of `straw`, 1053-1084 of `getSize`): `http` holds the resource when
`isHttp`, `total_bytes` is the global set from `Content-Range`. -/
structure Opened where
  http : Option (List Nat)
  total_bytes : Int
  hdr : HeaderResult
  /-- The `ifstream fin` of the caller: the stream the header was read from
  on the local path, never opened over HTTP. -/
  fin : IStream

/-- Opening the source and reading the header; `none` when the file or the
URL cannot be opened. Over HTTP the header is read from a buffer of the
first 100000 bytes; locally from the file stream. -/
def openSource (env : Env) (fname : Str) : Option Opened :=
  if fname.take 4 = ascii "http" then
    match env.urls fname with
    | none => none
    | some res =>
      some { http := some res, total_bytes := res.length,
             hdr := readHeader
               (IStream.open (membuf (getData res 0 100000) 100000 env.junk) env.junk)
               env.version env.master,
             fin := IStream.open [] env.junk }
  else
    match env.files fname with
    | none => none
    | some bytes =>
      some { http := none, total_bytes := 0,
             hdr := readHeader (IStream.open bytes env.junk) env.version env.master,
             fin := (readHeader (IStream.open bytes env.junk) env.version env.master).fin }

/-- A parsed location: chromosome name and the two positions. -/
structure Loc where
  chr : Str
  pos1 : Int
  pos2 : Int

/-- Parsing one location string (lines 879-895, 896-910): `none` when the
chromosome is not in the map; otherwise the positions given, or `0` and the
chromosome length when the string does not hold two more `:`-separated
fields. The name is looked up before the range is converted. -/
def parseLoc (chromosomeMap : ChromMap) (junk : Nat → Nat) (loc : Str) :
    Option (Except Fault Loc) :=
  let chr := getline (IStream.open loc junk) [] 58
  if chromosomeMap.count chr.1 = 0 then none
  else
    let x := getline chr.2 [] 58
    let y := getline x.2 [] 58
    if !x.2.fail && !y.2.fail then
      match stol x.1 with
      | .error e => some (.error e)
      | .ok p1 =>
        match stol y.1 with
        | .error e => some (.error e)
        | .ok p2 => some (.ok { chr := chr.1, pos1 := p1, pos2 := p2 })
    else some (.ok { chr := chr.1, pos1 := 0, pos2 := (chromosomeMap.at chr.1).length })

/-- `origRegionIndices`: the two intervals, in the order of the chromosome
indices (lines 915-927). -/
def origRegion (chromosomeMap : ChromMap) (l1 l2 : Loc) : Int × Int × Int × Int :=
  if (chromosomeMap.at l1.chr).index > (chromosomeMap.at l2.chr).index then
    (l2.pos1, l2.pos2, l1.pos1, l1.pos2)
  else (l1.pos1, l1.pos2, l2.pos1, l2.pos2)

/-- Reading the footer (lines 934-949): over HTTP from a buffer of
`total_bytes - master` bytes fetched at `master`, locally after a seek. The
`fin` of the result is the caller's file stream afterwards, which the HTTP
path leaves alone. -/
def footerOf (env : Env) (o : Opened) (c1 c2 : Int) (norm unit : Str) (binsize : Int) :
    FooterResult :=
  let master := o.hdr.masterIndexPosition
  let bytes_to_read := wrap 64 (o.total_bytes - master)
  match o.http with
  | some res =>
    { readFooter
        (IStream.open (membuf (getData res master bytes_to_read) bytes_to_read env.junk)
          env.junk)
        o.hdr.version c1 c2 norm unit binsize env.myFilePos env.c1NormEntry env.c2NormEntry
      with fin := o.fin }
  | none =>
    readFooter (o.fin.seekg master)
      o.hdr.version c1 c2 norm unit binsize env.myFilePos env.c1NormEntry env.c2NormEntry

/-- Loading one normalization vector (lines 961-971, 973-983): the bytes of
the index entry are fetched, or read from the file into a new buffer, and
parsed. Returns the vector and the file stream afterwards. -/
def loadNorm (env : Env) (version : Int) (http : Option (List Nat)) (fin : IStream)
    (e : indexEntry) : Except Fault (List Nat × IStream) :=
  match http with
  | some res =>
    (readNormalizationVector env.fp version
      (IStream.open (membuf (getData res e.position e.size) e.size env.junk) env.junk)).map
      (fun v => (v, fin))
  | none =>
    if e.size < 0 then .error .badAlloc
    else
      let r := (fin.seekg e.position).readTemp e.size.toNat
      (readNormalizationVector env.fp version (IStream.open r.1 env.junk)).map
        (fun v => (v, r.2))

/-- Locating the matrix (lines 988-997); over HTTP the file stream is not
touched. -/
def matrixOf (env : Env) (http : Option (List Nat)) (fin : IStream) (myFilePos : Int)
    (unit : Str) (binsize : Int) : ZoomResult :=
  match http with
  | some res =>
    let r := readMatrixHttp res env.junk myFilePos unit binsize
      env.blockBinCount env.blockColumnCount
    { blockMap := r.blockMap, myBlockBinCount := r.myBlockBinCount,
      myBlockColumnCount := r.myBlockColumnCount, found := r.found, fin := fin }
  | none => readMatrix fin myFilePos unit binsize env.blockBinCount env.blockColumnCount

/-- Selecting the block numbers (lines 999-1005). -/
def blockNumbersOf (fp : FloatOps) (version c1 c2 : Int) (ri0 ri1 ri2 ri3 : Int)
    (blockBinCount blockColumnCount : Int) : Except Fault (List Int) :=
  if version > 8 ∧ c1 = c2 then
    getBlockNumbersForRegionFromBinPositionV9Intra fp ri0 ri1 ri2 ri3
      blockBinCount blockColumnCount
  else
    getBlockNumbersForRegionFromBinPosition ri0 ri1 ri2 ri3
      blockBinCount blockColumnCount (decide (c1 = c2))

/-- `c1Norm[i]`: `operator[]` does not check the index; outside the vector
the value read is indeterminate. -/
def vecAt (v : List Nat) (i : Int) (junk : Nat → Nat) : Nat :=
  if 0 ≤ i ∧ i < v.length then v.getD i.toNat 0 else junk i.natAbs

/-- Everything the record loop of `straw` reads besides the record. -/
structure Query where
  norm : Str
  binsize : Int
  c1 : Int
  c2 : Int
  origRegionIndices : Int × Int × Int × Int
  c1Norm : List Nat
  c2Norm : List Nat

/-- The coordinate `long x = rec.binX * binsize`: both operands are `int`,
so the product is formed in `int` and then widened. -/
def scaled (bin binsize : Int) : Int := wrap 32 (bin * binsize)

/-- The counts a record is emitted with (lines 1018-1021). -/
def normalized (fp : FloatOps) (junk : Nat → Nat) (q : Query) (rec : contactRecord) : Nat :=
  if q.norm ≠ ascii "NONE" then
    fp.toFloat (fp.div (fp.toDouble rec.counts)
      (fp.mul (vecAt q.c1Norm rec.binX junk) (vecAt q.c2Norm rec.binY junk)))
  else rec.counts

/-- The test of lines 1023-1027 on the scaled coordinates. -/
def accepted (q : Query) (x y : Int) : Bool :=
  decide ((x ≥ q.origRegionIndices.1 ∧ x ≤ q.origRegionIndices.2.1 ∧
           y ≥ q.origRegionIndices.2.2.1 ∧ y ≤ q.origRegionIndices.2.2.2) ∨
          (q.c1 = q.c2 ∧ y ≥ q.origRegionIndices.1 ∧ y ≤ q.origRegionIndices.2.1 ∧
           x ≥ q.origRegionIndices.2.2.1 ∧ x ≤ q.origRegionIndices.2.2.2))

/-- The body of the inner loop of `straw` (lines 1014-1034): the record
pushed for `rec`, if any. -/
def emitRecord (fp : FloatOps) (junk : Nat → Nat) (q : Query) (rec : contactRecord) :
    Option contactRecord :=
  let x := scaled rec.binX q.binsize
  let y := scaled rec.binY q.binsize
  let c := normalized fp junk q rec
  if accepted q x y then some { binX := x, binY := y, counts := c } else none

/-- The outer loop of `straw` (lines 1010-1036) over the block numbers still
to visit, `records` being what has been pushed so far. -/
def strawBlocks (env : Env) (version : Int) (http : Option (List Nat)) (blockMap : BlockMap)
    (q : Query) : List Int → IStream → List contactRecord → Except Fault (List contactRecord)
  | [], _, records => .ok records
  | b :: rest, fin, records =>
    match readBlock env.fp env.inflate env.junk version fin http (blockMap.at b) with
    | .error e => .error e
    | .ok tmp_records =>
      strawBlocks env version http blockMap q rest tmp_records.2
        (records ++ tmp_records.1.filterMap (emitRecord env.fp env.junk q))

/-- `regionIndices`: the four bounds divided by `binsize` (lines 928-932). -/
def regionOf (orig : Int × Int × Int × Int) (binsize : Int) :
    Except Fault (Int × Int × Int × Int) :=
  match cdiv orig.1 binsize with
  | .error e => .error e
  | .ok r0 =>
    match cdiv orig.2.1 binsize with
    | .error e => .error e
    | .ok r1 =>
      match cdiv orig.2.2.1 binsize with
      | .error e => .error e
      | .ok r2 =>
        match cdiv orig.2.2.2 binsize with
        | .error e => .error e
        | .ok r3 => .ok (r0, r1, r2, r3)

/-- The two normalization vectors and the file stream after loading them. -/
structure Norms where
  c1Norm : List Nat
  c2Norm : List Nat
  fin : IStream

/-- Lines 957-986: with `norm != "NONE"` both vectors are loaded from the
entries the footer left; otherwise both stay empty. -/
def loadNorms (env : Env) (version : Int) (http : Option (List Nat)) (norm : Str)
    (ft : FooterResult) : Except Fault Norms :=
  if norm ≠ ascii "NONE" then
    match loadNorm env version http ft.fin ft.c1NormEntry with
    | .error e => .error e
    | .ok n1 =>
      match loadNorm env version http n1.2 ft.c2NormEntry with
      | .error e => .error e
      | .ok n2 => .ok { c1Norm := n1.1, c2Norm := n2.1, fin := n2.2 }
  else .ok { c1Norm := [], c2Norm := [], fin := ft.fin }

/-- The part of `straw` after both locations are parsed (lines 912-1042). -/
def strawRegion (env : Env) (norm unit : Str) (binsize : Int) (o : Opened) (l1 l2 : Loc) :
    Except Fault (List contactRecord) :=
  let c1 := min (o.hdr.chromosomeMap.at l1.chr).index (o.hdr.chromosomeMap.at l2.chr).index
  let c2 := max (o.hdr.chromosomeMap.at l1.chr).index (o.hdr.chromosomeMap.at l2.chr).index
  let orig := origRegion o.hdr.chromosomeMap l1 l2
  match regionOf orig binsize with
  | .error e => .error e
  | .ok ri =>
    let ft := footerOf env o c1 c2 norm unit binsize
    if !ft.ret then .ok []
    else
      match loadNorms env o.hdr.version o.http norm ft with
      | .error e => .error e
      | .ok nv =>
        let mx := matrixOf env o.http nv.fin ft.myFilePos unit binsize
        match blockNumbersOf env.fp o.hdr.version c1 c2 ri.1 ri.2.1 ri.2.2.1 ri.2.2.2
            mx.myBlockBinCount mx.myBlockColumnCount with
        | .error e => .error e
        | .ok blockNumbers =>
          strawBlocks env o.hdr.version o.http mx.blockMap
            { norm := norm, binsize := binsize, c1 := c1, c2 := c2, origRegionIndices := orig,
              c1Norm := nv.c1Norm, c2Norm := nv.c2Norm }
            blockNumbers mx.fin []

/-- `straw`. -/
def straw (env : Env) (norm fname chr1loc chr2loc unit : Str) (binsize : Int) :
    Except Fault (List contactRecord) :=
  if ¬(unit = ascii "BP" ∨ unit = ascii "FRAG") then .ok []
  else
    match openSource env fname with
    | none => .ok []
    | some o =>
      match parseLoc o.hdr.chromosomeMap env.junk chr1loc with
      | none => .ok []
      | some (.error e) => .error e
      | some (.ok l1) =>
        match parseLoc o.hdr.chromosomeMap env.junk chr2loc with
        | none => .ok []
        | some (.error e) => .error e
        | some (.ok l2) => strawRegion env norm unit binsize o l1 l2

/-- The loop of `getSize` (lines 1206-1209) over the block numbers still to
visit. -/
def sizeBlocks (env : Env) (http : Option (List Nat)) (blockMap : BlockMap) :
    List Int → IStream → Int → Except Fault Int
  | [], _, count => .ok count
  | b :: rest, fin, count =>
    match readSize env.inflate env.junk fin http (blockMap.at b) with
    | .error e => .error e
    | .ok n => sizeBlocks env http blockMap rest n.2 (wrap 32 (count + n.1))

/-- The part of `getSize` after both locations are parsed (lines 1117-1210). -/
def sizeRegion (env : Env) (norm unit : Str) (binsize : Int) (o : Opened) (l1 l2 : Loc) :
    Except Fault Int :=
  let c1 := min (o.hdr.chromosomeMap.at l1.chr).index (o.hdr.chromosomeMap.at l2.chr).index
  let c2 := max (o.hdr.chromosomeMap.at l1.chr).index (o.hdr.chromosomeMap.at l2.chr).index
  match regionOf (origRegion o.hdr.chromosomeMap l1 l2) binsize with
  | .error e => .error e
  | .ok ri =>
    let ft := footerOf env o c1 c2 norm unit binsize
    if !ft.ret then .ok 0
    else
      match loadNorms env o.hdr.version o.http norm ft with
      | .error e => .error e
      | .ok nv =>
        let mx := matrixOf env o.http nv.fin ft.myFilePos unit binsize
        match blockNumbersOf env.fp o.hdr.version c1 c2 ri.1 ri.2.1 ri.2.2.1 ri.2.2.2
            mx.myBlockBinCount mx.myBlockColumnCount with
        | .error e => .error e
        | .ok blockNumbers => sizeBlocks env o.http mx.blockMap blockNumbers mx.fin 0

/-- `getSize`. -/
def getSize (env : Env) (norm fname chr1loc chr2loc unit : Str) (binsize : Int) :
    Except Fault Int :=
  if ¬(unit = ascii "BP" ∨ unit = ascii "FRAG") then .ok 0
  else
    match openSource env fname with
    | none => .ok 0
    | some o =>
      match parseLoc o.hdr.chromosomeMap env.junk chr1loc with
      | none => .ok 0
      | some (.error e) => .error e
      | some (.ok l1) =>
        match parseLoc o.hdr.chromosomeMap env.junk chr2loc with
        | none => .ok 0
        | some (.error e) => .error e
        | some (.ok l2) => sizeRegion env norm unit binsize o l1 l2

/-! ## Notions used to state the properties -/

/-- The point `(x, y)` lies in the rectangle `[o0, o1] x [o2, o3]` given as
`origRegionIndices`. -/
@[reducible] def inRect (orig : Int × Int × Int × Int) (x y : Int) : Prop :=
  orig.1 ≤ x ∧ x ≤ orig.2.1 ∧ orig.2.2.1 ≤ y ∧ y ≤ orig.2.2.2

/-- The records `readBlock` returns for each of the given block numbers, read
one after the other from the file stream `fin`, as the outer loop of `straw`
does. -/
def decodedBlocks (env : Env) (version : Int) (http : Option (List Nat)) (blockMap : BlockMap) :
    List Int → IStream → Except Fault (List (List contactRecord))
  | [], _ => .ok []
  | b :: rest, fin =>
    match readBlock env.fp env.inflate env.junk version fin http (blockMap.at b) with
    | .error e => .error e
    | .ok r =>
      match decodedBlocks env version http blockMap rest r.2 with
      | .error e => .error e
      | .ok bl => .ok (r.1 :: bl)

/-- The `Query` the record loop of `straw` runs with, for parsed locations
`l1`, `l2` and loaded vectors `nv`. -/
def queryOf (norm : Str) (binsize : Int) (o : Opened) (l1 l2 : Loc) (nv : Norms) : Query :=
  { norm := norm, binsize := binsize,
    c1 := min (o.hdr.chromosomeMap.at l1.chr).index (o.hdr.chromosomeMap.at l2.chr).index,
    c2 := max (o.hdr.chromosomeMap.at l1.chr).index (o.hdr.chromosomeMap.at l2.chr).index,
    origRegionIndices := origRegion o.hdr.chromosomeMap l1 l2,
    c1Norm := nv.c1Norm, c2Norm := nv.c2Norm }

/-- The footer as `straw` reads it for parsed locations `l1`, `l2`: under
the indices `min`, `max` of the two chromosomes. -/
def footerFor (env : Env) (norm unit : Str) (binsize : Int) (o : Opened) (l1 l2 : Loc) :
    FooterResult :=
  footerOf env o
    (min (o.hdr.chromosomeMap.at l1.chr).index (o.hdr.chromosomeMap.at l2.chr).index)
    (max (o.hdr.chromosomeMap.at l1.chr).index (o.hdr.chromosomeMap.at l2.chr).index)
    norm unit binsize

/-- The matrix as `straw` locates it after the footer and the vectors `nv`. -/
def matrixFor (env : Env) (norm unit : Str) (binsize : Int) (o : Opened) (l1 l2 : Loc)
    (nv : Norms) : ZoomResult :=
  matrixOf env o.http nv.fin (footerFor env norm unit binsize o l1 l2).myFilePos unit binsize

/-- The block numbers `straw` selects for the region `ri`. -/
def blockNumbersFor (env : Env) (norm unit : Str) (binsize : Int) (o : Opened) (l1 l2 : Loc)
    (nv : Norms) (ri : Int × Int × Int × Int) : Except Fault (List Int) :=
  blockNumbersOf env.fp o.hdr.version
    (min (o.hdr.chromosomeMap.at l1.chr).index (o.hdr.chromosomeMap.at l2.chr).index)
    (max (o.hdr.chromosomeMap.at l1.chr).index (o.hdr.chromosomeMap.at l2.chr).index)
    ri.1 ri.2.1 ri.2.2.1 ri.2.2.2
    (matrixFor env norm unit binsize o l1 l2 nv).myBlockBinCount
    (matrixFor env norm unit binsize o l1 l2 nv).myBlockColumnCount

/-- The leading NUL-terminated string of a byte sequence. -/
def leadingString (data : List Nat) : Str := data.takeWhile (fun b => b != 0)

/-- The bytes `straw` reads the header from: the file, or over HTTP the
buffer of the first 100000 bytes of the resource; `none` when the source
cannot be opened. -/
def headerBytes (env : Env) (fname : Str) : Option (List Nat) :=
  if fname.take 4 = ascii "http" then
    (env.urls fname).map (fun res => membuf (getData res 0 100000) 100000 env.junk)
  else env.files fname

/-- The version as `readHeader` reads it from a fresh stream over `data`:
the four bytes after the leading string, read into the global `version`
(which held `version0`). -/
def versionField (data : List Nat) (junk : Nat → Nat) (version0 : Int) : Int :=
  leInt ((getline (IStream.open data junk) [] 0).2.read 4 (bytesOf 4 version0)).1

/-- The chromosome name of a location string: the text before the first
`:`. -/
def locName (loc : Str) : Str := loc.takeWhile (fun b => b != 58)

/-- The `(key, fpos)` pairs of the `n` master-index entries that start at
`fin`, read with the same primitives as `readFooter` uses. -/
def masterIndexEntries : Nat → IStream → List (Str × Int)
  | 0, _ => []
  | n + 1, fin =>
    let str := getline fin [] 0
    let fpos := readLongFromFile str.2
    let sizeinbytes := readIntFromFile fpos.2
    (str.1, fpos.1) :: masterIndexEntries n sizeinbytes.2

/-- The master-index entries of the footer that starts at `fin`: after the
footer size (a long when `version > 8`, an int otherwise) comes `nEntries`,
then the entries. -/
def footerEntries (version : Int) (fin : IStream) : List (Str × Int) :=
  let f0 := if version > 8 then (readLongFromFile fin).2 else (readIntFromFile fin).2
  let nEntries := readIntFromFile f0
  masterIndexEntries nEntries.1.toNat nEntries.2

/-- The stream `straw` hands to `readFooter`: over HTTP a buffer of
`total_bytes - master` bytes fetched at `master`, locally the file stream
after a seek to `master`. -/
def footerStream (env : Env) (o : Opened) : IStream :=
  match o.http with
  | some res =>
    IStream.open
      (membuf (getData res o.hdr.masterIndexPosition
          (wrap 64 (o.total_bytes - o.hdr.masterIndexPosition)))
        (wrap 64 (o.total_bytes - o.hdr.masterIndexPosition)) env.junk) env.junk
  | none => o.fin.seekg o.hdr.masterIndexPosition

/-- The `n` normalization-vector index entries that start at `fin`. -/
def normIndexEntries (version : Int) : Nat → IStream → List NormEntry
  | 0, _ => []
  | n + 1, fin =>
    (readNormEntry version fin).1 :: normIndexEntries version n (readNormEntry version fin).2

/-- An index entry is the one `readFooter` looks for: chromosome `c`,
normalization `norm`, `unit` and `resolution`. -/
def NormEntry.isFor (e : NormEntry) (c : Int) (norm unit : Str) (resolution : Int) : Bool :=
  decide (e.chrIdx = c ∧ e.normtype = norm ∧ e.unit1 = unit ∧ e.resolution1 = resolution)

/-- The normalization-vector index entries of the footer that starts at
`fin`: they follow the master index and the two expected-value maps. -/
def footerNormEntries (version : Int) (fin : IStream) : List NormEntry :=
  let f0 := if version > 8 then (readLongFromFile fin).2 else (readIntFromFile fin).2
  let nEntries := readIntFromFile f0
  let mi := readMasterIndex [] nEntries.1.toNat nEntries.2 false 0
  let nExpectedValues := readIntFromFile mi.2.2
  let f1 := skipExpectedValues version false nExpectedValues.1.toNat nExpectedValues.2
  let nExpectedValues2 := readIntFromFile f1
  let f2 := skipExpectedValues version true nExpectedValues2.1.toNat nExpectedValues2.2
  let nEntries2 := readIntFromFile f2
  normIndexEntries version nEntries2.1.toNat nEntries2.2

/-! ## Sample files -/

/-- An `int` as four little-endian bytes. -/
def i32 (x : Int) : List Nat := bytesOf 4 x

/-- A `long` as eight little-endian bytes. -/
def i64 (x : Int) : List Nat := bytesOf 8 x

/-- A `short` as two little-endian bytes. -/
def i16 (x : Int) : List Nat := bytesOf 2 x

/-- A NUL-terminated ASCII string. -/
def cstr (s : String) : List Nat := ascii s ++ [0]

/-- Zero padding of `bs` up to offset `n`. -/
def padTo (n : Nat) (bs : List Nat) : List Nat := bs ++ List.replicate (n - bs.length) 0

/-- A version 8 file with one chromosome `X` of length 2000 and one matrix
`0_0` at resolution BP 100 (blockBinCount 10, blockColumnCount 2) whose only
block, number 0, holds the record (binX 3, binY 8, counts 2) in the
list-of-rows encoding with short counts. Header at 0, block at 40, footer at
100, matrix at 200; blocks are stored uncompressed (see `sampleEnv`). -/
def sampleV8 : List Nat :=
  padTo 200
    (padTo 100
      (padTo 40
        (cstr "HIC" ++ i32 8 ++ i64 100 ++ cstr "g" ++ i32 0 ++ i32 1 ++ cstr "X" ++ i32 2000)
      ++ (i32 1 ++ i32 0 ++ i32 0 ++ [0] ++ [1] ++ i16 1 ++ i16 8 ++ i16 1 ++ i16 3 ++ i16 2))
    ++ (i32 0 ++ i32 1 ++ cstr "0_0" ++ i64 200 ++ i32 0))
  ++ (i32 0 ++ i32 0 ++ i32 1 ++ cstr "BP" ++ i32 0 ++ i32 0 ++ i32 0 ++ i32 0 ++ i32 0
      ++ i32 100 ++ i32 10 ++ i32 2 ++ i32 1 ++ i32 0 ++ i64 40 ++ i32 24)

/-- A version 9 file with chromosomes `1` and `2` of length 20 and one matrix
`0_1` at resolution BP 10 (blockBinCount 10, blockColumnCount 1) whose only
block holds the record (binX 1, binY 1, counts 20.0f); the VC vectors are
[2.0, 4.0] for chromosome 0 and [1.0, 5.0] for chromosome 1. Header at 0,
block at 70, vectors at 100 and 120, matrix at 140, footer at 210. -/
def sampleV9 : List Nat :=
  padTo 210
    (padTo 140
      (padTo 120
        (padTo 100
          (padTo 70
            (cstr "HIC" ++ i32 9 ++ i64 210 ++ cstr "g" ++ i64 0 ++ i64 0 ++ i32 0 ++ i32 2
              ++ cstr "1" ++ i64 20 ++ cstr "2" ++ i64 20)
          ++ (i32 1 ++ i32 0 ++ i32 0 ++ [1] ++ [0] ++ [0] ++ [1] ++ i16 1 ++ i16 1 ++ i16 1
              ++ i16 1 ++ i32 0x41A00000))
        ++ (i64 2 ++ i32 0x40000000 ++ i32 0x40800000))
      ++ (i64 2 ++ i32 0x3F800000 ++ i32 0x40A00000))
    ++ (i32 0 ++ i32 1 ++ i32 1 ++ cstr "BP" ++ i32 0 ++ i32 0 ++ i32 0 ++ i32 0 ++ i32 0
        ++ i32 10 ++ i32 10 ++ i32 1 ++ i32 1 ++ i32 0 ++ i64 70 ++ i32 28))
  ++ (i64 0 ++ i32 1 ++ cstr "0_1" ++ i64 140 ++ i32 67 ++ i32 0 ++ i32 0 ++ i32 2
      ++ cstr "VC" ++ i32 0 ++ cstr "BP" ++ i32 10 ++ i64 100 ++ i64 16
      ++ cstr "VC" ++ i32 1 ++ cstr "BP" ++ i32 10 ++ i64 120 ++ i64 16)

/-- A version 9 file with one chromosome `1` of length 6000000000 and one
matrix `0_0` at resolution BP 100000 (blockBinCount 100000, blockColumnCount
1) whose only block, number 0, holds the record (binX 50000, binY 0, counts
20.0f), that is the cell at 5000000000 bp. Header at 0, block at 70, matrix
at 140, footer at 210. -/
def sampleBig : List Nat :=
  padTo 210
    (padTo 140
      (padTo 70
        (cstr "HIC" ++ i32 9 ++ i64 210 ++ cstr "g" ++ i64 0 ++ i64 0 ++ i32 0 ++ i32 1
          ++ cstr "1" ++ i64 6000000000)
      ++ (i32 1 ++ i32 0 ++ i32 0 ++ [1] ++ [1] ++ [0] ++ [1] ++ i16 1 ++ i16 0 ++ i32 1
          ++ i32 50000 ++ i32 0x41A00000))
    ++ (i32 0 ++ i32 0 ++ i32 1 ++ cstr "BP" ++ i32 0 ++ i32 0 ++ i32 0 ++ i32 0 ++ i32 0
        ++ i32 100000 ++ i32 100000 ++ i32 1 ++ i32 1 ++ i32 0 ++ i64 70 ++ i32 32))
  ++ (i64 0 ++ i32 1 ++ cstr "0_0" ++ i64 140 ++ i32 67)

/-- A version 8 file with chromosomes `1` (length 1000, index 0) and `2`
(length 800, index 1) and one matrix `0_1` at resolution BP 100 (blockBinCount
10, blockColumnCount 1) whose only block, number 0, holds the record (binX 1,
binY 7, counts 2): the cell at 100 bp on chromosome `1` and 700 bp on
chromosome `2`. Header at 0, block at 40, footer at 100, matrix at 200. -/
def sampleInterV8 : List Nat :=
  padTo 200
    (padTo 100
      (padTo 40
        (cstr "HIC" ++ i32 8 ++ i64 100 ++ cstr "g" ++ i32 0 ++ i32 2 ++ cstr "1" ++ i32 1000
          ++ cstr "2" ++ i32 800)
      ++ (i32 1 ++ i32 0 ++ i32 0 ++ [0] ++ [1] ++ i16 1 ++ i16 7 ++ i16 1 ++ i16 1 ++ i16 2))
    ++ (i32 0 ++ i32 1 ++ cstr "0_1" ++ i64 200 ++ i32 0))
  ++ (i32 0 ++ i32 1 ++ i32 1 ++ cstr "BP" ++ i32 0 ++ i32 0 ++ i32 0 ++ i32 0 ++ i32 0
      ++ i32 100 ++ i32 10 ++ i32 1 ++ i32 1 ++ i32 0 ++ i64 40 ++ i32 24)

/-- A version 8 file with one chromosome `X` of length 2000 and one matrix
`0_0` at resolution BP 100 (blockBinCount 10, blockColumnCount 2) with two
blocks, numbers 0 and 1, each of which announces 1073741824 records in its
`nRecords` field and holds a list of rows with no row. Header at 0, blocks at
40 and 56, footer at 100, matrix at 200. -/
def sampleHuge : List Nat :=
  padTo 200
    (padTo 100
      (padTo 40
        (cstr "HIC" ++ i32 8 ++ i64 100 ++ cstr "g" ++ i32 0 ++ i32 1 ++ cstr "X" ++ i32 2000)
      ++ (i32 1073741824 ++ i32 0 ++ i32 0 ++ [0] ++ [1] ++ i16 0)
      ++ (i32 1073741824 ++ i32 0 ++ i32 0 ++ [0] ++ [1] ++ i16 0))
    ++ (i32 0 ++ i32 1 ++ cstr "0_0" ++ i64 200 ++ i32 0))
  ++ (i32 0 ++ i32 0 ++ i32 1 ++ cstr "BP" ++ i32 0 ++ i32 0 ++ i32 0 ++ i32 0 ++ i32 0
      ++ i32 100 ++ i32 10 ++ i32 2 ++ i32 2 ++ i32 0 ++ i64 40 ++ i32 16
      ++ i32 1 ++ i64 56 ++ i32 16)

/-- A version 8 file with one chromosome `X` of length 2000 and one matrix
`0_0` at resolution BP 100 (blockBinCount 10, blockColumnCount 2) whose only
block, number 0, has `nRecords = 2`, offsets 0, short counts and the type
byte 3. Header at 0, block at 40, footer at 100, matrix at 200. -/
def sampleUnknownType : List Nat :=
  padTo 200
    (padTo 100
      (padTo 40
        (cstr "HIC" ++ i32 8 ++ i64 100 ++ cstr "g" ++ i32 0 ++ i32 1 ++ cstr "X" ++ i32 2000)
      ++ (i32 2 ++ i32 0 ++ i32 0 ++ [0] ++ [3]))
    ++ (i32 0 ++ i32 1 ++ cstr "0_0" ++ i64 200 ++ i32 0))
  ++ (i32 0 ++ i32 0 ++ i32 1 ++ cstr "BP" ++ i32 0 ++ i32 0 ++ i32 0 ++ i32 0 ++ i32 0
      ++ i32 100 ++ i32 10 ++ i32 2 ++ i32 1 ++ i32 0 ++ i64 40 ++ i32 14)

/-- A file that does not start with the magic string: `HID`, then the same
fields as a version 8 header. -/
def sampleBadMagic : List Nat :=
  cstr "HID" ++ i32 8 ++ i64 100 ++ cstr "g" ++ i32 0 ++ i32 1 ++ cstr "X" ++ i32 2000

/-- A header with the magic string and version 5, then the same fields as a
version 8 header. -/
def sampleV5 : List Nat :=
  cstr "HIC" ++ i32 5 ++ i64 100 ++ cstr "g" ++ i32 0 ++ i32 1 ++ cstr "X" ++ i32 2000

/-! ## IEEE-754 arithmetic for the sample runs -/

/-- The number of binary digits of `n`, found by halving at most `fuel`
times. -/
def bitLength : Nat → Nat → Nat
  | 0, _ => 0
  | fuel + 1, n => if n = 0 then 0 else bitLength fuel (n / 2) + 1

/-- The integer `k` with `2^k <= n / d < 2^(k + 1)`, for positive `n` and
`d` below `2^4096`. -/
def floorLog2 (n d : Nat) : Int :=
  let k0 : Int := (bitLength 4096 n : Int) - (bitLength 4096 d : Int)
  if d * 2 ^ k0.toNat ≤ n * 2 ^ (-k0).toNat then k0 else k0 - 1

/-- The bit pattern, sign apart, of the positive rational `n / d` rounded to
nearest, ties to even, in the binary format with `mb` fraction bits and `eb`
exponent bits: subnormal below the smallest normal number, infinity on
overflow. -/
def roundBits (mb eb n d : Nat) : Nat :=
  let bias : Int := 2 ^ (eb - 1) - 1
  let k := max (floorLog2 n d) (1 - bias)
  let ex := k - mb
  let num := n * 2 ^ (-ex).toNat
  let den := d * 2 ^ ex.toNat
  let q := num / den
  let r := num % den
  let m := if 2 * r < den then q else if den < 2 * r then q + 1 else q + q % 2
  min ((k + bias - 1).toNat * 2 ^ mb + m) ((2 ^ eb - 1) * 2 ^ mb)

/-- The sign bit of a pattern of the format, in place. -/
def signOf (mb eb bits : Nat) : Nat := bits / 2 ^ (mb + eb) % 2 * 2 ^ (mb + eb)

/-- The exponent field. -/
def expOf (mb eb bits : Nat) : Nat := bits / 2 ^ mb % 2 ^ eb

/-- The fraction field. -/
def fracOf (mb bits : Nat) : Nat := bits % 2 ^ mb

/-- The pattern is a NaN of the format. -/
def isNaNBits (mb eb bits : Nat) : Bool := expOf mb eb bits == 2 ^ eb - 1 && fracOf mb bits != 0

/-- The pattern is an infinity of the format. -/
def isInfBits (mb eb bits : Nat) : Bool := expOf mb eb bits == 2 ^ eb - 1 && fracOf mb bits == 0

/-- The pattern is a zero of the format. -/
def isZeroBits (mb eb bits : Nat) : Bool := expOf mb eb bits == 0 && fracOf mb bits == 0

/-- The pattern of infinity, sign apart. -/
def infBits (mb eb : Nat) : Nat := (2 ^ eb - 1) * 2 ^ mb

/-- The magnitude of a finite pattern as numerator and denominator. -/
def magnitude (mb eb bits : Nat) : Nat × Nat :=
  let bias : Int := 2 ^ (eb - 1) - 1
  let m := if expOf mb eb bits = 0 then fracOf mb bits else 2 ^ mb + fracOf mb bits
  let e : Int := (if expOf mb eb bits = 0 then 1 else (expOf mb eb bits : Int)) - bias - mb
  (m * 2 ^ e.toNat, 2 ^ (-e).toNat)

/-- The sign of a product or quotient of two doubles, in place. -/
def signXor (a b : Nat) : Nat := (a / 2 ^ 63 + b / 2 ^ 63) % 2 * 2 ^ 63

/-- A NaN operand with its quiet bit set, as the result of an operation. -/
def quiet (bits : Nat) : Nat := if bits / 2 ^ 51 % 2 = 1 then bits else bits + 2 ^ 51

/-- The NaN an invalid operation produces on x86-64. -/
def indefinite : Nat := 0xFFF8000000000000

/-- Product of two doubles. -/
def mulDouble (a b : Nat) : Nat :=
  if isNaNBits 52 11 a then quiet a
  else if isNaNBits 52 11 b then quiet b
  else if (isInfBits 52 11 a && isZeroBits 52 11 b) || (isZeroBits 52 11 a && isInfBits 52 11 b)
    then indefinite
  else if isInfBits 52 11 a || isInfBits 52 11 b then signXor a b + infBits 52 11
  else if isZeroBits 52 11 a || isZeroBits 52 11 b then signXor a b
  else signXor a b + roundBits 52 11 ((magnitude 52 11 a).1 * (magnitude 52 11 b).1)
    ((magnitude 52 11 a).2 * (magnitude 52 11 b).2)

/-- Quotient of two doubles. -/
def divDouble (a b : Nat) : Nat :=
  if isNaNBits 52 11 a then quiet a
  else if isNaNBits 52 11 b then quiet b
  else if (isInfBits 52 11 a && isInfBits 52 11 b) || (isZeroBits 52 11 a && isZeroBits 52 11 b)
    then indefinite
  else if isInfBits 52 11 a || isZeroBits 52 11 b then signXor a b + infBits 52 11
  else if isInfBits 52 11 b || isZeroBits 52 11 a then signXor a b
  else signXor a b + roundBits 52 11 ((magnitude 52 11 a).1 * (magnitude 52 11 b).2)
    ((magnitude 52 11 a).2 * (magnitude 52 11 b).1)

/-- Conversion `(double) f` of a float: exact. -/
def floatToDouble (f : Nat) : Nat :=
  if isNaNBits 23 8 f then signOf 23 8 f * 2 ^ 32 + infBits 52 11 + quiet (fracOf 23 f * 2 ^ 29)
  else if isInfBits 23 8 f then signOf 23 8 f * 2 ^ 32 + infBits 52 11
  else if isZeroBits 23 8 f then signOf 23 8 f * 2 ^ 32
  else signOf 23 8 f * 2 ^ 32 + roundBits 52 11 (magnitude 23 8 f).1 (magnitude 23 8 f).2

/-- Conversion `(float) d` of a double: rounded to nearest, ties to even. -/
def doubleToFloat (d : Nat) : Nat :=
  if isNaNBits 52 11 d then
    signOf 52 11 d / 2 ^ 32 + infBits 23 8 + quiet (fracOf 52 d) / 2 ^ 29
  else if isInfBits 52 11 d then signOf 52 11 d / 2 ^ 32 + infBits 23 8
  else if isZeroBits 52 11 d then signOf 52 11 d / 2 ^ 32
  else signOf 52 11 d / 2 ^ 32 + roundBits 23 8 (magnitude 52 11 d).1 (magnitude 52 11 d).2

/-- Conversion `(float) s` of a `short`: exact. -/
def shortToFloat (s : Int) : Nat :=
  if s = 0 then 0
  else (if s < 0 then 2 ^ 31 else 0) + roundBits 23 8 s.natAbs 1

/-- The truncation of the exact value of `log2(1 + a / sqrt(2) / b)` for
`a >= 0` and `b > 0`: the number of `d` in `1..64` with
`(2^d - 1) * sqrt(2) * b <= a`, that is with `2 * ((2^d - 1) * b)^2 <= a^2`. -/
def depthExact (a b : Int) : Int :=
  (((List.range 64).filter
    (fun d => decide (2 * (((2 : Int) ^ (d + 1) - 1) * b) ^ 2 ≤ a ^ 2))).length : Int)

/-- IEEE-754 arithmetic as an x86-64 machine does it: binary32 and binary64,
round to nearest, ties to even; a NaN operand comes back quiet and an invalid
operation gives the default NaN, sign bit set. `depth` is the truncation of
the exact value of `log2(1 + a / sqrt(2) / b)` for `a >= 0` and `b > 0`,
which the evaluation in `double` gives unless the exact value lies within
rounding of an integer. -/
def sampleFp : FloatOps :=
  { ofShort := shortToFloat,
    toDouble := floatToDouble,
    toFloat := doubleToFloat,
    mul := mulDouble,
    div := divDouble,
    depth := depthExact }

/-- An environment holding the sample files as `a.hic`, `b.hic`, `c.hic`,
`d.hic` (bad magic), `e.hic` (version 5), `f.hic` (`sampleInterV8`),
`g.hic` (`sampleHuge`) and `h.hic` (`sampleUnknownType`);
blocks are stored uncompressed (`inflate` returns its input), indeterminate
bytes and uninitialised locals are 0. -/
def sampleEnv : Env :=
  { fp := sampleFp,
    inflate := fun bs _ => bs,
    files := fun n =>
      if n = ascii "a.hic" then some sampleV8
      else if n = ascii "b.hic" then some sampleV9
      else if n = ascii "c.hic" then some sampleBig
      else if n = ascii "d.hic" then some sampleBadMagic
      else if n = ascii "e.hic" then some sampleV5
      else if n = ascii "f.hic" then some sampleInterV8
      else if n = ascii "g.hic" then some sampleHuge
      else if n = ascii "h.hic" then some sampleUnknownType else none,
    urls := fun _ => none,
    version := 0, junk := fun _ => 0, master := 0, myFilePos := 0,
    c1NormEntry := { size := 0, position := 0 },
    c2NormEntry := { size := 0, position := 0 },
    blockBinCount := 0, blockColumnCount := 0 }

/-- The state of `straw` after it has opened the local file `bytes` in
`sampleEnv` and read its header. -/
def sampleOpened (bytes : List Nat) : Opened :=
  { http := none, total_bytes := 0,
    hdr := readHeader (IStream.open bytes sampleEnv.junk) 0 0,
    fin := (readHeader (IStream.open bytes sampleEnv.junk) 0 0).fin }

/-- The sample environment with the uninitialised locals `blockBinCount` and
`blockColumnCount` holding 7 and 3. -/
def sampleEnvGarbage : Env := { sampleEnv with blockBinCount := 7, blockColumnCount := 3 }

/-- The location `X` of the sample file `a.hic`, parsed: the whole
chromosome. -/
def sampleLocX : Loc := { chr := ascii "X", pos1 := 0, pos2 := 2000 }

/-- The vectors and the file stream `straw` holds after the footer of `a.hic`
has been read for `X`, `X` at BP 50 without normalization. -/
def sampleNoNorms (env : Env) : Norms :=
  { c1Norm := [], c2Norm := [],
    fin := (footerFor env (ascii "NONE") (ascii "BP") 50 (sampleOpened sampleV8)
      sampleLocX sampleLocX).fin }

/-- An interchromosomal query without normalization at bin size 100 over the
rectangle [0, 1000] x [0, 800]. -/
def sampleInter : Query :=
  { norm := ascii "NONE", binsize := 100, c1 := 0, c2 := 1,
    origRegionIndices := (0, 1000, 0, 800), c1Norm := [], c2Norm := [] }

/-- Scenario S3 as a `Query`: VC normalization at bin size 10 over
[0, 20] x [0, 20] with `c1Norm = [2.0, 4.0]` and `c2Norm = [1.0, 5.0]`. -/
def sampleS3 : Query :=
  { norm := ascii "VC", binsize := 10, c1 := 0, c2 := 1,
    origRegionIndices := (0, 20, 0, 20),
    c1Norm := [0x4000000000000000, 0x4010000000000000],
    c2Norm := [0x3FF0000000000000, 0x4014000000000000] }

/-- The `int` a declaration `int q = a / b;` holds for `long` operands with
`b ≠ 0`: the quotient, truncated toward zero, converted to `int`. -/
def quotInt (a b : Int) : Int := wrap 32 (Int.tdiv a b)

/-- The block number `r * blockColumnCount + c` as the mappers compute it, in
`int`. -/
def blockNumberOf (blockColumnCount r c : Int) : Int := wrap 32 (r * blockColumnCount + c)

/-- The sample environment with the uninitialised local `c1NormEntry` holding
a negative size. -/
def sampleEnvNegative : Env :=
  { sampleEnv with c1NormEntry := { size := -1, position := 0 } }

/-- The locations `1` and `2` of the sample file `b.hic`, parsed: the whole
chromosomes. -/
def sampleLoc1 : Loc := { chr := ascii "1", pos1 := 0, pos2 := 20 }

/-- The second of the two locations of `b.hic`. -/
def sampleLoc2 : Loc := { chr := ascii "2", pos1 := 0, pos2 := 20 }

/-- The vectors and the file stream `straw` holds after the footer of `g.hic`
has been read for `X`, `X` at BP 100 without normalization. -/
def sampleHugeNorms : Norms :=
  { c1Norm := [], c2Norm := [],
    fin := (footerFor sampleEnv (ascii "NONE") (ascii "BP") 100 (sampleOpened sampleHuge)
      sampleLocX sampleLocX).fin }

/-! ## The block format, as the specification words it -/

/-- The fields at the head of a block payload for `version >= 7`, and the
stream positioned after them. -/
structure BlockHeader where
  nRecords : Int
  binXOffset : Int
  binYOffset : Int
  useShort : Bool
  useShortBinX : Bool
  useShortBinY : Bool
  type : Int
  body : IStream

/-- The head of a block payload: `nRecords`, `binXOffset`, `binYOffset` as
i32, the `useShort` byte (0 means short), for `version > 8` the
`useShortBinX` and `useShortBinY` bytes with the same convention (both true
otherwise), and the type byte. -/
def blockHeader (version : Int) (s : IStream) : BlockHeader :=
  let nRecords := readIntFromFile s
  let binXOffset := readIntFromFile nRecords.2
  let binYOffset := readIntFromFile binXOffset.2
  let useShort := readCharFromFile binYOffset.2
  if version > 8 then
    let useShortBinX := readCharFromFile useShort.2
    let useShortBinY := readCharFromFile useShortBinX.2
    let type := readCharFromFile useShortBinY.2
    { nRecords := nRecords.1, binXOffset := binXOffset.1, binYOffset := binYOffset.1,
      useShort := useShort.1 == 0, useShortBinX := useShortBinX.1 == 0,
      useShortBinY := useShortBinY.1 == 0, type := type.1, body := type.2 }
  else
    let type := readCharFromFile useShort.2
    { nRecords := nRecords.1, binXOffset := binXOffset.1, binYOffset := binYOffset.1,
      useShort := useShort.1 == 0, useShortBinX := true, useShortBinY := true,
      type := type.1, body := type.2 }

/-- The inflated payload of the block at index entry `idx`, as a stream: what
`readBlock` and `readSize` parse. -/
def blockPayload (inflate : List Nat → Nat → List Nat) (junk : Nat → Nat) (fin : IStream)
    (http : Option (List Nat)) (idx : indexEntry) : IStream :=
  IStream.open (inflateBlock inflate junk fin http idx).1 junk

/-- The stream `s` is good and the bytes it has not yet read are `r`. -/
def IStream.remains (s : IStream) (r : List Nat) : Prop :=
  s.good = true ∧ s.data.drop s.pos = r

/-- A float or double given by its bit pattern, as 4 little-endian bytes. -/
def f32 (x : Nat) : List Nat := bytesOf 4 (x : Int)

/-- The bytes `s` followed by the terminating NUL. -/
def zstr (s : Str) : List Nat := s ++ [0]

/-- The records of `n` tuples `(binX: i32, binY: i32, counts: f32)` that start
at `s`. -/
def tupleRecords : Nat → IStream → List contactRecord
  | 0, _ => []
  | n + 1, s =>
    let binX := readIntFromFile s
    let binY := readIntFromFile binX.2
    let counts := readFloatFromFile binY.2
    { binX := binX.1, binY := binY.1, counts := counts.1 } :: tupleRecords n counts.2

/-- The bins of the record are 32-bit signed values and its counts a 32-bit
pattern. -/
def contactRecord.fits (r : contactRecord) : Prop :=
  -2147483648 ≤ r.binX ∧ r.binX < 2147483648 ∧ -2147483648 ≤ r.binY ∧ r.binY < 2147483648 ∧
    r.counts < 4294967296

/-- A type 1 payload for version 8 that ends after the `colCount` of its only
row: `nRecords = 1`, offsets 0, short counts, one row with `rowBin = 8` and
`colCount = 1`, and no cell. -/
def sampleTruncated : List Nat :=
  i32 1 ++ i32 0 ++ i32 0 ++ [0] ++ [1] ++ i16 1 ++ i16 8 ++ i16 1

/-- The string holds no NUL. -/
@[reducible] def noNul (s : Str) : Prop := ∀ b ∈ s, b ≠ 0

/-- The attribute dictionary of a header: key and value, each NUL-terminated. -/
def encodeAttrs (attrs : List (Str × Str)) : List Nat :=
  (attrs.map (fun p => zstr p.1 ++ zstr p.2)).flatten

/-- The chromosome table of a header: for each chromosome its NUL-terminated
name and its length, an i64 when `version > 8` and an i32 otherwise. -/
def encodeChroms (version : Int) (chrs : List (Str × Int)) : List Nat :=
  (chrs.map (fun p => zstr p.1 ++ (if version > 8 then i64 p.2 else i32 p.2))).flatten

/-- A header: the magic string `HIC`, the version, the master index position,
the genome id, for `version > 8` the two i64 `nviPosition` and `nviLength`,
the attribute dictionary with its count and the chromosome table with its
count. -/
def encodeHeader (version master : Int) (genomeId : Str) (nviPosition nviLength : Int)
    (attrs : List (Str × Str)) (chrs : List (Str × Int)) : List Nat :=
  zstr [72, 73, 67] ++ i32 version ++ i64 master ++ zstr genomeId
    ++ (if version > 8 then i64 nviPosition ++ i64 nviLength else [])
    ++ i32 attrs.length ++ encodeAttrs attrs ++ i32 chrs.length ++ encodeChroms version chrs

/-- The length of a chromosome fits the field that stores it. -/
@[reducible] def lengthFits (version len : Int) : Prop :=
  if version > 8 then -9223372036854775808 ≤ len ∧ len < 9223372036854775808
  else -2147483648 ≤ len ∧ len < 2147483648

/-- The chromosome map in which the `k`-th listed chromosome (from 0) has
index `i + k`, later entries replacing earlier ones of the same name. -/
def chromMapOf : Int → ChromMap → List (Str × Int) → ChromMap
  | _, m, [] => m
  | i, m, p :: t => chromMapOf (i + 1) (m.set p.1 { name := p.1, index := i, length := p.2 }) t

/-- One resolution entry of a matrix record: the unit string, the 20 bytes of
the old zoom index and the four float statistics, which the reader skips,
`binSize`, `blockBinCount`, `blockColumnCount` and the block table as pairs of
`blockNumber` and `(position, size)`. -/
structure ZoomEntry where
  unit : Str
  skipped : List Nat
  binSize : Int
  blockBinCount : Int
  blockColumnCount : Int
  blocks : List (Int × indexEntry)

/-- One entry of a block table: `blockNumber: i32`, `position: i64`,
`size: i32`. -/
def encodeBlockEntry (b : Int × indexEntry) : List Nat :=
  i32 b.1 ++ i64 b.2.position ++ i32 b.2.size

/-- The block table of a resolution entry. -/
def encodeBlockTable (blocks : List (Int × indexEntry)) : List Nat :=
  (blocks.map encodeBlockEntry).flatten

/-- The fixed part of a resolution entry, up to and including `nBlocks`. -/
def encodeZoomHeader (e : ZoomEntry) : List Nat :=
  zstr e.unit ++ e.skipped ++ i32 e.binSize ++ i32 e.blockBinCount ++ i32 e.blockColumnCount
    ++ i32 e.blocks.length

/-- A resolution entry: the fixed part, then the block table. -/
def encodeZoom (e : ZoomEntry) : List Nat := encodeZoomHeader e ++ encodeBlockTable e.blocks

/-- The resolution entries of a matrix record, one after the other. -/
def encodeZooms (entries : List ZoomEntry) : List Nat := (entries.map encodeZoom).flatten

/-- A matrix record: `c1`, `c2`, the number of resolutions, the entries. -/
def encodeMatrix (c1 c2 : Int) (entries : List ZoomEntry) : List Nat :=
  i32 c1 ++ i32 c2 ++ i32 entries.length ++ encodeZooms entries

/-- The fields of a block-table entry fit their widths. -/
@[reducible] def blockEntryFits (b : Int × indexEntry) : Prop :=
  (-2147483648 ≤ b.1 ∧ b.1 < 2147483648) ∧
  (-9223372036854775808 ≤ b.2.position ∧ b.2.position < 9223372036854775808) ∧
  (-2147483648 ≤ b.2.size ∧ b.2.size < 2147483648)

/-- The fields of a resolution entry fit their widths. -/
@[reducible] def ZoomEntry.fits (e : ZoomEntry) : Prop :=
  noNul e.unit ∧ e.skipped.length = 20 ∧
  (-2147483648 ≤ e.binSize ∧ e.binSize < 2147483648) ∧
  (-2147483648 ≤ e.blockBinCount ∧ e.blockBinCount < 2147483648) ∧
  (-2147483648 ≤ e.blockColumnCount ∧ e.blockColumnCount < 2147483648) ∧
  e.blocks.length < 2147483648 ∧ ∀ b ∈ e.blocks, blockEntryFits b

/-- The block map after the entries of a table have been stored in file
order, a later entry replacing an earlier one with the same number. -/
def blockMapOf (m : BlockMap) (blocks : List (Int × indexEntry)) : BlockMap :=
  blocks.foldl (fun acc b => acc.set b.1 b.2) m

/-- The entry is for the unit and bin size of the query. -/
def ZoomEntry.isFor (e : ZoomEntry) (unit : Str) (binsize : Int) : Bool :=
  decide (unit = e.unit ∧ binsize = e.binSize)

/-- The entries that follow the first entry for the unit and bin size of the
query. -/
def entriesAfter (unit : Str) (binsize : Int) (entries : List ZoomEntry) : List ZoomEntry :=
  (entries.dropWhile (fun e => !e.isFor unit binsize)).tail

/-- A resolution entry BP 50 with one block and one BP 100 with two, the
second of them with `blockBinCount = 10` and `blockColumnCount = 2`. -/
def sampleZooms : List ZoomEntry :=
  [{ unit := ascii "BP", skipped := List.replicate 20 0, binSize := 50, blockBinCount := 20,
     blockColumnCount := 4, blocks := [(0, { size := 30, position := 400 })] },
   { unit := ascii "BP", skipped := List.replicate 20 0, binSize := 100, blockBinCount := 10,
     blockColumnCount := 2,
     blocks := [(0, { size := 24, position := 40 }), (1, { size := 16, position := 64 })] }]

/-- A matrix record whose first resolution entry, BP 50, has `nBlocks = -1`
and no block table, followed by the entry BP 100 of `sampleZooms`. -/
def sampleNegativeBlocks : List Nat :=
  i32 0 ++ i32 0 ++ i32 2
    ++ (zstr (ascii "BP") ++ List.replicate 20 0 ++ i32 50 ++ i32 20 ++ i32 4 ++ i32 (-1))
    ++ encodeZooms (sampleZooms.drop 1)

/-- One entry of the master index: key, file position, size in bytes. -/
def encodeMasterEntry (e : Str × Int × Int) : List Nat := zstr e.1 ++ i64 e.2.1 ++ i32 e.2.2

/-- The fields of a master-index entry fit their widths. -/
@[reducible] def masterEntryFits (e : Str × Int × Int) : Prop :=
  noNul e.1 ∧ (-9223372036854775808 ≤ e.2.1 ∧ e.2.1 < 9223372036854775808) ∧
  (-2147483648 ≤ e.2.2 ∧ e.2.2 < 2147483648)

/-- One entry of an expected-value map: the type string (present in the
second map only), the unit, the bin size, the values and the normalization
factors, each factor a chromosome index and a value. Values are kept as their
bytes. -/
structure ExpectedEntry where
  typeString : Str
  unit : Str
  binSize : Int
  values : List (List Nat)
  factors : List (Int × List Nat)

/-- The width of an expected value or factor: an f32 when `version > 8`, an
f64 otherwise. -/
def valueWidth (version : Int) : Nat := if version > 8 then 4 else 8

/-- One entry of an expected-value map; `typed` is true for the second map.
`nValues` is an i64 when `version > 8` and an i32 otherwise. -/
def encodeExpected (version : Int) (typed : Bool) (e : ExpectedEntry) : List Nat :=
  (if typed then zstr e.typeString else []) ++ zstr e.unit ++ i32 e.binSize
    ++ (if version > 8 then i64 e.values.length else i32 e.values.length)
    ++ e.values.flatten ++ i32 e.factors.length
    ++ (e.factors.map (fun f => i32 f.1 ++ f.2)).flatten

/-- The fields of an expected-value entry fit their widths. -/
@[reducible] def ExpectedEntry.fits (version : Int) (e : ExpectedEntry) : Prop :=
  noNul e.typeString ∧ noNul e.unit ∧ (-2147483648 ≤ e.binSize ∧ e.binSize < 2147483648) ∧
  e.values.length < 2147483648 ∧ (∀ v ∈ e.values, v.length = valueWidth version) ∧
  e.factors.length < 2147483648 ∧
  ∀ f ∈ e.factors, (-2147483648 ≤ f.1 ∧ f.1 < 2147483648) ∧ f.2.length = valueWidth version

/-- One entry of the normalization-vector index: type, chromosome index,
unit, resolution, file position, and the size in bytes as an i64 when
`version > 8` and as an i32 otherwise. -/
def encodeNormEntry (version : Int) (e : NormEntry) : List Nat :=
  zstr e.normtype ++ i32 e.chrIdx ++ zstr e.unit1 ++ i32 e.resolution1 ++ i64 e.entry.position
    ++ (if version > 8 then i64 e.entry.size else i32 e.entry.size)

/-- The fields of a normalization-vector index entry fit their widths. -/
@[reducible] def NormEntry.fits (version : Int) (e : NormEntry) : Prop :=
  noNul e.normtype ∧ (-2147483648 ≤ e.chrIdx ∧ e.chrIdx < 2147483648) ∧ noNul e.unit1 ∧
  (-2147483648 ≤ e.resolution1 ∧ e.resolution1 < 2147483648) ∧
  (-9223372036854775808 ≤ e.entry.position ∧ e.entry.position < 9223372036854775808) ∧
  lengthFits version e.entry.size

/-- The part of a footer behind the master index: the two expected-value maps
and the normalization-vector index, each with its count. -/
def encodeFooterTail (version : Int) (exp1 exp2 : List ExpectedEntry) (norms : List NormEntry) :
    List Nat :=
  i32 exp1.length ++ (exp1.map (encodeExpected version false)).flatten
    ++ i32 exp2.length ++ (exp2.map (encodeExpected version true)).flatten
    ++ i32 norms.length ++ (norms.map (encodeNormEntry version)).flatten

/-- A footer: its size (an i64 when `version > 8`, an i32 otherwise), the
master index with its count, and the tail. -/
def encodeFooter (version nBytes : Int) (master : List (Str × Int × Int))
    (exp1 exp2 : List ExpectedEntry) (norms : List NormEntry) : List Nat :=
  (if version > 8 then i64 nBytes else i32 nBytes) ++ i32 master.length
    ++ (master.map encodeMasterEntry).flatten ++ encodeFooterTail version exp1 exp2 norms

/-- An expected-value map with one entry for version 9: unit BP, bin size
10, the value 1.0f and the factor 1.0f for chromosome 0. -/
def sampleExpected : List ExpectedEntry :=
  [{ typeString := ascii "VC", unit := ascii "BP", binSize := 10,
     values := [[0, 0, 128, 63]], factors := [(0, [0, 0, 128, 63])] }]

/-- A normalization-vector index with the VC entries at BP 10 for the
chromosomes 0 and 1 and a KR entry for chromosome 0. -/
def sampleNorms : List NormEntry :=
  [{ normtype := ascii "VC", chrIdx := 0, unit1 := ascii "BP", resolution1 := 10,
     entry := { size := 16, position := 100 } },
   { normtype := ascii "KR", chrIdx := 0, unit1 := ascii "BP", resolution1 := 10,
     entry := { size := 16, position := 300 } },
   { normtype := ascii "VC", chrIdx := 1, unit1 := ascii "BP", resolution1 := 10,
     entry := { size := 16, position := 120 } }]

/-- A double given by its bit pattern, as 8 little-endian bytes. -/
def f64 (x : Nat) : List Nat := bytesOf 8 (x : Int)

/-- A normalization vector: `nValues` as an i64 when `version > 8` and as an
i32 otherwise, then the values, f32 when `version > 8` and f64 otherwise. -/
def encodeNormVector (version : Int) (values : List Nat) : List Nat :=
  (if version > 8 then i64 values.length else i32 values.length)
    ++ (values.map (fun x => if version > 8 then f32 x else f64 x)).flatten

/-- A query without normalization at bin size 100000 over the rectangle
[0, 6000000000] x [0, 6000000000] of one chromosome. -/
def sampleBigQuery : Query :=
  { norm := ascii "NONE", binsize := 100000, c1 := 0, c2 := 0,
    origRegionIndices := (0, 6000000000, 0, 6000000000), c1Norm := [], c2Norm := [] }

/-! ## The quantities of the v9 intra mapper -/

theorem strawBlocks_eq (env : Env) (version : Int) (http : Option (List Nat))
    (blockMap : BlockMap) (q : Query) (bns : List Int) :
    ∀ (fin : IStream) (records : List contactRecord),
      strawBlocks env version http blockMap q bns fin records =
        (decodedBlocks env version http blockMap bns fin).map
          (fun bl => records ++ bl.flatten.filterMap (emitRecord env.fp env.junk q)) := by
  induction bns with
  | nil => intro fin records; simp [strawBlocks, decodedBlocks, Except.map]
  | cons b rest ih =>
    intro fin records
    simp only [strawBlocks, decodedBlocks]
    cases hb : readBlock env.fp env.inflate env.junk version fin http (blockMap.at b) with
    | error e => simp [Except.map]
    | ok r =>
      simp only [ih]
      cases hd : decodedBlocks env version http blockMap rest r.2 with
      | error e => simp [Except.map]
      | ok bl => simp [Except.map, List.filterMap_append, List.append_assoc]

/-- Every list in the result of `decodedBlocks` is what `readBlock` returned
for one of the block numbers. -/
theorem decodedBlocks_mem (env : Env) (version : Int) (http : Option (List Nat))
    (blockMap : BlockMap) (bns : List Int) :
    ∀ (fin : IStream) (blocks : List (List contactRecord)),
      decodedBlocks env version http blockMap bns fin = .ok blocks →
      ∀ recs ∈ blocks, ∃ b ∈ bns, ∃ fin0 fin1,
        readBlock env.fp env.inflate env.junk version fin0 http (blockMap.at b)
          = .ok (recs, fin1) := by
  induction bns with
  | nil =>
    intro fin blocks h recs hrecs
    simp [decodedBlocks] at h
    subst h
    simp at hrecs
  | cons b rest ih =>
    intro fin blocks h recs hrecs
    simp only [decodedBlocks] at h
    cases hb : readBlock env.fp env.inflate env.junk version fin http (blockMap.at b) with
    | error e => simp [hb] at h
    | ok r =>
      simp only [hb] at h
      cases hd : decodedBlocks env version http blockMap rest r.2 with
      | error e => simp [hd] at h
      | ok bl =>
        simp only [hd, Except.ok.injEq] at h
        subst h
        rcases List.mem_cons.mp hrecs with heq | hmem
        · exact ⟨b, List.mem_cons_self _ _, fin, r.2, by rw [hb, heq]⟩
        · obtain ⟨b', hb', f0, f1, hrb⟩ := ih r.2 bl hd recs hmem
          exact ⟨b', List.mem_cons_of_mem _ hb', f0, f1, hrb⟩

/-- A successful run of `strawRegion` either stopped at the footer with an
empty list or went through every stage. -/
theorem strawRegion_ok (env : Env) (norm unit : Str) (binsize : Int) (o : Opened)
    (l1 l2 : Loc) (out : List contactRecord)
    (h : strawRegion env norm unit binsize o l1 l2 = .ok out) :
    ((footerFor env norm unit binsize o l1 l2).ret = false ∧ out = []) ∨
    ∃ ri nv bns blocks,
      (footerFor env norm unit binsize o l1 l2).ret = true ∧
      regionOf (origRegion o.hdr.chromosomeMap l1 l2) binsize = .ok ri ∧
      loadNorms env o.hdr.version o.http norm (footerFor env norm unit binsize o l1 l2)
        = .ok nv ∧
      blockNumbersFor env norm unit binsize o l1 l2 nv ri = .ok bns ∧
      decodedBlocks env o.hdr.version o.http
        (matrixFor env norm unit binsize o l1 l2 nv).blockMap bns
        (matrixFor env norm unit binsize o l1 l2 nv).fin = .ok blocks ∧
      out = blocks.flatten.filterMap
        (emitRecord env.fp env.junk (queryOf norm binsize o l1 l2 nv)) := by
  unfold strawRegion at h
  cases hr : regionOf (origRegion o.hdr.chromosomeMap l1 l2) binsize with
  | error e => simp [hr] at h
  | ok ri =>
    simp only [hr] at h
    split at h
    · rename_i hret
      left
      refine ⟨?_, by simpa using h.symm⟩
      simpa [footerFor] using hret
    · rename_i hret
      cases hn : loadNorms env o.hdr.version o.http norm
        (footerFor env norm unit binsize o l1 l2) with
      | error e =>
        simp only [footerFor] at hn
        simp [hn] at h
      | ok nv =>
        have hn' := hn
        simp only [footerFor] at hn'
        simp only [hn'] at h
        split at h
        · simp at h
        · rename_i bns hb
          rw [strawBlocks_eq] at h
          cases hd : decodedBlocks env o.hdr.version o.http
            (matrixFor env norm unit binsize o l1 l2 nv).blockMap bns
            (matrixFor env norm unit binsize o l1 l2 nv).fin with
          | error e =>
            simp only [matrixFor, footerFor] at hd
            simp [hd, Except.map] at h
          | ok blocks =>
            have hd' := hd
            simp only [matrixFor, footerFor] at hd'
            simp only [hd', Except.map, List.nil_append, Except.ok.injEq] at h
            right
            refine ⟨ri, nv, bns, blocks, ?_, rfl, rfl, hb, (by first | rfl | exact hd), h.symm⟩
            simpa [footerFor] using hret

/-- A successful run of `straw` either returned early with an empty list or
opened the source, parsed both locations and ran `strawRegion`. -/
theorem straw_ok (env : Env) (norm fname chr1loc chr2loc unit : Str) (binsize : Int)
    (out : List contactRecord)
    (h : straw env norm fname chr1loc chr2loc unit binsize = .ok out) :
    out = [] ∨
    ∃ o l1 l2,
      openSource env fname = some o ∧
      parseLoc o.hdr.chromosomeMap env.junk chr1loc = some (.ok l1) ∧
      parseLoc o.hdr.chromosomeMap env.junk chr2loc = some (.ok l2) ∧
      strawRegion env norm unit binsize o l1 l2 = .ok out := by
  unfold straw at h
  split at h
  · left; simpa using h.symm
  · split at h
    · left; simpa using h.symm
    · rename_i o ho
      split at h
      · left; simpa using h.symm
      · simp at h
      · rename_i l1 h1
        split at h
        · left; simpa using h.symm
        · simp at h
        · rename_i l2 h2
          right
          exact ⟨o, l1, l2, ho, h1, h2, h⟩

/-- Every record `straw` returns was pushed by the loop body for a record
that `readBlock` returned for one of the selected block numbers. -/
theorem straw_mem (env : Env) (norm fname chr1loc chr2loc unit : Str) (binsize : Int)
    (out : List contactRecord)
    (h : straw env norm fname chr1loc chr2loc unit binsize = .ok out)
    (r : contactRecord) (hr : r ∈ out) :
    ∃ o l1 l2 ri nv bns b recs rec fin0 fin1,
      openSource env fname = some o ∧
      parseLoc o.hdr.chromosomeMap env.junk chr1loc = some (.ok l1) ∧
      parseLoc o.hdr.chromosomeMap env.junk chr2loc = some (.ok l2) ∧
      regionOf (origRegion o.hdr.chromosomeMap l1 l2) binsize = .ok ri ∧
      loadNorms env o.hdr.version o.http norm (footerFor env norm unit binsize o l1 l2)
        = .ok nv ∧
      blockNumbersFor env norm unit binsize o l1 l2 nv ri = .ok bns ∧
      b ∈ bns ∧
      readBlock env.fp env.inflate env.junk o.hdr.version fin0 o.http
        ((matrixFor env norm unit binsize o l1 l2 nv).blockMap.at b) = .ok (recs, fin1) ∧
      rec ∈ recs ∧
      emitRecord env.fp env.junk (queryOf norm binsize o l1 l2 nv) rec = some r := by
  rcases straw_ok env norm fname chr1loc chr2loc unit binsize out h with h0 | ⟨o, l1, l2, ho, h1, h2, hreg⟩
  · subst h0; simp at hr
  · rcases strawRegion_ok env norm unit binsize o l1 l2 out hreg with ⟨_, h0⟩ | ⟨ri, nv, bns, blocks, _, hri, hnv, hbns, hdec, hout⟩
    · subst h0; simp at hr
    · subst hout
      obtain ⟨rec, hrec, hemit⟩ := List.mem_filterMap.mp hr
      obtain ⟨recs, hrecs, hin⟩ := List.mem_flatten.mp hrec
      obtain ⟨b, hb, fin0, fin1, hrb⟩ := decodedBlocks_mem env o.hdr.version o.http _ bns _ blocks hdec recs hrecs
      exact ⟨o, l1, l2, ri, nv, bns, b, recs, rec, fin0, fin1, ho, h1, h2, hri, hnv, hbns, hb,
        hrb, hin, hemit⟩

theorem accepted_iff (q : Query) (x y : Int) :
    accepted q x y = true ↔
      inRect q.origRegionIndices x y ∨ (q.c1 = q.c2 ∧ inRect q.origRegionIndices y x) := by
  simp only [accepted, inRect, decide_eq_true_eq, ge_iff_le]

theorem emitRecord_eq_some (fp : FloatOps) (junk : Nat → Nat) (q : Query)
    (rec r : contactRecord) :
    emitRecord fp junk q rec = some r ↔
      accepted q (scaled rec.binX q.binsize) (scaled rec.binY q.binsize) = true ∧
      r = { binX := scaled rec.binX q.binsize, binY := scaled rec.binY q.binsize,
            counts := normalized fp junk q rec } := by
  unfold emitRecord
  by_cases h : accepted q (scaled rec.binX q.binsize) (scaled rec.binY q.binsize) = true
  · simp [h, eq_comm]
  · simp [h]

theorem wrap_of_range (w : Nat) (hw : 0 < w) (x : Int)
    (h1 : -(2 : Int) ^ (w - 1) ≤ x) (h2 : x < (2 : Int) ^ (w - 1)) : wrap w x = x := by
  unfold wrap
  have hpow : (2 : Int) ^ w = 2 * 2 ^ (w - 1) := by
    obtain ⟨k, rfl⟩ : ∃ k, w = k + 1 := ⟨w - 1, by omega⟩
    simp [pow_succ, mul_comm]
  rw [hpow, Int.emod_eq_of_lt (by linarith) (by linarith)]
  ring

theorem mem_setInsert (x y : Int) (l : List Int) (h : y ∈ setInsert x l) : y = x ∨ y ∈ l := by
  induction l with
  | nil => simp [setInsert] at h; exact Or.inl h
  | cons z zs ih =>
    simp only [setInsert] at h
    split at h
    · rcases List.mem_cons.mp h with h | h
      · exact Or.inl h
      · exact Or.inr h
    · split at h
      · exact Or.inr h
      · rcases List.mem_cons.mp h with h | h
        · exact Or.inr (by simp [h])
        · rcases ih h with h | h
          · exact Or.inl h
          · exact Or.inr (List.mem_cons_of_mem _ h)

theorem setInsert_pairwise (x : Int) (l : List Int) (h : l.Pairwise (· < ·)) :
    (setInsert x l).Pairwise (· < ·) := by
  induction l with
  | nil => simp [setInsert]
  | cons z zs ih =>
    obtain ⟨hz, hzs⟩ := List.pairwise_cons.mp h
    simp only [setInsert]
    split
    · rename_i hxz
      refine List.pairwise_cons.mpr ⟨?_, h⟩
      intro a ha
      rcases List.mem_cons.mp ha with ha | ha
      · rw [ha]; exact hxz
      · exact lt_trans hxz (hz a ha)
    · rename_i hxz
      split
      · exact h
      · rename_i hne
        refine List.pairwise_cons.mpr ⟨?_, ih hzs⟩
        intro a ha
        rcases mem_setInsert x a zs ha with ha | ha
        · rw [ha]; omega
        · exact hz a ha

theorem foldl_setInsert_pairwise (f : Int → Int) (cs : List Int) :
    ∀ acc : List Int, acc.Pairwise (· < ·) →
      (cs.foldl (fun acc2 c => setInsert (f c) acc2) acc).Pairwise (· < ·) := by
  induction cs with
  | nil => intro acc h; simpa using h
  | cons c rest ih =>
    intro acc h
    simp only [List.foldl_cons]
    exact ih _ (setInsert_pairwise _ _ h)

theorem insertGrid_pairwise (bcc r1 r2 c1 c2 : Int) (l : List Int)
    (h : l.Pairwise (· < ·)) : (insertGrid bcc r1 r2 c1 c2 l).Pairwise (· < ·) := by
  unfold insertGrid
  generalize intRange r1 r2 = rs
  induction rs generalizing l with
  | nil => simpa using h
  | cons r rest ih =>
    simp only [List.foldl_cons]
    exact ih _ (foldl_setInsert_pairwise (fun c => wrap 32 (r * bcc + c)) _ _ h)

/-- The block numbers selected by either mapper are strictly ascending. -/
theorem blockNumbersOf_pairwise (fp : FloatOps) (version c1 c2 ri0 ri1 ri2 ri3 bbc bcc : Int)
    (bns : List Int)
    (h : blockNumbersOf fp version c1 c2 ri0 ri1 ri2 ri3 bbc bcc = .ok bns) :
    bns.Pairwise (· < ·) := by
  unfold blockNumbersOf at h
  split at h
  · simp only [getBlockNumbersForRegionFromBinPositionV9Intra, bind, Except.bind] at h
    split at h
    · simp at h
    · split at h
      · simp at h
      · simp only [pure, Except.pure, Except.ok.injEq] at h
        subst h
        exact insertGrid_pairwise _ _ _ _ _ _ List.Pairwise.nil
  · simp only [getBlockNumbersForRegionFromBinPosition, bind, Except.bind] at h
    split at h
    · simp at h
    · split at h
      · simp at h
      · split at h
        · simp at h
        · split at h
          · simp at h
          · split at h
            · simp only [pure, Except.pure, Except.ok.injEq] at h
              subst h
              exact insertGrid_pairwise _ _ _ _ _ _
                (insertGrid_pairwise _ _ _ _ _ _ List.Pairwise.nil)
            · simp only [pure, Except.pure, Except.ok.injEq] at h
              subst h
              exact insertGrid_pairwise _ _ _ _ _ _ List.Pairwise.nil

theorem decodedBlocks_length (env : Env) (version : Int) (http : Option (List Nat))
    (blockMap : BlockMap) (bns : List Int) :
    ∀ (fin : IStream) (blocks : List (List contactRecord)),
      decodedBlocks env version http blockMap bns fin = .ok blocks →
      blocks.length = bns.length := by
  induction bns with
  | nil => intro fin blocks h; simp [decodedBlocks] at h; subst h; rfl
  | cons b rest ih =>
    intro fin blocks h
    simp only [decodedBlocks] at h
    split at h
    · simp at h
    · rename_i r hr
      split at h
      · simp at h
      · rename_i bl hbl
        simp only [Except.ok.injEq] at h
        subst h
        simp [ih _ _ hbl]

theorem filterMap_flatten_eq {α β : Type} (f : α → Option β) (ls : List (List α)) :
    ls.flatten.filterMap f = (ls.map (List.filterMap f)).flatten := by
  induction ls with
  | nil => rfl
  | cons l rest ih => simp [List.filterMap_append, ih]

theorem leInt_i32 (w : Int) (h1 : -2147483648 ≤ w) (h2 : w < 2147483648) :
    leInt (i32 w) = w := by
  simp only [i32, bytesOf, leInt, List.range, List.range.loop, List.map, leNat, wrap,
    List.length]
  norm_num
  omega

theorem takeWhile_delim (m rest : List Nat) (hm : ∀ b ∈ m, b ≠ 0) :
    (m ++ 0 :: rest).takeWhile (fun b => b != 0) = m := by
  rw [List.takeWhile_append_of_pos (by intro a ha; simpa using hm a ha)]
  simp

theorem getline_open_delim (m rest : List Nat) (junk : Nat → Nat) (hm : ∀ b ∈ m, b ≠ 0) :
    getline (IStream.open (m ++ 0 :: rest) junk) [] 0 =
      (m, { data := m ++ 0 :: rest, pos := m.length + 1, eof := false, fail := false,
            junk := junk, used := 0 }) := by
  simp [getline, IStream.open, IStream.good, takeWhile_delim m rest hm]

theorem read_at (m bs rest old : List Nat) (junk : Nat → Nat) (n u : Nat)
    (hn : bs.length = n) :
    ({ data := m ++ 0 :: (bs ++ rest), pos := m.length + 1, eof := false, fail := false,
       junk := junk, used := u } : IStream).read n old =
      (bs, { data := m ++ 0 :: (bs ++ rest), pos := m.length + 1 + n, eof := false,
             fail := false, junk := junk, used := u }) := by
  subst hn
  simp [IStream.read, IStream.good, List.drop_append]

theorem getline_open_fst (data : List Nat) (junk : Nat → Nat) :
    (getline (IStream.open data junk) [] 0).1 = leadingString data := by
  simp only [getline, IStream.open, IStream.good, leadingString, List.drop_zero,
    Bool.not_false, Bool.and_self, if_true]
  split <;> rfl

theorem readMagicString_iff (fin : IStream) :
    (readMagicString fin).1 = true ↔ [72, 73, 67] <+: (getline fin [] 0).1 := by
  have key : ∀ str : Str,
      (str.getD 0 0 == 72 && str.getD 1 0 == 73 && str.getD 2 0 == 67) = true ↔
        [72, 73, 67] <+: str := by
    intro str
    constructor
    · intro h
      simp only [Bool.and_eq_true, beq_iff_eq] at h
      obtain ⟨⟨h0, h1⟩, h2⟩ := h
      match str, h0, h1, h2 with
      | a :: b :: c :: t, h0, h1, h2 =>
        simp only [List.getD_cons_zero, List.getD_cons_succ] at h0 h1 h2
        subst h0 h1 h2
        exact ⟨t, rfl⟩
      | [a, b], _, _, h2 => simp at h2
      | [a], _, h1, _ => simp at h1
      | [], h0, _, _ => simp at h0
    · rintro ⟨t, rfl⟩
      simp
  exact key _

theorem openSource_hdr (env : Env) (fname : Str) (o : Opened)
    (h : openSource env fname = some o) :
    ∃ bytes, headerBytes env fname = some bytes ∧
      o.hdr = readHeader (IStream.open bytes env.junk) env.version env.master := by
  unfold openSource at h
  unfold headerBytes
  split at h
  · rename_i hp
    simp only [hp, if_true]
    split at h
    · simp at h
    · rename_i res hres
      simp only [Option.some.injEq] at h
      rw [← h, hres]
      refine ⟨_, rfl, ?_⟩
      dsimp only
  · rename_i hp
    simp only [hp, if_false]
    split at h
    · simp at h
    · rename_i bytes hb
      simp only [Option.some.injEq] at h
      subst h
      exact ⟨bytes, hb, rfl⟩

theorem parseLoc_nil (junk : Nat → Nat) (loc : Str) : parseLoc [] junk loc = none := by
  simp [parseLoc, ChromMap.count]

/-- With an empty chromosome map both entry points return at the lookup of
the first chromosome. -/
theorem empty_map_returns (env : Env) (norm fname chr1loc chr2loc unit : Str) (binsize : Int)
    (h : ∀ o, openSource env fname = some o → o.hdr.chromosomeMap = []) :
    straw env norm fname chr1loc chr2loc unit binsize = .ok [] ∧
    getSize env norm fname chr1loc chr2loc unit binsize = .ok 0 := by
  unfold straw getSize
  constructor
  · split
    · rfl
    · split
      · rfl
      · rename_i o ho
        rw [h o ho, parseLoc_nil]
  · split
    · rfl
    · split
      · rfl
      · rename_i o ho
        rw [h o ho, parseLoc_nil]

theorem parseLoc_name (junk : Nat → Nat) (loc : Str) :
    (getline (IStream.open loc junk) [] 58).1 = locName loc := by
  simp only [getline, IStream.open, IStream.good, locName, List.drop_zero,
    Bool.not_false, Bool.and_self, if_true]
  split <;> rfl

theorem parseLoc_unknown (m : ChromMap) (junk : Nat → Nat) (loc : Str)
    (h : m.count (locName loc) = 0) : parseLoc m junk loc = none := by
  unfold parseLoc
  simp only [parseLoc_name junk loc, h, if_true]

theorem readMasterIndex_spec (key : Str) (n : Nat) :
    ∀ (fin : IStream) (found : Bool) (pos : Int),
      (readMasterIndex key n fin found pos).1 =
        (found || (masterIndexEntries n fin).any (fun e => decide (e.1 = key))) ∧
      (readMasterIndex key n fin found pos).2.1 =
        (((masterIndexEntries n fin).filter (fun e => decide (e.1 = key))).getLast?.map
          Prod.snd).getD pos := by
  induction n with
  | zero => intro fin found pos; simp [readMasterIndex, masterIndexEntries]
  | succ n ih =>
    intro fin found pos
    simp only [readMasterIndex, masterIndexEntries]
    by_cases hk : (getline fin [] 0).1 = key
    · simp only [hk, if_true, List.any_cons, decide_True, Bool.true_or, Bool.or_true,
        List.filter_cons_of_pos]
      refine ⟨(ih _ _ _).1.trans (by simp), ?_⟩
      rw [(ih _ _ _).2, List.getLast?_cons]
      cases (List.filter (fun e => decide (e.1 = key))
        (masterIndexEntries n (readIntFromFile
          (readLongFromFile (getline fin [] 0).2).2).2)).getLast? <;> simp
    · simp only [hk, if_false, List.any_cons, decide_False, Bool.false_or]
      rw [List.filter_cons_of_neg (by simpa using hk)]
      exact ih _ _ _

theorem footerOf_ret (env : Env) (o : Opened) (c1 c2 : Int) (norm unit : Str) (binsize : Int) :
    (footerOf env o c1 c2 norm unit binsize).ret =
      (readFooter (footerStream env o) o.hdr.version c1 c2 norm unit binsize
        env.myFilePos env.c1NormEntry env.c2NormEntry).ret := by
  unfold footerOf footerStream
  cases o.http <;> rfl

theorem readFooter_ret (fin : IStream) (version c1 c2 : Int) (norm unit : Str)
    (resolution : Int) (pos0 : Int) (e1 e2 : indexEntry) :
    (readFooter fin version c1 c2 norm unit resolution pos0 e1 e2).ret =
      (footerEntries version fin).any (fun e => decide (e.1 = footerKey c1 c2)) ∧
    (readFooter fin version c1 c2 norm unit resolution pos0 e1 e2).myFilePos =
      (((footerEntries version fin).filter
        (fun e => decide (e.1 = footerKey c1 c2))).getLast?.map Prod.snd).getD pos0 := by
  unfold readFooter footerEntries
  simp only
  generalize (if version > 8 then (readLongFromFile fin).2 else (readIntFromFile fin).2) = f0
  have hs := readMasterIndex_spec (footerKey c1 c2) (readIntFromFile f0).1.toNat
    (readIntFromFile f0).2 false pos0
  simp only [Bool.false_or] at hs
  rw [← hs.1, ← hs.2]
  cases hm : (readMasterIndex (footerKey c1 c2) (readIntFromFile f0).1.toNat
      (readIntFromFile f0).2 false pos0).1 with
  | false => simp
  | true =>
    simp only [Bool.not_true, Bool.false_eq_true, if_false]
    split <;> simp

theorem readMasterIndex_stream (key key2 : Str) (n : Nat) :
    ∀ (fin : IStream) (found found2 : Bool) (pos pos2 : Int),
      (readMasterIndex key n fin found pos).2.2 =
        (readMasterIndex key2 n fin found2 pos2).2.2 := by
  induction n with
  | zero => intro fin found found2 pos pos2; rfl
  | succ n ih =>
    intro fin found found2 pos pos2
    simp only [readMasterIndex]
    split <;> split <;> exact ih _ _ _ _ _

theorem readNormIndex_spec (version c1 c2 : Int) (norm unit : Str) (resolution : Int)
    (n : Nat) :
    ∀ st : NormIndex,
      (readNormIndex version c1 c2 norm unit resolution n st).c1NormEntry =
        (((normIndexEntries version n st.fin).filter
          (fun e => e.isFor c1 norm unit resolution)).getLast?.map
            NormEntry.entry).getD st.c1NormEntry ∧
      (readNormIndex version c1 c2 norm unit resolution n st).c2NormEntry =
        (((normIndexEntries version n st.fin).filter
          (fun e => e.isFor c2 norm unit resolution)).getLast?.map
            NormEntry.entry).getD st.c2NormEntry := by
  induction n with
  | zero => intro st; simp [readNormIndex, normIndexEntries]
  | succ n ih =>
    intro st
    simp only [readNormIndex, normIndexEntries]
    generalize readNormEntry version st.fin = e
    refine ⟨?_, ?_⟩
    · rw [(ih _).1]
      simp only [List.filter_cons, NormEntry.isFor]
      split
      · rw [List.getLast?_cons]
        cases (List.filter _ _).getLast? <;> simp
      · simp
    · rw [(ih _).2]
      simp only [List.filter_cons, NormEntry.isFor]
      split
      · rw [List.getLast?_cons]
        cases (List.filter _ _).getLast? <;> simp
      · simp

/-- With a normalization other than `"NONE"` and the matrix key found, the
two entries `readFooter` hands back are those of the last index entries for
`c1` and for `c2`, and the caller's values where there is none. -/
theorem readFooter_normEntries (fin : IStream) (version c1 c2 : Int) (norm unit : Str)
    (resolution : Int) (pos0 : Int) (e1 e2 : indexEntry) (hnorm : norm ≠ ascii "NONE")
    (hret : (readFooter fin version c1 c2 norm unit resolution pos0 e1 e2).ret = true) :
    (readFooter fin version c1 c2 norm unit resolution pos0 e1 e2).c1NormEntry =
      (((footerNormEntries version fin).filter
        (fun e => e.isFor c1 norm unit resolution)).getLast?.map NormEntry.entry).getD e1 ∧
    (readFooter fin version c1 c2 norm unit resolution pos0 e1 e2).c2NormEntry =
      (((footerNormEntries version fin).filter
        (fun e => e.isFor c2 norm unit resolution)).getLast?.map NormEntry.entry).getD e2 := by
  unfold readFooter footerNormEntries at *
  simp only at *
  generalize (if version > 8 then (readLongFromFile fin).2 else (readIntFromFile fin).2) = f0
    at hret ⊢
  rw [readMasterIndex_stream [] (footerKey c1 c2) _ _ false false 0 pos0]
  cases hm : (readMasterIndex (footerKey c1 c2) (readIntFromFile f0).1.toNat
      (readIntFromFile f0).2 false pos0).1 with
  | false => simp [hm] at hret
  | true =>
    simp only [Bool.not_true, Bool.false_eq_true, if_false, hnorm]
    exact readNormIndex_spec version c1 c2 norm unit resolution _ _

/-! ## The claims -/

/-- In `straw`, a decoded record `rec = (bx, by, c)` is pushed if and only
if, with `x` and `y` the values the code computes for `bx * binsize` and
`by * binsize`, the point `(x, y)` lies in the rectangle `origRegionIndices`,
or the query is intrachromosomal (`c1 = c2`) and `(y, x)` lies in it. The
pushed record carries exactly these `x` and `y`, so every record `straw`
returns lies in the requested rectangle or, for `c1 = c2` only, in the
swapped one; for `c1 ≠ c2` a record outside the direct rectangle is never
pushed. `x` and `y` are the exact products whenever these fit an `int`. -/
theorem emitted_iff_in_rectangle (fp : FloatOps) (junk : Nat → Nat) (q : Query)
    (rec : contactRecord) :
    ((∃ r, emitRecord fp junk q rec = some r) ↔
      inRect q.origRegionIndices (scaled rec.binX q.binsize) (scaled rec.binY q.binsize) ∨
      (q.c1 = q.c2 ∧
        inRect q.origRegionIndices (scaled rec.binY q.binsize) (scaled rec.binX q.binsize))) ∧
    (∀ r, emitRecord fp junk q rec = some r →
      r.binX = scaled rec.binX q.binsize ∧ r.binY = scaled rec.binY q.binsize ∧
      (inRect q.origRegionIndices r.binX r.binY ∨
        (q.c1 = q.c2 ∧ inRect q.origRegionIndices r.binY r.binX))) ∧
    (q.c1 ≠ q.c2 →
      ¬ inRect q.origRegionIndices (scaled rec.binX q.binsize) (scaled rec.binY q.binsize) →
      emitRecord fp junk q rec = none) ∧
    (-(2 : Int) ^ 31 ≤ rec.binX * q.binsize → rec.binX * q.binsize < 2 ^ 31 →
      scaled rec.binX q.binsize = rec.binX * q.binsize) ∧
    (-(2 : Int) ^ 31 ≤ rec.binY * q.binsize → rec.binY * q.binsize < 2 ^ 31 →
      scaled rec.binY q.binsize = rec.binY * q.binsize) ∧
    (∀ (env : Env) (norm fname chr1loc chr2loc unit : Str) (binsize : Int)
      (out : List contactRecord),
      straw env norm fname chr1loc chr2loc unit binsize = .ok out →
      ∀ r ∈ out, ∃ o l1 l2,
        openSource env fname = some o ∧
        parseLoc o.hdr.chromosomeMap env.junk chr1loc = some (.ok l1) ∧
        parseLoc o.hdr.chromosomeMap env.junk chr2loc = some (.ok l2) ∧
        (inRect (origRegion o.hdr.chromosomeMap l1 l2) r.binX r.binY ∨
          ((o.hdr.chromosomeMap.at l1.chr).index = (o.hdr.chromosomeMap.at l2.chr).index ∧
            inRect (origRegion o.hdr.chromosomeMap l1 l2) r.binY r.binX))) := by
  refine ⟨?_, ?_, ?_, ?_, ?_, ?_⟩
  · constructor
    · rintro ⟨r, hr⟩
      exact (accepted_iff q _ _).mp ((emitRecord_eq_some fp junk q rec r).mp hr).1
    · intro h
      exact ⟨_, (emitRecord_eq_some fp junk q rec _).mpr ⟨(accepted_iff q _ _).mpr h, rfl⟩⟩
  · intro r hr
    obtain ⟨hacc, hreq⟩ := (emitRecord_eq_some fp junk q rec r).mp hr
    subst hreq
    exact ⟨rfl, rfl, (accepted_iff q _ _).mp hacc⟩
  · intro hne hout
    cases hE : emitRecord fp junk q rec with
    | none => rfl
    | some r =>
      rcases (accepted_iff q _ _).mp ((emitRecord_eq_some fp junk q rec r).mp hE).1 with h | h
      · exact absurd h hout
      · exact absurd h.1 hne
  · intro h1 h2
    exact wrap_of_range 32 (by norm_num) _ (by simpa using h1) (by simpa using h2)
  · intro h1 h2
    exact wrap_of_range 32 (by norm_num) _ (by simpa using h1) (by simpa using h2)
  · intro env norm fname chr1loc chr2loc unit binsize out hrun r hr
    obtain ⟨o, l1, l2, ri, nv, bns, b, recs, rec', fin0, fin1, ho, h1, h2, _, _, _, _, _, _,
      hemit⟩ := straw_mem env norm fname chr1loc chr2loc unit binsize out hrun r hr
    refine ⟨o, l1, l2, ho, h1, h2, ?_⟩
    obtain ⟨hacc, hreq⟩ := (emitRecord_eq_some _ _ _ rec' r).mp hemit
    subst hreq
    rcases (accepted_iff _ _ _).mp hacc with h | ⟨hc, h⟩
    · exact Or.inl h
    · right
      refine ⟨?_, h⟩
      simp only [queryOf] at hc
      rcases le_total (o.hdr.chromosomeMap.at l1.chr).index (o.hdr.chromosomeMap.at l2.chr).index
        with hle | hle
      · rw [min_eq_left hle, max_eq_right hle] at hc; exact hc
      · rw [min_eq_right hle, max_eq_left hle] at hc; exact hc.symm

theorem emitted_iff_in_rectangle_sample :
    scaled 3 100 = 3 * 100 ∧
    emitRecord sampleFp (fun _ => 0) sampleInter { binX := 3, binY := 30, counts := 7 } = none ∧
    ∃ o l1 l2,
      openSource sampleEnv (ascii "a.hic") = some o ∧
      parseLoc o.hdr.chromosomeMap sampleEnv.junk (ascii "X") = some (.ok l1) ∧
      parseLoc o.hdr.chromosomeMap sampleEnv.junk (ascii "X:500:1500") = some (.ok l2) ∧
      (inRect (origRegion o.hdr.chromosomeMap l1 l2) 300 800 ∨
        ((o.hdr.chromosomeMap.at l1.chr).index = (o.hdr.chromosomeMap.at l2.chr).index ∧
          inRect (origRegion o.hdr.chromosomeMap l1 l2) 800 300)) :=
  ⟨(emitted_iff_in_rectangle sampleFp (fun _ => 0) sampleInter
      { binX := 3, binY := 30, counts := 7 }).2.2.2.1 (by decide) (by decide),
   (emitted_iff_in_rectangle sampleFp (fun _ => 0) sampleInter
      { binX := 3, binY := 30, counts := 7 }).2.2.1 (by decide) (by decide),
   (emitted_iff_in_rectangle sampleFp (fun _ => 0) sampleInter
      { binX := 3, binY := 30, counts := 7 }).2.2.2.2.2 sampleEnv (ascii "NONE") (ascii "a.hic")
      (ascii "X") (ascii "X:500:1500") (ascii "BP") 100
      [{ binX := 300, binY := 800, counts := 0x40000000 }] rfl
      { binX := 300, binY := 800, counts := 0x40000000 } (List.mem_singleton_self _)⟩

/-- C1: evaluation of `straw` at inputs on which the claim fails. The only
block of `c.hic` holds the record `(50000, 0)` and the bin size is 100000, so
that `x = bx * binsize = 5000000000` and `y = 0`. For the rectangle
[4000000000, 6000000000] x [0, 100000], which contains `(x, y)`, `straw`
returns nothing; for the rectangle [0, 1000000000] x [0, 100000], which
contains neither `(x, y)` nor `(y, x)`, the record is returned: the test is
made on 705032704, the product formed in `int`. Same defect as C4, C5 and
C30. -/
theorem C1_filter_on_int_product :
    (readBlock sampleFp sampleEnv.inflate sampleEnv.junk 9
        (IStream.open sampleBig sampleEnv.junk) none { size := 32, position := 70 }).map
      Prod.fst = .ok [{ binX := 50000, binY := 0, counts := 0x41A00000 }] ∧
    (50000 : Int) * 100000 = 5000000000 ∧
    inRect (4000000000, 6000000000, 0, 100000) 5000000000 0 ∧
    straw sampleEnv (ascii "NONE") (ascii "c.hic") (ascii "1:4000000000:6000000000")
      (ascii "1:0:100000") (ascii "BP") 100000 = .ok [] ∧
    ¬ inRect (0, 1000000000, 0, 100000) 5000000000 0 ∧
    ¬ inRect (0, 1000000000, 0, 100000) 0 5000000000 ∧
    straw sampleEnv (ascii "NONE") (ascii "c.hic") (ascii "1:0:1000000000")
      (ascii "1:0:100000") (ascii "BP") 100000
      = .ok [{ binX := 705032704, binY := 0, counts := 0x41A00000 }] :=
  ⟨rfl, by decide, by decide, rfl, by decide, by decide, rfl⟩

/-- C2: with `norm = "NONE"`, every record `straw` returns carries the counts
of the record `rec` it was produced from, bit for bit, where `rec` is one of
the records `readBlock` returned for a selected block (whatever the encoding
of the block); its coordinates are those of `rec` scaled by `binsize`. -/
theorem C2_none_counts_unchanged (env : Env) (fname chr1loc chr2loc unit : Str)
    (binsize : Int) (out : List contactRecord)
    (hrun : straw env (ascii "NONE") fname chr1loc chr2loc unit binsize = .ok out)
    (r : contactRecord) (hr : r ∈ out) :
    ∃ o l1 l2 nv b recs rec fin0 fin1,
      openSource env fname = some o ∧
      readBlock env.fp env.inflate env.junk o.hdr.version fin0 o.http
        ((matrixFor env (ascii "NONE") unit binsize o l1 l2 nv).blockMap.at b)
        = .ok (recs, fin1) ∧
      rec ∈ recs ∧
      r.counts = rec.counts ∧
      r.binX = scaled rec.binX binsize ∧ r.binY = scaled rec.binY binsize := by
  obtain ⟨o, l1, l2, ri, nv, bns, b, recs, rec, fin0, fin1, ho, _, _, _, _, _, _, hrb, hin,
    hemit⟩ := straw_mem env (ascii "NONE") fname chr1loc chr2loc unit binsize out hrun r hr
  refine ⟨o, l1, l2, nv, b, recs, rec, fin0, fin1, ho, hrb, hin, ?_⟩
  obtain ⟨_, hreq⟩ := (emitRecord_eq_some _ _ _ rec r).mp hemit
  subst hreq
  simp [normalized, queryOf]

theorem C2_none_counts_unchanged_witness :
    ∃ o l1 l2 nv b recs rec fin0 fin1,
      openSource sampleEnv (ascii "a.hic") = some o ∧
      readBlock sampleEnv.fp sampleEnv.inflate sampleEnv.junk o.hdr.version fin0 o.http
        ((matrixFor sampleEnv (ascii "NONE") (ascii "BP") 100 o l1 l2 nv).blockMap.at b)
        = .ok (recs, fin1) ∧
      rec ∈ recs ∧
      (0x40000000 : Nat) = rec.counts ∧
      (300 : Int) = scaled rec.binX 100 ∧ (800 : Int) = scaled rec.binY 100 :=
  C2_none_counts_unchanged sampleEnv (ascii "a.hic") (ascii "X") (ascii "X") (ascii "BP") 100
    [{ binX := 300, binY := 800, counts := 0x40000000 }] rfl
    { binX := 300, binY := 800, counts := 0x40000000 } (List.mem_singleton_self _)

/-- C3: with `norm` other than `"NONE"`, every record `straw` returns has
counts `raw.counts / (c1Norm[raw.binX] * c2Norm[raw.binY])`, evaluated as the
code does (the float is widened, the division is done in double, the quotient
is narrowed to float), where `raw` is the record `readBlock` returned,
`c1Norm` is the vector loaded from the entry the footer gave for
`c1 = min(index1, index2)` and `c2Norm` the one for `c2 = max(index1, index2)`
(the last index entry whose chromosome index is `c1`, respectively `c2`, with
the requested normalization, unit and resolution); `c1Norm` is indexed by the
on-disk `binX` and `c2Norm` by the on-disk `binY`, an index inside the vector
reading that element. In scenario S3
(`c1Norm[1] = 4.0`, `c2Norm[1] = 5.0`, raw record `(1, 1, 20.0)`, bin size 10)
the record pushed is `(10, 10, 1.0)` on every floating-point unit that
computes `4.0 * 5.0 = 20.0` and `20.0 / 20.0 = 1.0`. -/
theorem C3_norm_divides_counts (env : Env) (norm fname chr1loc chr2loc unit : Str)
    (binsize : Int) (out : List contactRecord) (hnorm : norm ≠ ascii "NONE")
    (hrun : straw env norm fname chr1loc chr2loc unit binsize = .ok out)
    (r : contactRecord) (hr : r ∈ out) :
    (∃ o l1 l2 n1 n2 nv b recs rec fin0 fin1,
      openSource env fname = some o ∧
      parseLoc o.hdr.chromosomeMap env.junk chr1loc = some (.ok l1) ∧
      parseLoc o.hdr.chromosomeMap env.junk chr2loc = some (.ok l2) ∧
      loadNorm env o.hdr.version o.http
        (footerOf env o
          (min (o.hdr.chromosomeMap.at l1.chr).index (o.hdr.chromosomeMap.at l2.chr).index)
          (max (o.hdr.chromosomeMap.at l1.chr).index (o.hdr.chromosomeMap.at l2.chr).index)
          norm unit binsize).fin
        (footerOf env o
          (min (o.hdr.chromosomeMap.at l1.chr).index (o.hdr.chromosomeMap.at l2.chr).index)
          (max (o.hdr.chromosomeMap.at l1.chr).index (o.hdr.chromosomeMap.at l2.chr).index)
          norm unit binsize).c1NormEntry = .ok n1 ∧
      loadNorm env o.hdr.version o.http n1.2
        (footerOf env o
          (min (o.hdr.chromosomeMap.at l1.chr).index (o.hdr.chromosomeMap.at l2.chr).index)
          (max (o.hdr.chromosomeMap.at l1.chr).index (o.hdr.chromosomeMap.at l2.chr).index)
          norm unit binsize).c2NormEntry = .ok n2 ∧
      readBlock env.fp env.inflate env.junk o.hdr.version fin0 o.http
        ((matrixFor env norm unit binsize o l1 l2 nv).blockMap.at b) = .ok (recs, fin1) ∧
      rec ∈ recs ∧
      r.binX = scaled rec.binX binsize ∧ r.binY = scaled rec.binY binsize ∧
      r.counts = env.fp.toFloat (env.fp.div (env.fp.toDouble rec.counts)
        (env.fp.mul (vecAt n1.1 rec.binX env.junk) (vecAt n2.1 rec.binY env.junk)))) ∧
    (∀ (fin : IStream) (version c1 c2 : Int) (resolution pos0 : Int) (e1 e2 : indexEntry),
      (readFooter fin version c1 c2 norm unit resolution pos0 e1 e2).ret = true →
      (readFooter fin version c1 c2 norm unit resolution pos0 e1 e2).c1NormEntry =
        (((footerNormEntries version fin).filter
          (fun e => e.isFor c1 norm unit resolution)).getLast?.map NormEntry.entry).getD e1 ∧
      (readFooter fin version c1 c2 norm unit resolution pos0 e1 e2).c2NormEntry =
        (((footerNormEntries version fin).filter
          (fun e => e.isFor c2 norm unit resolution)).getLast?.map NormEntry.entry).getD e2) ∧
    (∀ (v : List Nat) (i : Nat) (d : Nat) (junk : Nat → Nat),
      v[i]? = some d → vecAt v (i : Int) junk = d) ∧
    (∀ (fp : FloatOps) (junk : Nat → Nat),
      fp.toDouble 0x41A00000 = 0x4034000000000000 →
      fp.mul 0x4010000000000000 0x4014000000000000 = 0x4034000000000000 →
      fp.div 0x4034000000000000 0x4034000000000000 = 0x3FF0000000000000 →
      fp.toFloat 0x3FF0000000000000 = 0x3F800000 →
      emitRecord fp junk sampleS3 { binX := 1, binY := 1, counts := 0x41A00000 }
        = some { binX := 10, binY := 10, counts := 0x3F800000 }) := by
  refine ⟨?_, ?_, ?_, ?_⟩
  · obtain ⟨o, l1, l2, ri, nv, bns, b, recs, rec, fin0, fin1, ho, h1, h2, _, hnv, _, _, hrb,
      hin, hemit⟩ := straw_mem env norm fname chr1loc chr2loc unit binsize out hrun r hr
    simp only [loadNorms, footerFor, hnorm, ne_eq, not_false_eq_true, if_true] at hnv
    split at hnv
    · simp at hnv
    · rename_i n1 hn1
      split at hnv
      · simp at hnv
      · rename_i n2 hn2
        simp only [Except.ok.injEq] at hnv
        refine ⟨o, l1, l2, n1, n2, nv, b, recs, rec, fin0, fin1, ho, h1, h2, hn1, hn2, hrb, hin,
          ?_⟩
        obtain ⟨_, hreq⟩ := (emitRecord_eq_some _ _ _ rec r).mp hemit
        subst hreq
        subst hnv
        simp [normalized, queryOf, hnorm]
  · intro fin version c1 c2 resolution pos0 e1 e2 hret
    exact readFooter_normEntries fin version c1 c2 norm unit resolution pos0 e1 e2 hnorm hret
  · intro v i d junk hv
    have hlt : i < v.length := by
      by_contra hcon
      rw [List.getElem?_eq_none (by omega)] at hv
      exact absurd hv (by simp)
    have hget : v[i] = d := by
      have := List.getElem?_eq_getElem hlt
      rw [this] at hv
      exact Option.some.inj hv
    simp [vecAt, hlt, hget]
  · intro fp junk h1 h2 h3 h4
    have hx : scaled 1 10 = 10 := by decide
    have hacc : accepted sampleS3 10 10 = true := by decide
    have hn : sampleS3.norm ≠ ascii "NONE" := by decide
    have hv1 : vecAt sampleS3.c1Norm 1 junk = 0x4010000000000000 := by
      simp [vecAt, sampleS3]
    have hv2 : vecAt sampleS3.c2Norm 1 junk = 0x4014000000000000 := by
      simp [vecAt, sampleS3]
    have hb : sampleS3.binsize = 10 := rfl
    simp only [emitRecord, normalized, hb, hx, hacc, hn, ne_eq, not_false_eq_true, if_true,
      hv1, hv2, h1, h2, h3, h4]

theorem C3_norm_divides_counts_witness :
    emitRecord sampleFp (fun _ => 0) sampleS3 { binX := 1, binY := 1, counts := 0x41A00000 }
      = some { binX := 10, binY := 10, counts := 0x3F800000 } :=
  (C3_norm_divides_counts sampleEnv (ascii "VC") (ascii "b.hic") (ascii "1") (ascii "2")
    (ascii "BP") 10 [{ binX := 10, binY := 10, counts := 0x3F800000 }] (by decide) rfl
    { binX := 10, binY := 10, counts := 0x3F800000 } (List.mem_singleton_self _)).2.2.2
    sampleFp (fun _ => 0) rfl rfl rfl rfl

/-- C4: evaluation of `straw` at an input on which the claim fails. The
chromosome is 6000000000 bp long, the bin size is 100000 and the block holds
the cell of bin 50000, at 5000000000 bp. The product `50000 * 100000` is
formed in `int`, so the record comes back with `binX = 705032704`, which is
not a multiple of the bin size. -/
theorem C4_scaled_coordinate_overflows :
    straw sampleEnv (ascii "NONE") (ascii "c.hic") (ascii "1") (ascii "1") (ascii "BP") 100000
      = .ok [{ binX := 705032704, binY := 0, counts := 0x41A00000 }] ∧
    (705032704 : Int) % 100000 ≠ 0 ∧
    (50000 : Int) * 100000 = 5000000000 ∧
    scaled 50000 100000 = 705032704 :=
  ⟨rfl, by decide, by decide, by decide⟩

/-- On a run of `straw` that reaches the block loop (valid unit, source
opened, both locations parsed, matrix key found in the footer), the list
returned is the concatenation, over the selected block numbers `bns`, which
are strictly ascending, of the records `readBlock` returns for each block in
its own order (`blocks`, one list per block number, read one after the
other), each mapped through the loop body: a record is dropped when it fails
the rectangle test and is otherwise pushed with `binX` scaled from `binX`,
`binY` from `binY` (the products by `binsize` formed in `int`) and its
(normalized) counts. Nothing is reordered, duplicated or transposed. -/
theorem output_is_concatenation (env : Env) (norm fname chr1loc chr2loc unit : Str)
    (binsize : Int) (o : Opened) (l1 l2 : Loc) (out : List contactRecord)
    (hunit : unit = ascii "BP" ∨ unit = ascii "FRAG")
    (ho : openSource env fname = some o)
    (h1 : parseLoc o.hdr.chromosomeMap env.junk chr1loc = some (.ok l1))
    (h2 : parseLoc o.hdr.chromosomeMap env.junk chr2loc = some (.ok l2))
    (hft : (footerFor env norm unit binsize o l1 l2).ret = true)
    (hrun : straw env norm fname chr1loc chr2loc unit binsize = .ok out) :
    ∃ ri nv bns blocks,
      regionOf (origRegion o.hdr.chromosomeMap l1 l2) binsize = .ok ri ∧
      loadNorms env o.hdr.version o.http norm (footerFor env norm unit binsize o l1 l2)
        = .ok nv ∧
      blockNumbersFor env norm unit binsize o l1 l2 nv ri = .ok bns ∧
      bns.Pairwise (· < ·) ∧
      decodedBlocks env o.hdr.version o.http
        (matrixFor env norm unit binsize o l1 l2 nv).blockMap bns
        (matrixFor env norm unit binsize o l1 l2 nv).fin = .ok blocks ∧
      blocks.length = bns.length ∧
      out = (blocks.map (List.filterMap
        (emitRecord env.fp env.junk (queryOf norm binsize o l1 l2 nv)))).flatten ∧
      ∀ rec r, emitRecord env.fp env.junk (queryOf norm binsize o l1 l2 nv) rec = some r →
        r = { binX := scaled rec.binX binsize, binY := scaled rec.binY binsize,
              counts := normalized env.fp env.junk (queryOf norm binsize o l1 l2 nv) rec } := by
  have hreg : strawRegion env norm unit binsize o l1 l2 = .ok out := by
    unfold straw at hrun
    simp only [hunit, not_true_eq_false, if_false, ho, h1, h2] at hrun
    exact hrun
  rcases strawRegion_ok env norm unit binsize o l1 l2 out hreg with ⟨hf, _⟩ | ⟨ri, nv, bns, blocks, _, hri, hnv, hbns, hdec, hout⟩
  · rw [hft] at hf; exact absurd hf (by simp)
  · refine ⟨ri, nv, bns, blocks, hri, hnv, hbns, ?_, hdec, ?_, ?_, ?_⟩
    · exact blockNumbersOf_pairwise _ _ _ _ _ _ _ _ _ _ bns hbns
    · exact decodedBlocks_length _ _ _ _ bns _ blocks hdec
    · rw [hout, filterMap_flatten_eq]
    · intro rec r hr
      exact ((emitRecord_eq_some _ _ _ rec r).mp hr).2

theorem output_is_concatenation_sample :
    ∃ (nv : Norms) (bns : List Int) (blocks : List (List contactRecord)),
      blockNumbersFor sampleEnv (ascii "VC") (ascii "BP") 10 (sampleOpened sampleV9)
        { chr := ascii "1", pos1 := 0, pos2 := 20 } { chr := ascii "2", pos1 := 0, pos2 := 20 }
        nv (0, 2, 0, 2) = .ok bns ∧
      bns.Pairwise (· < ·) ∧ blocks.length = bns.length ∧
      [({ binX := 10, binY := 10, counts := 0x3F800000 } : contactRecord)] =
        (blocks.map (List.filterMap
          (emitRecord sampleEnv.fp sampleEnv.junk (queryOf (ascii "VC") 10
            (sampleOpened sampleV9) { chr := ascii "1", pos1 := 0, pos2 := 20 }
            { chr := ascii "2", pos1 := 0, pos2 := 20 } nv)))).flatten :=
  match output_is_concatenation sampleEnv (ascii "VC") (ascii "b.hic") (ascii "1")
    (ascii "2") (ascii "BP") 10 (sampleOpened sampleV9)
    { chr := ascii "1", pos1 := 0, pos2 := 20 } { chr := ascii "2", pos1 := 0, pos2 := 20 }
    [{ binX := 10, binY := 10, counts := 0x3F800000 }]
    (Or.inl rfl) rfl rfl rfl rfl rfl with
  | ⟨_, nv, bns, blocks, hri, _, hbns, hp, _, hl, hout, _⟩ =>
    ⟨nv, bns, blocks, (by cases hri; exact hbns), hp, hl, hout⟩

/-- C5: evaluation of `straw` at an input on which the claim fails. The only
block of `c.hic` decodes to the record `(50000, 0)`; the query over
[0, 2000000000] x [0, 6000000000] at bin size 100000 keeps it (the transposed
test holds), but the record returned has `binX = 705032704`, not the decoded
bin scaled by the bin size, 5000000000: the product is formed in `int`. Same
defect as C1, C4 and C30. -/
theorem C5_scaling_in_int :
    (readBlock sampleFp sampleEnv.inflate sampleEnv.junk 9
        (IStream.open sampleBig sampleEnv.junk) none { size := 32, position := 70 }).map
      Prod.fst = .ok [{ binX := 50000, binY := 0, counts := 0x41A00000 }] ∧
    straw sampleEnv (ascii "NONE") (ascii "c.hic") (ascii "1:0:2000000000") (ascii "1")
      (ascii "BP") 100000 = .ok [{ binX := 705032704, binY := 0, counts := 0x41A00000 }] ∧
    (50000 : Int) * 100000 = 5000000000 ∧
    (705032704 : Int) ≠ 50000 * 100000 ∧
    inRect (0, 2000000000, 0, 6000000000) 0 5000000000 :=
  ⟨rfl, rfl, by decide, by decide, by decide⟩

/-- C6: when the leading NUL-terminated string of the stream does not begin
with `H`, `I`, `C`, `readHeader` returns an empty chromosome map and sets
`masterIndexPosition` to -1; the global `version` keeps its old value and the
stream is where `getline` left it, at most one byte behind the leading string,
so neither the version nor anything after it is read. `straw` on a source
whose header bytes are such returns an empty list, and `getSize` returns 0,
for every choice of the other arguments. -/
theorem C6_bad_magic_rejected (data : List Nat) (junk : Nat → Nat) (version0 master0 : Int)
    (env : Env) (norm fname chr1loc chr2loc unit : Str) (binsize : Int)
    (hbad : ¬ [72, 73, 67] <+: leadingString data)
    (hsrc : ∀ bytes, headerBytes env fname = some bytes →
      ¬ [72, 73, 67] <+: leadingString bytes) :
    readHeader (IStream.open data junk) version0 master0 =
      { chromosomeMap := [], masterIndexPosition := -1, version := version0,
        fin := (getline (IStream.open data junk) [] 0).2 } ∧
    (getline (IStream.open data junk) [] 0).2.pos ≤ (leadingString data).length + 1 ∧
    straw env norm fname chr1loc chr2loc unit binsize = .ok [] ∧
    getSize env norm fname chr1loc chr2loc unit binsize = .ok 0 := by
  have hrej : ∀ (d : List Nat) (j : Nat → Nat) (v0 m0 : Int),
      ¬ [72, 73, 67] <+: leadingString d →
      readHeader (IStream.open d j) v0 m0 =
        { chromosomeMap := [], masterIndexPosition := -1, version := v0,
          fin := (getline (IStream.open d j) [] 0).2 } := by
    intro d j v0 m0 hd
    have hm : (readMagicString (IStream.open d j)).1 = false := by
      cases hc : (readMagicString (IStream.open d j)).1 with
      | false => rfl
      | true =>
        have := (readMagicString_iff _).mp hc
        rw [getline_open_fst] at this
        exact absurd this hd
    unfold readHeader
    simp only [hm, Bool.not_false, if_true]
    rfl
  refine ⟨hrej data junk version0 master0 hbad, ?_, ?_⟩
  · simp only [getline, IStream.open, IStream.good, leadingString, List.drop_zero,
      Bool.not_false, Bool.and_self, if_true]
    split <;> simp
  · apply empty_map_returns
    intro o ho
    obtain ⟨bytes, hb, hhdr⟩ := openSource_hdr env fname o ho
    rw [hhdr, hrej bytes env.junk env.version env.master (hsrc bytes hb)]

theorem C6_bad_magic_rejected_witness :
    readHeader (IStream.open sampleBadMagic (fun _ => 0)) 0 0 =
      { chromosomeMap := [], masterIndexPosition := -1, version := 0,
        fin := (getline (IStream.open sampleBadMagic (fun _ => 0)) [] 0).2 } ∧
    (getline (IStream.open sampleBadMagic (fun _ => 0)) [] 0).2.pos
      ≤ (leadingString sampleBadMagic).length + 1 ∧
    straw sampleEnv (ascii "NONE") (ascii "d.hic") (ascii "X") (ascii "X") (ascii "BP") 100
      = .ok [] ∧
    getSize sampleEnv (ascii "NONE") (ascii "d.hic") (ascii "X") (ascii "X") (ascii "BP") 100
      = .ok 0 :=
  C6_bad_magic_rejected sampleBadMagic (fun _ => 0) 0 0 sampleEnv (ascii "NONE")
    (ascii "d.hic") (ascii "X") (ascii "X") (ascii "BP") 100 (by decide)
    (fun bytes hb => by
      have hb' : some sampleBadMagic = some bytes := hb
      cases hb'
      decide)

/-- C7: for a header with valid magic whose version field is `v`
(`versionField`, which is the `int` stored in the four bytes after the
leading string), `readHeader` rejects when `v < 6`: it returns an empty
chromosome map and `masterIndexPosition = -1` and stops right after the
version; for every `v ≥ 6` the check lets the header through, that is the
master index position, genome id, attributes and chromosome table are read
(`readHeaderBody`). `straw` on a source with such a header of version below 6
returns an empty list, and `getSize` 0, at the lookup of the first
chromosome, before the footer, a matrix or a block is read. -/
theorem C7_version_gate (data : List Nat) (junk : Nat → Nat) (version0 master0 : Int)
    (env : Env) (norm fname chr1loc chr2loc unit : Str) (binsize : Int)
    (hmagic : [72, 73, 67] <+: leadingString data)
    (hsrc : ∀ bytes, headerBytes env fname = some bytes →
      [72, 73, 67] <+: leadingString bytes ∧ versionField bytes env.junk env.version < 6) :
    (versionField data junk version0 < 6 →
      readHeader (IStream.open data junk) version0 master0 =
        { chromosomeMap := [], masterIndexPosition := -1,
          version := versionField data junk version0,
          fin := ((getline (IStream.open data junk) [] 0).2.read 4 (bytesOf 4 version0)).2 }) ∧
    (6 ≤ versionField data junk version0 →
      readHeader (IStream.open data junk) version0 master0 =
        readHeaderBody (versionField data junk version0)
          ((getline (IStream.open data junk) [] 0).2.read 4 (bytesOf 4 version0)).2 master0) ∧
    (∀ (m rest : List Nat) (w : Int), data = m ++ 0 :: (i32 w ++ rest) → (∀ b ∈ m, b ≠ 0) →
      -2147483648 ≤ w → w < 2147483648 → versionField data junk version0 = w) ∧
    straw env norm fname chr1loc chr2loc unit binsize = .ok [] ∧
    getSize env norm fname chr1loc chr2loc unit binsize = .ok 0 := by
  have hm : ∀ (d : List Nat) (j : Nat → Nat), [72, 73, 67] <+: leadingString d →
      (readMagicString (IStream.open d j)).1 = true := by
    intro d j hd
    apply (readMagicString_iff _).mpr
    rw [getline_open_fst]
    exact hd
  have hlow : ∀ (d : List Nat) (j : Nat → Nat) (v0 m0 : Int),
      [72, 73, 67] <+: leadingString d → versionField d j v0 < 6 →
      readHeader (IStream.open d j) v0 m0 =
        { chromosomeMap := [], masterIndexPosition := -1, version := versionField d j v0,
          fin := ((getline (IStream.open d j) [] 0).2.read 4 (bytesOf 4 v0)).2 } := by
    intro d j v0 m0 hd hv
    have hv' : leInt ((readMagicString (IStream.open d j)).2.read 4 (bytesOf 4 v0)).1 < 6 := hv
    unfold readHeader
    simp only [hm d j hd, Bool.not_true, if_false, hv', if_true]
    rfl
  refine ⟨hlow data junk version0 master0 hmagic, ?_, ?_, ?_⟩
  · intro hv
    have hv' : ¬ leInt ((readMagicString (IStream.open data junk)).2.read 4
        (bytesOf 4 version0)).1 < 6 := not_lt.mpr hv
    unfold readHeader
    simp only [hm data junk hmagic, Bool.not_true, if_false, hv']
    rfl
  · intro m rest w hdata hmz h1 h2
    subst hdata
    unfold versionField
    rw [getline_open_delim m _ junk hmz]
    have hlen : (i32 w).length = 4 := by simp [i32, bytesOf]
    rw [read_at m (i32 w) rest _ junk 4 0 hlen]
    exact leInt_i32 w h1 h2
  · apply empty_map_returns
    intro o ho
    obtain ⟨bytes, hb, hhdr⟩ := openSource_hdr env fname o ho
    rw [hhdr, hlow bytes env.junk env.version env.master (hsrc bytes hb).1 (hsrc bytes hb).2]

theorem C7_version_gate_witness :
    (readHeader (IStream.open sampleV5 (fun _ => 0)) 0 0).chromosomeMap = [] ∧
    (readHeader (IStream.open sampleV5 (fun _ => 0)) 0 0).masterIndexPosition = -1 ∧
    versionField sampleV5 (fun _ => 0) 0 = 5 ∧
    readHeader (IStream.open sampleV8 (fun _ => 0)) 0 0 =
      readHeaderBody (versionField sampleV8 (fun _ => 0) 0)
        ((getline (IStream.open sampleV8 (fun _ => 0)) [] 0).2.read 4 (bytesOf 4 0)).2 0 ∧
    straw sampleEnv (ascii "NONE") (ascii "e.hic") (ascii "X") (ascii "X") (ascii "BP") 100
      = .ok [] ∧
    getSize sampleEnv (ascii "NONE") (ascii "e.hic") (ascii "X") (ascii "X") (ascii "BP") 100
      = .ok 0 :=
  have hsrc : ∀ bytes, headerBytes sampleEnv (ascii "e.hic") = some bytes →
      [72, 73, 67] <+: leadingString bytes ∧
        versionField bytes sampleEnv.junk sampleEnv.version < 6 :=
    fun bytes hb => by
      have hb' : some sampleV5 = some bytes := hb
      cases hb'
      exact ⟨by decide, by decide⟩
  have h5 := C7_version_gate sampleV5 (fun _ => 0) 0 0 sampleEnv (ascii "NONE")
    (ascii "e.hic") (ascii "X") (ascii "X") (ascii "BP") 100 (by decide) hsrc
  have h8 := C7_version_gate sampleV8 (fun _ => 0) 0 0 sampleEnv (ascii "NONE")
    (ascii "e.hic") (ascii "X") (ascii "X") (ascii "BP") 100 (by decide) hsrc
  ⟨congrArg HeaderResult.chromosomeMap (h5.1 (by decide)),
   congrArg HeaderResult.masterIndexPosition (h5.1 (by decide)),
   h5.2.2.1 (ascii "HIC")
     (i64 100 ++ cstr "g" ++ i32 0 ++ i32 1 ++ cstr "X" ++ i32 2000) 5 (by decide) (by decide)
     (by decide) (by decide),
   h8.2.1 (by decide), h5.2.2.2.1, h5.2.2.2.2⟩

/-- C8 (as amended): when the chromosome name of `chr1loc` is not a key of
the map parsed from the header, or that name is a key, the range of `chr1loc`
is absent or converts with `std::stol`, and the name of `chr2loc` is not a
key, `straw` returns an empty list and `getSize` returns 0; the result does
not depend on anything behind the header. A location that is just the name of
a known chromosome always parses. -/
theorem C8_unknown_chromosome (env : Env) (norm fname chr1loc chr2loc unit : Str)
    (binsize : Int) (o : Opened) (ho : openSource env fname = some o)
    (h : o.hdr.chromosomeMap.count (locName chr1loc) = 0 ∨
      ((∃ l1, parseLoc o.hdr.chromosomeMap env.junk chr1loc = some (.ok l1)) ∧
        o.hdr.chromosomeMap.count (locName chr2loc) = 0)) :
    straw env norm fname chr1loc chr2loc unit binsize = .ok [] ∧
    getSize env norm fname chr1loc chr2loc unit binsize = .ok 0 ∧
    (∀ loc : Str, 58 ∉ loc → o.hdr.chromosomeMap.count loc ≠ 0 →
      parseLoc o.hdr.chromosomeMap env.junk loc =
        some (.ok { chr := loc, pos1 := 0, pos2 := (o.hdr.chromosomeMap.at loc).length })) := by
  refine ⟨?_, ?_, ?_⟩
  · unfold straw
    split
    · rfl
    · simp only [ho]
      rcases h with h | ⟨⟨l1, hl1⟩, h2⟩
      · rw [parseLoc_unknown _ _ _ h]
      · rw [hl1]
        simp only [parseLoc_unknown _ _ _ h2]
  · unfold getSize
    split
    · rfl
    · simp only [ho]
      rcases h with h | ⟨⟨l1, hl1⟩, h2⟩
      · rw [parseLoc_unknown _ _ _ h]
      · rw [hl1]
        simp only [parseLoc_unknown _ _ _ h2]
  · intro loc hcolon hknown
    have htw : loc.takeWhile (fun b => b != 58) = loc := by
      apply List.takeWhile_eq_self_iff.mpr
      intro a ha
      have : a ≠ 58 := fun h58 => hcolon (h58 ▸ ha)
      simpa using this
    have hname : locName loc = loc := htw
    unfold parseLoc
    simp only [parseLoc_name env.junk loc, hname, hknown, if_false]
    have hx : (getline (getline (IStream.open loc env.junk) [] 58).2 [] 58).2.fail = true := by
      simp only [getline, IStream.open, IStream.good, List.drop_zero, Bool.not_false,
        Bool.and_self, if_true, htw, lt_irrefl, if_false]
      simp
    simp [hx]

theorem C8_unknown_chromosome_witness :
    straw sampleEnv (ascii "NONE") (ascii "a.hic") (ascii "X") (ascii "Y") (ascii "BP") 100
      = .ok [] ∧
    getSize sampleEnv (ascii "NONE") (ascii "a.hic") (ascii "X") (ascii "Y") (ascii "BP") 100
      = .ok 0 :=
  have h := C8_unknown_chromosome sampleEnv (ascii "NONE") (ascii "a.hic") (ascii "X")
    (ascii "Y") (ascii "BP") 100
    { http := none, total_bytes := 0,
      hdr := readHeader (IStream.open sampleV8 sampleEnv.junk) 0 0,
      fin := (readHeader (IStream.open sampleV8 sampleEnv.junk) 0 0).fin }
    rfl (Or.inr ⟨⟨{ chr := ascii "X", pos1 := 0, pos2 := 2000 }, rfl⟩, by decide⟩)
  ⟨h.1, h.2.1⟩

/-- C8, the claim as stated fails: in `a.hic` the chromosome `Y` named by
`chr2loc` is not a key of the map, yet `straw` and `getSize` do not return:
the range of `chr1loc` is converted before `chr2loc` is looked at, and
`std::stol("a")` throws. -/
theorem C8_counterexample :
    (readHeader (IStream.open sampleV8 sampleEnv.junk) 0 0).chromosomeMap.count
      (locName (ascii "Y")) = 0 ∧
    straw sampleEnv (ascii "NONE") (ascii "a.hic") (ascii "X:a:b") (ascii "Y") (ascii "BP") 100
      = .error .invalidArgument ∧
    getSize sampleEnv (ascii "NONE") (ascii "a.hic") (ascii "X:a:b") (ascii "Y") (ascii "BP") 100
      = .error .invalidArgument :=
  ⟨by decide, rfl, rfl⟩

/-- C9: `readFooter` returns false if and only if none of the `nEntries`
master-index entries has the key `"{c1}_{c2}"` (`footerKey`, the two indices
in decimal joined by `_`); when it returns true, `myFilePos` is the `fpos` of
the last entry with that key; and on a run of `straw` that reaches the footer
(valid unit, source opened, both locations parsed, nonzero bin size), a false
return makes `straw` return an empty list and `getSize` return 0. -/
theorem C9_footer_lookup (fin : IStream) (version c1 c2 : Int) (norm unit : Str)
    (resolution pos0 : Int) (e1 e2 : indexEntry)
    (env : Env) (fname chr1loc chr2loc : Str) (o : Opened) (l1 l2 : Loc)
    (ri : Int × Int × Int × Int)
    (hunit : unit = ascii "BP" ∨ unit = ascii "FRAG")
    (ho : openSource env fname = some o)
    (h1 : parseLoc o.hdr.chromosomeMap env.junk chr1loc = some (.ok l1))
    (h2 : parseLoc o.hdr.chromosomeMap env.junk chr2loc = some (.ok l2))
    (hri : regionOf (origRegion o.hdr.chromosomeMap l1 l2) resolution = .ok ri)
    (hret : (readFooter (footerStream env o) o.hdr.version
      (min (o.hdr.chromosomeMap.at l1.chr).index (o.hdr.chromosomeMap.at l2.chr).index)
      (max (o.hdr.chromosomeMap.at l1.chr).index (o.hdr.chromosomeMap.at l2.chr).index)
      norm unit resolution env.myFilePos env.c1NormEntry env.c2NormEntry).ret = false) :
    ((readFooter fin version c1 c2 norm unit resolution pos0 e1 e2).ret = false ↔
      ∀ e ∈ footerEntries version fin, e.1 ≠ footerKey c1 c2) ∧
    ((readFooter fin version c1 c2 norm unit resolution pos0 e1 e2).ret = true →
      ((footerEntries version fin).filter
        (fun e => decide (e.1 = footerKey c1 c2))).getLast? =
        some (footerKey c1 c2,
          (readFooter fin version c1 c2 norm unit resolution pos0 e1 e2).myFilePos)) ∧
    footerKey c1 c2 = intToStr c1 ++ ascii "_" ++ intToStr c2 ∧
    footerKey 3 12 = ascii "3_12" ∧
    straw env norm fname chr1loc chr2loc unit resolution = .ok [] ∧
    getSize env norm fname chr1loc chr2loc unit resolution = .ok 0 := by
  obtain ⟨hr, hp⟩ := readFooter_ret fin version c1 c2 norm unit resolution pos0 e1 e2
  refine ⟨?_, ?_, rfl, by decide, ?_, ?_⟩
  · rw [hr]
    constructor
    · intro h e he hk
      have : (footerEntries version fin).any (fun e => decide (e.1 = footerKey c1 c2)) = true :=
        List.any_eq_true.mpr ⟨e, he, by simpa using hk⟩
      rw [h] at this
      exact absurd this (by simp)
    · intro h
      cases hc : (footerEntries version fin).any (fun e => decide (e.1 = footerKey c1 c2)) with
      | false => rfl
      | true =>
        obtain ⟨e, he, hk⟩ := List.any_eq_true.mp hc
        exact absurd (by simpa using hk) (h e he)
  · intro hret1
    rw [hr] at hret1
    obtain ⟨e, he, hk⟩ := List.any_eq_true.mp hret1
    have hmem : e ∈ (footerEntries version fin).filter
        (fun e => decide (e.1 = footerKey c1 c2)) := List.mem_filter.mpr ⟨he, hk⟩
    rw [hp]
    cases hl : ((footerEntries version fin).filter
        (fun e => decide (e.1 = footerKey c1 c2))).getLast? with
    | none =>
      rw [List.getLast?_eq_none_iff] at hl
      rw [hl] at hmem
      simp at hmem
    | some x =>
      have hx : x ∈ (footerEntries version fin).filter
          (fun e => decide (e.1 = footerKey c1 c2)) := List.mem_of_getLast?_eq_some hl
      have hxk : x.1 = footerKey c1 c2 := by simpa using (List.mem_filter.mp hx).2
      simp only [Option.map_some', Option.getD_some]
      rw [← hxk]
  · unfold straw
    simp only [hunit, not_true_eq_false, if_false, ho, h1, h2]
    unfold strawRegion
    simp only [hri, footerOf_ret, hret, Bool.not_false, if_true]
  · unfold getSize
    simp only [hunit, not_true_eq_false, if_false, ho, h1, h2]
    unfold sizeRegion
    simp only [hri, footerOf_ret, hret, Bool.not_false, if_true]

theorem C9_footer_lookup_witness :
    ((footerEntries 9 (footerStream sampleEnv (sampleOpened sampleV9))).filter
        (fun e => decide (e.1 = footerKey 0 1))).getLast? = some (footerKey 0 1, 140) ∧
    straw sampleEnv (ascii "NONE") (ascii "b.hic") (ascii "1") (ascii "1") (ascii "BP") 10
      = .ok [] ∧
    getSize sampleEnv (ascii "NONE") (ascii "b.hic") (ascii "1") (ascii "1") (ascii "BP") 10
      = .ok 0 :=
  have h := C9_footer_lookup (footerStream sampleEnv (sampleOpened sampleV9)) 9 0 1
    (ascii "NONE") (ascii "BP") 10 0 { size := 0, position := 0 } { size := 0, position := 0 }
    sampleEnv (ascii "b.hic") (ascii "1") (ascii "1") (sampleOpened sampleV9)
    { chr := ascii "1", pos1 := 0, pos2 := 20 } { chr := ascii "1", pos1 := 0, pos2 := 20 }
    (0, 2, 0, 2) (Or.inl rfl) rfl rfl rfl rfl rfl
  ⟨h.2.1 rfl, h.2.2.2.2.1, h.2.2.2.2.2⟩

/-- C10: evaluation of `straw` at an input on which the claim fails. The
matrix of `a.hic` has the single resolution BP 100 and the query asks for
BP 50. `readMatrix` reports no match and leaves `blockBinCount` and
`blockColumnCount` as they were, uninitialised; `straw` goes on to select
block numbers from them: with garbage 0 the call ends in an integer division
by zero, with garbage 7 and 3 the blocks 0 to 20 are selected before the empty
list is returned. -/
theorem C10_missing_resolution_not_rejected :
    (matrixFor sampleEnvGarbage (ascii "NONE") (ascii "BP") 50 (sampleOpened sampleV8)
      sampleLocX sampleLocX (sampleNoNorms sampleEnvGarbage)).found = false ∧
    (matrixFor sampleEnvGarbage (ascii "NONE") (ascii "BP") 50 (sampleOpened sampleV8)
      sampleLocX sampleLocX (sampleNoNorms sampleEnvGarbage)).myBlockBinCount = 7 ∧
    (matrixFor sampleEnvGarbage (ascii "NONE") (ascii "BP") 50 (sampleOpened sampleV8)
      sampleLocX sampleLocX (sampleNoNorms sampleEnvGarbage)).myBlockColumnCount = 3 ∧
    blockNumbersFor sampleEnvGarbage (ascii "NONE") (ascii "BP") 50 (sampleOpened sampleV8)
      sampleLocX sampleLocX (sampleNoNorms sampleEnvGarbage) (0, 40, 0, 40)
      = .ok [0, 1, 2, 3, 4, 5, 6, 7, 8, 9, 10, 11, 12, 13, 14, 15, 16, 17, 18, 19, 20] ∧
    straw sampleEnvGarbage (ascii "NONE") (ascii "a.hic") (ascii "X") (ascii "X") (ascii "BP") 50
      = .ok [] ∧
    straw sampleEnv (ascii "NONE") (ascii "a.hic") (ascii "X") (ascii "X") (ascii "BP") 50
      = .error .divByZero :=
  ⟨rfl, rfl, rfl, rfl, rfl, rfl⟩

/-! ## The block sets -/

theorem mem_setInsert_iff (x y : Int) (l : List Int) : y ∈ setInsert x l ↔ y = x ∨ y ∈ l := by
  constructor
  · exact mem_setInsert x y l
  · induction l with
    | nil => intro h; simpa [setInsert] using h
    | cons z zs ih =>
      intro h
      simp only [setInsert]
      split
      · rcases h with h | h
        · simp [h]
        · exact List.mem_cons_of_mem _ h
      · split
        · rename_i hxz
          rcases h with h | h
          · rw [h, hxz]; exact List.mem_cons_self _ _
          · exact h
        · rcases h with h | h
          · exact List.mem_cons_of_mem _ (ih (Or.inl h))
          · rcases List.mem_cons.mp h with h | h
            · rw [h]; exact List.mem_cons_self _ _
            · exact List.mem_cons_of_mem _ (ih (Or.inr h))

theorem mem_foldl_setInsert (f : Int → Int) (cs : List Int) :
    ∀ (acc : List Int) (x : Int),
      x ∈ cs.foldl (fun acc2 c => setInsert (f c) acc2) acc ↔ x ∈ acc ∨ ∃ c ∈ cs, x = f c := by
  induction cs with
  | nil => intro acc x; simp
  | cons c rest ih =>
    intro acc x
    simp only [List.foldl_cons, ih, mem_setInsert_iff, List.mem_cons]
    constructor
    · rintro ((h | h) | ⟨c', hc', h⟩)
      · exact Or.inr ⟨c, Or.inl rfl, h⟩
      · exact Or.inl h
      · exact Or.inr ⟨c', Or.inr hc', h⟩
    · rintro (h | ⟨c', hc' | hc', h⟩)
      · exact Or.inl (Or.inr h)
      · subst hc'; exact Or.inl (Or.inl h)
      · exact Or.inr ⟨c', hc', h⟩

theorem mem_intRange (lo hi v : Int) : v ∈ intRange lo hi ↔ lo ≤ v ∧ v ≤ hi := by
  simp only [intRange, List.mem_map, List.bind_eq_flatMap, List.mem_flatMap, List.mem_range,
    List.pure_def, List.mem_singleton]
  constructor
  · rintro ⟨k, ⟨n, hn, rfl⟩, rfl⟩
    omega
  · rintro ⟨h1, h2⟩
    exact ⟨v - lo, ⟨(v - lo).toNat, by omega, by omega⟩, by omega⟩

theorem mem_insertGrid (bcc r1 r2 c1 c2 : Int) (l : List Int) (x : Int) :
    x ∈ insertGrid bcc r1 r2 c1 c2 l ↔
      x ∈ l ∨ ∃ r c, r1 ≤ r ∧ r ≤ r2 ∧ c1 ≤ c ∧ c ≤ c2 ∧ x = blockNumberOf bcc r c := by
  unfold insertGrid
  have key : ∀ (rs : List Int) (acc : List Int),
      x ∈ rs.foldl (fun acc r => (intRange c1 c2).foldl
          (fun acc2 c => setInsert (wrap 32 (r * bcc + c)) acc2) acc) acc ↔
        x ∈ acc ∨ ∃ r ∈ rs, ∃ c ∈ intRange c1 c2, x = wrap 32 (r * bcc + c) := by
    intro rs
    induction rs with
    | nil => intro acc; simp
    | cons r rest ih =>
      intro acc
      simp only [List.foldl_cons, ih, mem_foldl_setInsert, List.mem_cons]
      constructor
      · rintro ((h | ⟨c, hc, h⟩) | ⟨r', hr', c, hc, h⟩)
        · exact Or.inl h
        · exact Or.inr ⟨r, Or.inl rfl, c, hc, h⟩
        · exact Or.inr ⟨r', Or.inr hr', c, hc, h⟩
      · rintro (h | ⟨r', hr' | hr', c, hc, h⟩)
        · exact Or.inl (Or.inl h)
        · subst hr'; exact Or.inl (Or.inr ⟨c, hc, h⟩)
        · exact Or.inr ⟨r', hr', c, hc, h⟩
  rw [key]
  simp only [mem_intRange, blockNumberOf]
  constructor
  · rintro (h | ⟨r, ⟨h1, h2⟩, c, ⟨h3, h4⟩, h⟩)
    · exact Or.inl h
    · exact Or.inr ⟨r, c, h1, h2, h3, h4, h⟩
  · rintro (h | ⟨r, c, h1, h2, h3, h4, h⟩)
    · exact Or.inl h
    · exact Or.inr ⟨r, ⟨h1, h2⟩, c, ⟨h3, h4⟩, h⟩

/-- Two strictly ascending lists with the same members are equal. -/
theorem eq_of_pairwise_of_mem_iff (l₁ l₂ : List Int) (h₁ : l₁.Pairwise (· < ·))
    (h₂ : l₂.Pairwise (· < ·)) (h : ∀ x, x ∈ l₁ ↔ x ∈ l₂) : l₁ = l₂ := by
  have n₁ : l₁.Nodup := h₁.imp (fun hab => ne_of_lt hab)
  have n₂ : l₂.Nodup := h₂.imp (fun hab => ne_of_lt hab)
  exact List.eq_of_perm_of_sorted ((List.perm_ext_iff_of_nodup n₁ n₂).mpr h) h₁ h₂

theorem cdiv_pos (a b : Int) (hb : 0 < b) : cdiv a b = .ok (Int.tdiv a b) := by
  unfold cdiv
  have h1 : ¬ b = 0 := by omega
  have h2 : ¬ (a = -(2 ^ 63) ∧ b = -1) := by intro h; omega
  rw [if_neg h1, if_neg h2]

theorem legacy_ok (ri0 ri1 ri2 ri3 bbc bcc : Int) (intra : Bool) (hbbc : 0 < bbc) :
    getBlockNumbersForRegionFromBinPosition ri0 ri1 ri2 ri3 bbc bcc intra =
      .ok (if intra then
        insertGrid bcc (quotInt ri0 bbc) (quotInt (wrap 64 (ri1 + 1)) bbc)
          (quotInt ri2 bbc) (quotInt (wrap 64 (ri3 + 1)) bbc)
          (insertGrid bcc (quotInt ri2 bbc) (quotInt (wrap 64 (ri3 + 1)) bbc)
            (quotInt ri0 bbc) (quotInt (wrap 64 (ri1 + 1)) bbc) [])
      else insertGrid bcc (quotInt ri2 bbc) (quotInt (wrap 64 (ri3 + 1)) bbc)
        (quotInt ri0 bbc) (quotInt (wrap 64 (ri1 + 1)) bbc) []) := by
  simp only [getBlockNumbersForRegionFromBinPosition, cdiv_pos _ _ hbbc, bind, Except.bind,
    quotInt]
  cases intra <;> rfl

theorem v9_ok (fp : FloatOps) (ri0 ri1 ri2 ri3 bbc bcc : Int) (hbbc : 0 < bbc) :
    getBlockNumbersForRegionFromBinPositionV9Intra fp ri0 ri1 ri2 ri3 bbc bcc =
      .ok (insertGrid bcc
        (if (ri0 > ri3 ∧ ri1 < ri2) ∨ (ri1 > ri2 ∧ ri0 < ri3) then 0
         else min (fp.depth (wrap 64 (ri0 - ri3)).natAbs bbc)
           (fp.depth (wrap 64 (ri1 - ri2)).natAbs bbc))
        (wrap 32 (max (fp.depth (wrap 64 (ri0 - ri3)).natAbs bbc)
          (fp.depth (wrap 64 (ri1 - ri2)).natAbs bbc) + 1))
        (quotInt (Int.tdiv (wrap 64 (ri0 + ri2)) 2) bbc)
        (wrap 32 (Int.tdiv (Int.tdiv (wrap 64 (ri1 + ri3)) 2) bbc + 1)) []) := by
  simp only [getBlockNumbersForRegionFromBinPositionV9Intra, cdiv_pos _ _ hbbc, bind,
    Except.bind, quotInt]
  rfl

/-- For `blockBinCount > 0`, `getBlockNumbersForRegionFromBinPosition`
returns a strictly ascending list whose members are exactly the block numbers
`r * blockColumnCount + c` with `Row1 ≤ r ≤ Row2` and `Col1 ≤ c ≤ Col2`,
together with, exactly when `intra` is true, those with `Col1 ≤ r ≤ Col2` and
`Row1 ≤ c ≤ Row2`. Here `Col1`, `Col2`, `Row1`, `Row2` are the `int`
variables the code sets from `col1 / blockBinCount`,
`(col2 + 1) / blockBinCount`, `row1 / blockBinCount` and
`(row2 + 1) / blockBinCount` (`quotInt`), and the block number is the `int`
the code computes (`blockNumberOf`); these are the plain quotients and the
plain `r * blockColumnCount + c` whenever they fit an `int`. -/
theorem legacy_block_set_int (ri0 ri1 ri2 ri3 bbc bcc : Int) (intra : Bool) (hbbc : 0 < bbc) :
    (∃ bns, getBlockNumbersForRegionFromBinPosition ri0 ri1 ri2 ri3 bbc bcc intra = .ok bns ∧
      bns.Pairwise (· < ·) ∧
      ∀ x, x ∈ bns ↔
        (∃ r c, quotInt ri2 bbc ≤ r ∧ r ≤ quotInt (wrap 64 (ri3 + 1)) bbc ∧
          quotInt ri0 bbc ≤ c ∧ c ≤ quotInt (wrap 64 (ri1 + 1)) bbc ∧
          x = blockNumberOf bcc r c) ∨
        (intra = true ∧
          ∃ r c, quotInt ri0 bbc ≤ r ∧ r ≤ quotInt (wrap 64 (ri1 + 1)) bbc ∧
            quotInt ri2 bbc ≤ c ∧ c ≤ quotInt (wrap 64 (ri3 + 1)) bbc ∧
            x = blockNumberOf bcc r c)) ∧
    (∀ a : Int, 0 ≤ a → a < 2 ^ 31 * bbc → quotInt a bbc = a / bbc) ∧
    (∀ a : Int, -(2 : Int) ^ 63 ≤ a + 1 → a + 1 < 2 ^ 63 → wrap 64 (a + 1) = a + 1) ∧
    (∀ r c : Int, -(2 : Int) ^ 31 ≤ r * bcc + c → r * bcc + c < 2 ^ 31 →
      blockNumberOf bcc r c = r * bcc + c) := by
  refine ⟨?_, ?_, ?_, ?_⟩
  · rw [legacy_ok _ _ _ _ _ _ _ hbbc]
    cases intra
    · refine ⟨_, rfl, insertGrid_pairwise _ _ _ _ _ _ List.Pairwise.nil, ?_⟩
      intro x
      simp [mem_insertGrid]
    · refine ⟨_, rfl, insertGrid_pairwise _ _ _ _ _ _
        (insertGrid_pairwise _ _ _ _ _ _ List.Pairwise.nil), ?_⟩
      intro x
      simp only [if_true, mem_insertGrid, List.not_mem_nil, false_or, true_and]
  · intro a h0 h1
    unfold quotInt
    rw [Int.tdiv_eq_ediv h0 (le_of_lt hbbc)]
    have hq0 : 0 ≤ a / bbc := Int.ediv_nonneg h0 (le_of_lt hbbc)
    have hq1 : a / bbc < 2 ^ 31 := Int.ediv_lt_of_lt_mul hbbc h1
    exact wrap_of_range 32 (by norm_num) _ (by norm_num; omega) (by norm_num; omega)
  · intro a h1 h2
    exact wrap_of_range 64 (by norm_num) _ (by simpa using h1) (by simpa using h2)
  · intro r c h1 h2
    exact wrap_of_range 32 (by norm_num) _ (by simpa using h1) (by simpa using h2)

theorem legacy_block_set_int_sample :
    (∃ bns, getBlockNumbersForRegionFromBinPosition 0 20 0 20 10 2 true = .ok bns ∧
      bns.Pairwise (· < ·) ∧
      ∀ x, x ∈ bns ↔
        (∃ r c, quotInt 0 10 ≤ r ∧ r ≤ quotInt (wrap 64 (20 + 1)) 10 ∧
          quotInt 0 10 ≤ c ∧ c ≤ quotInt (wrap 64 (20 + 1)) 10 ∧
          x = blockNumberOf 2 r c) ∨
        ((true : Bool) = true ∧
          ∃ r c, quotInt 0 10 ≤ r ∧ r ≤ quotInt (wrap 64 (20 + 1)) 10 ∧
            quotInt 0 10 ≤ c ∧ c ≤ quotInt (wrap 64 (20 + 1)) 10 ∧
            x = blockNumberOf 2 r c)) ∧
    quotInt 21 10 = 21 / 10 ∧
    getBlockNumbersForRegionFromBinPosition 0 20 0 20 10 2 true = .ok [0, 1, 2, 3, 4, 5, 6] :=
  ⟨(legacy_block_set_int 0 20 0 20 10 2 true (by decide)).1,
   (legacy_block_set_int 0 20 0 20 10 2 true (by decide)).2.1 21 (by decide) (by decide),
   rfl⟩

theorem quotInt_eq (a bbc : Int) (hbbc : 0 < bbc) (h0 : 0 ≤ a) (h1 : a < 2 ^ 31 * bbc) :
    quotInt a bbc = a / bbc := by
  unfold quotInt
  rw [Int.tdiv_eq_ediv h0 (le_of_lt hbbc)]
  have hq0 : 0 ≤ a / bbc := Int.ediv_nonneg h0 (le_of_lt hbbc)
  have hq1 : a / bbc < 2 ^ 31 := Int.ediv_lt_of_lt_mul hbbc h1
  exact wrap_of_range 32 (by norm_num) _ (by norm_num; omega) (by norm_num; omega)

/-- A block number whose row and column are non-negative and bounded so that
`r * blockColumnCount + c` fits an `int` is that plain value. -/
theorem blockNumberOf_plain (bcc r c mr mc : Int) (hbcc : 0 ≤ bcc) (hr0 : 0 ≤ r) (hr : r ≤ mr)
    (hc0 : 0 ≤ c) (hc : c ≤ mc) (hfit : mr * bcc + mc < 2 ^ 31) :
    blockNumberOf bcc r c = r * bcc + c := by
  have h1 : r * bcc ≤ mr * bcc := mul_le_mul_of_nonneg_right hr hbcc
  have h2 : 0 ≤ r * bcc := mul_nonneg hr0 hbcc
  unfold blockNumberOf
  exact wrap_of_range 32 (by decide) _
    (by have h31 : (0 : Int) ≤ 2 ^ (32 - 1) := by norm_num
        linarith)
    (by have h31 : (2 : Int) ^ (32 - 1) = 2 ^ 31 := by norm_num
        linarith)

/-- The members of a grid of block numbers that fit an `int`, with the plain
`r * blockColumnCount + c`. -/
theorem grid_plain (bcc r1 r2 c1 c2 mr mc : Int) (hbcc : 0 ≤ bcc) (hr0 : 0 ≤ r1) (hr : r2 ≤ mr)
    (hc0 : 0 ≤ c1) (hc : c2 ≤ mc) (hfit : mr * bcc + mc < 2 ^ 31) (x : Int) :
    (∃ r c, r1 ≤ r ∧ r ≤ r2 ∧ c1 ≤ c ∧ c ≤ c2 ∧ x = blockNumberOf bcc r c) ↔
      ∃ r c, r1 ≤ r ∧ r ≤ r2 ∧ c1 ≤ c ∧ c ≤ c2 ∧ x = r * bcc + c := by
  constructor
  · rintro ⟨r, c, h1, h2, h3, h4, hx⟩
    refine ⟨r, c, h1, h2, h3, h4, ?_⟩
    rw [hx]
    exact blockNumberOf_plain bcc r c mr mc hbcc (le_trans hr0 h1) (le_trans h2 hr)
      (le_trans hc0 h3) (le_trans h4 hc) hfit
  · rintro ⟨r, c, h1, h2, h3, h4, hx⟩
    refine ⟨r, c, h1, h2, h3, h4, ?_⟩
    rw [hx]
    exact (blockNumberOf_plain bcc r c mr mc hbcc (le_trans hr0 h1) (le_trans h2 hr)
      (le_trans hc0 h3) (le_trans h4 hc) hfit).symm

/-- C15, the claim as stated fails: with `blockBinCount = 1` and the row
interval `[0, 2147483647]`, `Row2 = (row2 + 1) / blockBinCount` is `2^31`,
which the `int row2` holds as `-2^31`; neither loop over the rows runs and the
set comes back empty, although the set of the claim holds the block number
`0 * blockColumnCount + 0`. -/
theorem C15_counterexample :
    (0 : Int) < 1 ∧
    getBlockNumbersForRegionFromBinPosition 0 0 0 2147483647 1 3 true = .ok [] ∧
    (∃ r c : Int, (0 : Int) / 1 ≤ r ∧ r ≤ (2147483647 + 1) / 1 ∧
      (0 : Int) / 1 ≤ c ∧ c ≤ (0 + 1) / 1 ∧ (0 : Int) = r * 3 + c) ∧
    quotInt (wrap 64 (2147483647 + 1)) 1 = -2147483648 :=
  ⟨by decide, rfl, ⟨0, 0, by decide, by decide, by decide, by decide, by decide⟩, by decide⟩

/-- C15 (as amended): for an `int` `blockBinCount > 0`, `blockColumnCount >= 0`
and an ordered region `0 <= col1 <= col2`, `0 <= row1 <= row2` such that, with
`Col1 = col1 / blockBinCount`, `Col2 = (col2 + 1) / blockBinCount`,
`Row1 = row1 / blockBinCount`, `Row2 = (row2 + 1) / blockBinCount`,
`max(Col2, Row2) * (blockColumnCount + 1) < 2^31 - 1` (every block number
fits an `int` and the loop bounds stay below `INT_MAX`),
`getBlockNumbersForRegionFromBinPosition` returns, as a strictly ascending
list, exactly the set `{ r * blockColumnCount + c : Row1 <= r <= Row2,
Col1 <= c <= Col2 }` united, if and only if `intra` is true, with
`{ r * blockColumnCount + c : Col1 <= r <= Col2, Row1 <= c <= Row2 }`. -/
theorem C15_legacy_block_set (col1 col2 row1 row2 bbc bcc : Int) (intra : Bool)
    (hbbc : 0 < bbc) (hb : bbc < 2 ^ 31) (hbcc : 0 ≤ bcc)
    (hc1 : 0 ≤ col1) (hc : col1 ≤ col2) (hr1 : 0 ≤ row1) (hr : row1 ≤ row2)
    (hfit : max ((col2 + 1) / bbc) ((row2 + 1) / bbc) * (bcc + 1) < 2 ^ 31 - 1) :
    ∃ bns, getBlockNumbersForRegionFromBinPosition col1 col2 row1 row2 bbc bcc intra = .ok bns ∧
      bns.Pairwise (· < ·) ∧
      ∀ x, x ∈ bns ↔
        (∃ r c, row1 / bbc ≤ r ∧ r ≤ (row2 + 1) / bbc ∧
          col1 / bbc ≤ c ∧ c ≤ (col2 + 1) / bbc ∧ x = r * bcc + c) ∨
        (intra = true ∧
          ∃ r c, col1 / bbc ≤ r ∧ r ≤ (col2 + 1) / bbc ∧
            row1 / bbc ≤ c ∧ c ≤ (row2 + 1) / bbc ∧ x = r * bcc + c) := by
  have hC0 : 0 ≤ (col2 + 1) / bbc := Int.ediv_nonneg (by omega) (le_of_lt hbbc)
  have hR0 : 0 ≤ (row2 + 1) / bbc := Int.ediv_nonneg (by omega) (le_of_lt hbbc)
  have hM0 : 0 ≤ max ((col2 + 1) / bbc) ((row2 + 1) / bbc) := le_max_of_le_left hC0
  have hMle : max ((col2 + 1) / bbc) ((row2 + 1) / bbc) ≤
      max ((col2 + 1) / bbc) ((row2 + 1) / bbc) * (bcc + 1) :=
    le_mul_of_one_le_right hM0 (by omega)
  have hCM := le_max_left ((col2 + 1) / bbc) ((row2 + 1) / bbc)
  have hRM := le_max_right ((col2 + 1) / bbc) ((row2 + 1) / bbc)
  have hC2 : (col2 + 1) / bbc < 2 ^ 31 := by omega
  have hR2 : (row2 + 1) / bbc < 2 ^ 31 := by omega
  have hcol2 : col2 + 1 < 2 ^ 31 * bbc := (Int.ediv_lt_iff_lt_mul hbbc).mp hC2
  have hrow2 : row2 + 1 < 2 ^ 31 * bbc := (Int.ediv_lt_iff_lt_mul hbbc).mp hR2
  have hw1 : wrap 64 (col2 + 1) = col2 + 1 :=
    wrap_of_range 64 (by decide) _ (by norm_num; omega) (by norm_num; nlinarith)
  have hw2 : wrap 64 (row2 + 1) = row2 + 1 :=
    wrap_of_range 64 (by decide) _ (by norm_num; omega) (by norm_num; nlinarith)
  have q1 : quotInt col1 bbc = col1 / bbc := quotInt_eq col1 bbc hbbc hc1 (by omega)
  have q2 : quotInt (col2 + 1) bbc = (col2 + 1) / bbc :=
    quotInt_eq (col2 + 1) bbc hbbc (by omega) hcol2
  have q3 : quotInt row1 bbc = row1 / bbc := quotInt_eq row1 bbc hbbc hr1 (by omega)
  have q4 : quotInt (row2 + 1) bbc = (row2 + 1) / bbc :=
    quotInt_eq (row2 + 1) bbc hbbc (by omega) hrow2
  have hfit2 : max ((col2 + 1) / bbc) ((row2 + 1) / bbc) * bcc +
      max ((col2 + 1) / bbc) ((row2 + 1) / bbc) < 2 ^ 31 := by
    have : max ((col2 + 1) / bbc) ((row2 + 1) / bbc) * (bcc + 1) =
        max ((col2 + 1) / bbc) ((row2 + 1) / bbc) * bcc +
          max ((col2 + 1) / bbc) ((row2 + 1) / bbc) := by ring
    omega
  have hc10 : 0 ≤ col1 / bbc := Int.ediv_nonneg hc1 (le_of_lt hbbc)
  have hr10 : 0 ≤ row1 / bbc := Int.ediv_nonneg hr1 (le_of_lt hbbc)
  obtain ⟨bns, hb1, hb2, hb3⟩ := (legacy_block_set_int col1 col2 row1 row2 bbc bcc intra hbbc).1
  refine ⟨bns, hb1, hb2, fun x => ?_⟩
  rw [hb3 x, hw1, hw2, q1, q2, q3, q4,
    grid_plain bcc (row1 / bbc) ((row2 + 1) / bbc) (col1 / bbc) ((col2 + 1) / bbc) _ _ hbcc
      hr10 hRM hc10 hCM hfit2 x,
    grid_plain bcc (col1 / bbc) ((col2 + 1) / bbc) (row1 / bbc) ((row2 + 1) / bbc) _ _ hbcc
      hc10 hCM hr10 hRM hfit2 x]

theorem C15_legacy_block_set_witness :
    ∃ bns, getBlockNumbersForRegionFromBinPosition 0 20 0 20 10 2 true = .ok bns ∧
      bns.Pairwise (· < ·) ∧
      ∀ x, x ∈ bns ↔
        (∃ r c, (0 : Int) / 10 ≤ r ∧ r ≤ (20 + 1) / 10 ∧
          (0 : Int) / 10 ≤ c ∧ c ≤ (20 + 1) / 10 ∧ x = r * 2 + c) ∨
        ((true : Bool) = true ∧
          ∃ r c, (0 : Int) / 10 ≤ r ∧ r ≤ (20 + 1) / 10 ∧
            (0 : Int) / 10 ≤ c ∧ c ≤ (20 + 1) / 10 ∧ x = r * 2 + c) :=
  C15_legacy_block_set 0 20 0 20 10 2 true (by decide) (by decide) (by decide) (by decide)
    (by decide) (by decide) (by decide) (by decide)

/-- For `blockBinCount > 0`,
`getBlockNumbersForRegionFromBinPositionV9Intra` returns a strictly ascending
list whose members are exactly the block numbers `d * blockColumnCount + p`
with `nearerDepth ≤ d ≤ furtherDepth` and `pLo ≤ p ≤ pHi`, where
`pLo = (col1 + row1) / 2 / blockBinCount`,
`pHi = (col2 + row2) / 2 / blockBinCount + 1`, `dNear` and `dFar` are what the
floating-point unit gives for the conversion to `int` of
`log2(1 + |col1 - row2| / sqrt(2) / blockBinCount)` and
`log2(1 + |col2 - row1| / sqrt(2) / blockBinCount)` (`fp.depth`),
`furtherDepth = max(dNear, dFar) + 1`, and `nearerDepth` is 0 when
`(col1 > row2 ∧ col2 < row1) ∨ (col2 > row1 ∧ col1 < row2)` and
`min(dNear, dFar)` otherwise; all of them as the `int` variables of the code,
and the block number as the `int` the code computes. -/
theorem v9_block_set_int (fp : FloatOps) (col1 col2 row1 row2 bbc bcc : Int)
    (hbbc : 0 < bbc) :
    ∃ bns, getBlockNumbersForRegionFromBinPositionV9Intra fp col1 col2 row1 row2 bbc bcc
        = .ok bns ∧
      bns.Pairwise (· < ·) ∧
      ∀ x, x ∈ bns ↔
        ∃ d p,
          (if (col1 > row2 ∧ col2 < row1) ∨ (col2 > row1 ∧ col1 < row2) then 0
           else min (fp.depth (wrap 64 (col1 - row2)).natAbs bbc)
             (fp.depth (wrap 64 (col2 - row1)).natAbs bbc)) ≤ d ∧
          d ≤ wrap 32 (max (fp.depth (wrap 64 (col1 - row2)).natAbs bbc)
            (fp.depth (wrap 64 (col2 - row1)).natAbs bbc) + 1) ∧
          quotInt (Int.tdiv (wrap 64 (col1 + row1)) 2) bbc ≤ p ∧
          p ≤ wrap 32 (Int.tdiv (Int.tdiv (wrap 64 (col2 + row2)) 2) bbc + 1) ∧
          x = blockNumberOf bcc d p := by
  rw [v9_ok fp _ _ _ _ _ _ hbbc]
  refine ⟨_, rfl, insertGrid_pairwise _ _ _ _ _ _ List.Pairwise.nil, ?_⟩
  intro x
  simp only [mem_insertGrid, List.not_mem_nil, false_or]

theorem v9_block_set_int_sample :
    ∃ bns, getBlockNumbersForRegionFromBinPositionV9Intra sampleFp 0 20 0 20 10 4 = .ok bns ∧
      bns.Pairwise (· < ·) ∧
      ∀ x, x ∈ bns ↔
        ∃ d p,
          (if ((0 : Int) > 20 ∧ (20 : Int) < 0) ∨ ((20 : Int) > 0 ∧ (0 : Int) < 20) then 0
           else min (sampleFp.depth (wrap 64 (0 - 20)).natAbs 10)
             (sampleFp.depth (wrap 64 (20 - 0)).natAbs 10)) ≤ d ∧
          d ≤ wrap 32 (max (sampleFp.depth (wrap 64 (0 - 20)).natAbs 10)
            (sampleFp.depth (wrap 64 (20 - 0)).natAbs 10) + 1) ∧
          quotInt (Int.tdiv (wrap 64 (0 + 0)) 2) 10 ≤ p ∧
          p ≤ wrap 32 (Int.tdiv (Int.tdiv (wrap 64 (20 + 20)) 2) 10 + 1) ∧
          x = blockNumberOf 4 d p :=
  v9_block_set_int sampleFp 0 20 0 20 10 4 (by decide)

/-! ## The depth of the v9 intra mapper over the reals -/

/-- C11: evaluation of `straw` at an input on which the claim fails. The
footer of `b.hic` indexes VC vectors only and the query asks for KR.
`readFooter` finds no entry for either chromosome, reports it and returns
true with `c1NormEntry` and `c2NormEntry` as they were, uninitialised;
`straw` goes on to load both vectors from these entries and still emits the
record of the block, with counts divided by whatever it read (with garbage
that is all zero, `20.0 / (0.0 * 0.0)`, positive infinity); with a garbage
entry of negative size the call ends in a failed allocation instead. -/
theorem C11_missing_norm_not_rejected :
    (footerNormEntries 9 (footerStream sampleEnv (sampleOpened sampleV9))).filter
      (fun e => e.isFor 0 (ascii "KR") (ascii "BP") 10 || e.isFor 1 (ascii "KR") (ascii "BP") 10)
      = [] ∧
    (footerFor sampleEnv (ascii "KR") (ascii "BP") 10 (sampleOpened sampleV9)
      sampleLoc1 sampleLoc2).ret = true ∧
    (footerFor sampleEnvNegative (ascii "KR") (ascii "BP") 10 (sampleOpened sampleV9)
      sampleLoc1 sampleLoc2).c1NormEntry.size = -1 ∧
    straw sampleEnv (ascii "KR") (ascii "b.hic") (ascii "1") (ascii "2") (ascii "BP") 10
      = .ok [{ binX := 10, binY := 10, counts := 0x7F800000 }] ∧
    straw sampleEnvNegative (ascii "KR") (ascii "b.hic") (ascii "1") (ascii "2") (ascii "BP") 10
      = .error .badAlloc :=
  ⟨by rfl, rfl, rfl, rfl, rfl⟩

/-- C12 (as amended): for an interchromosomal query whose `chr1loc` names the
chromosome with the larger header index, every record `straw` returns has
`binX` inside the interval requested in `chr2loc` and `binY` inside the
interval requested in `chr1loc`: records come back in the orientation in
which they are stored (`binX` along the chromosome with the lower index), not
in the caller's. -/
theorem C12_stored_orientation (env : Env) (norm fname chr1loc chr2loc unit : Str)
    (binsize : Int) (o : Opened) (l1 l2 : Loc) (out : List contactRecord)
    (ho : openSource env fname = some o)
    (h1 : parseLoc o.hdr.chromosomeMap env.junk chr1loc = some (.ok l1))
    (h2 : parseLoc o.hdr.chromosomeMap env.junk chr2loc = some (.ok l2))
    (hidx : (o.hdr.chromosomeMap.at l1.chr).index > (o.hdr.chromosomeMap.at l2.chr).index)
    (hrun : straw env norm fname chr1loc chr2loc unit binsize = .ok out)
    (r : contactRecord) (hr : r ∈ out) :
    (l2.pos1 ≤ r.binX ∧ r.binX ≤ l2.pos2) ∧ (l1.pos1 ≤ r.binY ∧ r.binY ≤ l1.pos2) := by
  obtain ⟨o', l1', l2', ri, nv, bns, b, recs, rec, fin0, fin1, ho', h1', h2', _, _, _, _, _, _,
    hemit⟩ := straw_mem env norm fname chr1loc chr2loc unit binsize out hrun r hr
  rw [ho] at ho'
  cases ho'
  rw [h1] at h1'
  cases h1'
  rw [h2] at h2'
  cases h2'
  obtain ⟨hacc, hreq⟩ := (emitRecord_eq_some _ _ _ rec r).mp hemit
  subst hreq
  have horig : (queryOf norm binsize o l1 l2 nv).origRegionIndices
      = (l2.pos1, l2.pos2, l1.pos1, l1.pos2) := by
    simp only [queryOf, origRegion, hidx, if_true]
  have hne : (queryOf norm binsize o l1 l2 nv).c1 ≠ (queryOf norm binsize o l1 l2 nv).c2 := by
    simp only [queryOf]
    rw [min_eq_right (le_of_lt hidx), max_eq_left (le_of_lt hidx)]
    exact ne_of_lt hidx
  rcases (accepted_iff _ _ _).mp hacc with h | ⟨hc, _⟩
  · rw [horig] at h
    exact ⟨⟨h.1, h.2.1⟩, ⟨h.2.2.1, h.2.2.2⟩⟩
  · exact absurd hc hne

theorem C12_stored_orientation_witness :
    ((0 : Int) ≤ 100 ∧ (100 : Int) ≤ 200) ∧ ((600 : Int) ≤ 700 ∧ (700 : Int) ≤ 800) :=
  C12_stored_orientation sampleEnv (ascii "NONE") (ascii "f.hic") (ascii "2:600:800")
    (ascii "1:0:200") (ascii "BP") 100 (sampleOpened sampleInterV8)
    { chr := ascii "2", pos1 := 600, pos2 := 800 } { chr := ascii "1", pos1 := 0, pos2 := 200 }
    [{ binX := 100, binY := 700, counts := 0x40000000 }] rfl rfl rfl (by decide) rfl
    { binX := 100, binY := 700, counts := 0x40000000 } (List.mem_singleton_self _)

/-- C12, the claim as stated fails: in `f.hic` chromosome `2` has the larger
header index; for `chr1loc = 2:600:800` and `chr2loc = 1:0:200` the record
returned is `(100, 700)`, whose `binX` is outside the interval of `chr1loc`
and whose `binY` is outside the interval of `chr2loc`. -/
theorem C12_counterexample :
    ((sampleOpened sampleInterV8).hdr.chromosomeMap.at (ascii "2")).index >
      ((sampleOpened sampleInterV8).hdr.chromosomeMap.at (ascii "1")).index ∧
    straw sampleEnv (ascii "NONE") (ascii "f.hic") (ascii "2:600:800") (ascii "1:0:200")
      (ascii "BP") 100 = .ok [{ binX := 100, binY := 700, counts := 0x40000000 }] ∧
    ¬ ((600 : Int) ≤ 100 ∧ (100 : Int) ≤ 800) ∧ ¬ ((0 : Int) ≤ 700 ∧ (700 : Int) ≤ 200) :=
  ⟨by decide, rfl, by decide, by decide⟩

/-! ## Exchanging the two locations -/

/-- For two distinct chromosomes, `origRegionIndices` does not depend on the
order of the locations. -/
theorem origRegion_comm (m : ChromMap) (l1 l2 : Loc)
    (hne : (m.at l1.chr).index ≠ (m.at l2.chr).index) :
    origRegion m l1 l2 = origRegion m l2 l1 := by
  unfold origRegion
  rcases lt_or_gt_of_ne hne with h | h
  · rw [if_neg (not_lt.mpr (le_of_lt h)), if_pos h]
  · rw [if_pos h, if_neg (not_lt.mpr (le_of_lt h))]

theorem footerOf_myFilePos (env : Env) (o : Opened) (c1 c2 : Int) (norm unit : Str)
    (binsize : Int) :
    (footerOf env o c1 c2 norm unit binsize).myFilePos =
      (readFooter (footerStream env o) o.hdr.version c1 c2 norm unit binsize
        env.myFilePos env.c1NormEntry env.c2NormEntry).myFilePos := by
  unfold footerOf footerStream
  cases o.http <;> rfl

/-- A run of `strawRegion` that returns records found the key of the two
indices in index order, read the matrix at the position of the last entry
under that key, and filtered the records of its blocks. -/
theorem strawRegion_found (env : Env) (norm unit : Str) (binsize : Int) (o : Opened)
    (l1 l2 : Loc) (out : List contactRecord)
    (h : strawRegion env norm unit binsize o l1 l2 = .ok out) (hne : out ≠ []) :
    ∃ (pos : Int) (nv : Norms) (bns : List Int) (blocks : List (List contactRecord)),
      ((footerEntries o.hdr.version (footerStream env o)).filter
        (fun e => decide (e.1 = footerKey
          (min (o.hdr.chromosomeMap.at l1.chr).index (o.hdr.chromosomeMap.at l2.chr).index)
          (max (o.hdr.chromosomeMap.at l1.chr).index
            (o.hdr.chromosomeMap.at l2.chr).index)))).getLast? =
        some (footerKey
          (min (o.hdr.chromosomeMap.at l1.chr).index (o.hdr.chromosomeMap.at l2.chr).index)
          (max (o.hdr.chromosomeMap.at l1.chr).index (o.hdr.chromosomeMap.at l2.chr).index),
          pos) ∧
      decodedBlocks env o.hdr.version o.http
        (matrixOf env o.http nv.fin pos unit binsize).blockMap bns
        (matrixOf env o.http nv.fin pos unit binsize).fin = .ok blocks ∧
      out = blocks.flatten.filterMap
        (emitRecord env.fp env.junk (queryOf norm binsize o l1 l2 nv)) := by
  rcases strawRegion_ok env norm unit binsize o l1 l2 out h with
    ⟨_, h0⟩ | ⟨ri, nv, bns, blocks, hret, _, _, _, hdec, hout⟩
  · exact absurd h0 hne
  · obtain ⟨hr, hp⟩ := readFooter_ret (footerStream env o) o.hdr.version
      (min (o.hdr.chromosomeMap.at l1.chr).index (o.hdr.chromosomeMap.at l2.chr).index)
      (max (o.hdr.chromosomeMap.at l1.chr).index (o.hdr.chromosomeMap.at l2.chr).index)
      norm unit binsize env.myFilePos env.c1NormEntry env.c2NormEntry
    rw [footerFor, footerOf_ret, hr] at hret
    obtain ⟨e, he, hk⟩ := List.any_eq_true.mp hret
    have hmem : e ∈ (footerEntries o.hdr.version (footerStream env o)).filter
        (fun e => decide (e.1 = footerKey
          (min (o.hdr.chromosomeMap.at l1.chr).index (o.hdr.chromosomeMap.at l2.chr).index)
          (max (o.hdr.chromosomeMap.at l1.chr).index
            (o.hdr.chromosomeMap.at l2.chr).index))) := List.mem_filter.mpr ⟨he, hk⟩
    cases hl : ((footerEntries o.hdr.version (footerStream env o)).filter
        (fun e => decide (e.1 = footerKey
          (min (o.hdr.chromosomeMap.at l1.chr).index (o.hdr.chromosomeMap.at l2.chr).index)
          (max (o.hdr.chromosomeMap.at l1.chr).index
            (o.hdr.chromosomeMap.at l2.chr).index)))).getLast? with
    | none =>
      rw [List.getLast?_eq_none_iff] at hl
      rw [hl] at hmem
      simp at hmem
    | some x =>
      have hx := List.mem_of_getLast?_eq_some hl
      have hxk : x.1 = footerKey
          (min (o.hdr.chromosomeMap.at l1.chr).index (o.hdr.chromosomeMap.at l2.chr).index)
          (max (o.hdr.chromosomeMap.at l1.chr).index (o.hdr.chromosomeMap.at l2.chr).index) := by
        simpa using (List.mem_filter.mp hx).2
      have hpos : (footerFor env norm unit binsize o l1 l2).myFilePos = x.2 := by
        rw [footerFor, footerOf_myFilePos, hp, hl]
        rfl
      refine ⟨x.2, nv, bns, blocks, ?_, ?_, hout⟩
      · rw [← hxk]
      · simp only [matrixFor, hpos] at hdec
        exact hdec

/-- With both locations parsed, `straw` on a valid unit is `strawRegion`. -/
theorem straw_parsed (env : Env) (norm fname chr1loc chr2loc unit : Str) (binsize : Int)
    (o : Opened) (l1 l2 : Loc)
    (ho : openSource env fname = some o)
    (h1 : parseLoc o.hdr.chromosomeMap env.junk chr1loc = some (.ok l1))
    (h2 : parseLoc o.hdr.chromosomeMap env.junk chr2loc = some (.ok l2)) :
    straw env norm fname chr1loc chr2loc unit binsize =
      if ¬(unit = ascii "BP" ∨ unit = ascii "FRAG") then .ok []
      else strawRegion env norm unit binsize o l1 l2 := by
  unfold straw
  simp only [ho, h1, h2]

/-- C13: on a run of `straw` over two known chromosomes (source opened, both
locations parsed, the four bounds divided by the bin size), let `la` be the
location whose chromosome has the index `c1 = min(index1, index2)` and `lb`
the one whose chromosome has the index `c2 = max(index1, index2)`. When no
master-index entry has the key `"{c1}_{c2}"`, `straw` returns the empty list.
Whenever `straw` returns records, such an entry exists, the matrix is read
at the position of the last one, and the records of its blocks are tested
against `origRegionIndices = (la.pos1, la.pos2, lb.pos1, lb.pos2)` with the
indices `c1`, `c2`. For two distinct chromosomes the key, the four bounds and
the result of `straw` are the same when `chr1loc` and `chr2loc` are
exchanged. -/
theorem C13_lookup_order (env : Env) (norm fname chr1loc chr2loc unit : Str) (binsize : Int)
    (o : Opened) (l1 l2 : Loc) (ri : Int × Int × Int × Int)
    (ho : openSource env fname = some o)
    (h1 : parseLoc o.hdr.chromosomeMap env.junk chr1loc = some (.ok l1))
    (h2 : parseLoc o.hdr.chromosomeMap env.junk chr2loc = some (.ok l2))
    (hri : regionOf (origRegion o.hdr.chromosomeMap l1 l2) binsize = .ok ri) :
    ∃ la lb : Loc, ((la = l1 ∧ lb = l2) ∨ (la = l2 ∧ lb = l1)) ∧
      (o.hdr.chromosomeMap.at la.chr).index =
        min (o.hdr.chromosomeMap.at l1.chr).index (o.hdr.chromosomeMap.at l2.chr).index ∧
      (o.hdr.chromosomeMap.at lb.chr).index =
        max (o.hdr.chromosomeMap.at l1.chr).index (o.hdr.chromosomeMap.at l2.chr).index ∧
      ((∀ e ∈ footerEntries o.hdr.version (footerStream env o),
          e.1 ≠ footerKey (o.hdr.chromosomeMap.at la.chr).index
            (o.hdr.chromosomeMap.at lb.chr).index) →
        straw env norm fname chr1loc chr2loc unit binsize = .ok []) ∧
      (∀ out, straw env norm fname chr1loc chr2loc unit binsize = .ok out → out ≠ [] →
        ∃ (pos : Int) (nv : Norms) (bns : List Int) (blocks : List (List contactRecord)),
          ((footerEntries o.hdr.version (footerStream env o)).filter
            (fun e => decide (e.1 = footerKey (o.hdr.chromosomeMap.at la.chr).index
              (o.hdr.chromosomeMap.at lb.chr).index))).getLast? =
            some (footerKey (o.hdr.chromosomeMap.at la.chr).index
              (o.hdr.chromosomeMap.at lb.chr).index, pos) ∧
          decodedBlocks env o.hdr.version o.http
            (matrixOf env o.http nv.fin pos unit binsize).blockMap bns
            (matrixOf env o.http nv.fin pos unit binsize).fin = .ok blocks ∧
          out = blocks.flatten.filterMap (emitRecord env.fp env.junk
            { norm := norm, binsize := binsize,
              c1 := (o.hdr.chromosomeMap.at la.chr).index,
              c2 := (o.hdr.chromosomeMap.at lb.chr).index,
              origRegionIndices := (la.pos1, la.pos2, lb.pos1, lb.pos2),
              c1Norm := nv.c1Norm, c2Norm := nv.c2Norm })) ∧
      ((o.hdr.chromosomeMap.at l1.chr).index ≠ (o.hdr.chromosomeMap.at l2.chr).index →
        footerKey
            (min (o.hdr.chromosomeMap.at l1.chr).index (o.hdr.chromosomeMap.at l2.chr).index)
            (max (o.hdr.chromosomeMap.at l1.chr).index (o.hdr.chromosomeMap.at l2.chr).index) =
          footerKey
            (min (o.hdr.chromosomeMap.at l2.chr).index (o.hdr.chromosomeMap.at l1.chr).index)
            (max (o.hdr.chromosomeMap.at l2.chr).index (o.hdr.chromosomeMap.at l1.chr).index) ∧
        origRegion o.hdr.chromosomeMap l1 l2 = origRegion o.hdr.chromosomeMap l2 l1 ∧
        straw env norm fname chr1loc chr2loc unit binsize =
          straw env norm fname chr2loc chr1loc unit binsize) := by
  have hstraw := straw_parsed env norm fname chr1loc chr2loc unit binsize o l1 l2 ho h1 h2
  -- the three facts, with the indices written as `min` and `max`
  have habsent : (∀ e ∈ footerEntries o.hdr.version (footerStream env o),
      e.1 ≠ footerKey
        (min (o.hdr.chromosomeMap.at l1.chr).index (o.hdr.chromosomeMap.at l2.chr).index)
        (max (o.hdr.chromosomeMap.at l1.chr).index (o.hdr.chromosomeMap.at l2.chr).index)) →
      straw env norm fname chr1loc chr2loc unit binsize = .ok [] := by
    intro hno
    rw [hstraw]
    split
    · rfl
    · have hret : (footerOf env o
          (min (o.hdr.chromosomeMap.at l1.chr).index (o.hdr.chromosomeMap.at l2.chr).index)
          (max (o.hdr.chromosomeMap.at l1.chr).index (o.hdr.chromosomeMap.at l2.chr).index)
          norm unit binsize).ret = false := by
        rw [footerOf_ret, (readFooter_ret _ _ _ _ _ _ _ _ _ _).1]
        cases hc : (footerEntries o.hdr.version (footerStream env o)).any
            (fun e => decide (e.1 = footerKey
              (min (o.hdr.chromosomeMap.at l1.chr).index (o.hdr.chromosomeMap.at l2.chr).index)
              (max (o.hdr.chromosomeMap.at l1.chr).index
                (o.hdr.chromosomeMap.at l2.chr).index))) with
        | false => rfl
        | true =>
          obtain ⟨e, he, hk⟩ := List.any_eq_true.mp hc
          exact absurd (by simpa using hk) (hno e he)
      unfold strawRegion
      simp only [hri, hret, Bool.not_false, if_true]
  have hfound : ∀ out, straw env norm fname chr1loc chr2loc unit binsize = .ok out → out ≠ [] →
      ∃ (pos : Int) (nv : Norms) (bns : List Int) (blocks : List (List contactRecord)),
        ((footerEntries o.hdr.version (footerStream env o)).filter
          (fun e => decide (e.1 = footerKey
            (min (o.hdr.chromosomeMap.at l1.chr).index (o.hdr.chromosomeMap.at l2.chr).index)
            (max (o.hdr.chromosomeMap.at l1.chr).index
              (o.hdr.chromosomeMap.at l2.chr).index)))).getLast? =
          some (footerKey
            (min (o.hdr.chromosomeMap.at l1.chr).index (o.hdr.chromosomeMap.at l2.chr).index)
            (max (o.hdr.chromosomeMap.at l1.chr).index (o.hdr.chromosomeMap.at l2.chr).index),
            pos) ∧
        decodedBlocks env o.hdr.version o.http
          (matrixOf env o.http nv.fin pos unit binsize).blockMap bns
          (matrixOf env o.http nv.fin pos unit binsize).fin = .ok blocks ∧
        out = blocks.flatten.filterMap
          (emitRecord env.fp env.junk (queryOf norm binsize o l1 l2 nv)) := by
    intro out hout hne
    rw [hstraw] at hout
    split at hout
    · exact absurd (by simpa using hout.symm) hne
    · exact strawRegion_found env norm unit binsize o l1 l2 out hout hne
  have hswap : (o.hdr.chromosomeMap.at l1.chr).index ≠ (o.hdr.chromosomeMap.at l2.chr).index →
      footerKey
          (min (o.hdr.chromosomeMap.at l1.chr).index (o.hdr.chromosomeMap.at l2.chr).index)
          (max (o.hdr.chromosomeMap.at l1.chr).index (o.hdr.chromosomeMap.at l2.chr).index) =
        footerKey
          (min (o.hdr.chromosomeMap.at l2.chr).index (o.hdr.chromosomeMap.at l1.chr).index)
          (max (o.hdr.chromosomeMap.at l2.chr).index (o.hdr.chromosomeMap.at l1.chr).index) ∧
      origRegion o.hdr.chromosomeMap l1 l2 = origRegion o.hdr.chromosomeMap l2 l1 ∧
      straw env norm fname chr1loc chr2loc unit binsize =
        straw env norm fname chr2loc chr1loc unit binsize := by
    intro hne
    have horig := origRegion_comm o.hdr.chromosomeMap l1 l2 hne
    refine ⟨by rw [min_comm, max_comm], horig, ?_⟩
    rw [hstraw, straw_parsed env norm fname chr2loc chr1loc unit binsize o l2 l1 ho h2 h1]
    have hreg : strawRegion env norm unit binsize o l1 l2 =
        strawRegion env norm unit binsize o l2 l1 := by
      unfold strawRegion
      rw [horig, min_comm (o.hdr.chromosomeMap.at l1.chr).index,
        max_comm (o.hdr.chromosomeMap.at l1.chr).index]
    rw [hreg]
  by_cases h : (o.hdr.chromosomeMap.at l1.chr).index > (o.hdr.chromosomeMap.at l2.chr).index
  · have hmin := min_eq_right (le_of_lt h)
    have hmax := max_eq_left (le_of_lt h)
    refine ⟨l2, l1, Or.inr ⟨rfl, rfl⟩, hmin.symm, hmax.symm, ?_, ?_, hswap⟩
    · intro hno
      exact habsent (by rw [hmin, hmax]; exact hno)
    · intro out hout hne
      obtain ⟨pos, nv, bns, blocks, hl, hdec, ho'⟩ := hfound out hout hne
      refine ⟨pos, nv, bns, blocks, by rw [hmin, hmax] at hl; exact hl, hdec, ?_⟩
      rw [ho']
      simp only [queryOf, origRegion, if_pos h, hmin, hmax]
  · have hmin := min_eq_left (not_lt.mp h)
    have hmax := max_eq_right (not_lt.mp h)
    refine ⟨l1, l2, Or.inl ⟨rfl, rfl⟩, hmin.symm, hmax.symm, ?_, ?_, hswap⟩
    · intro hno
      exact habsent (by rw [hmin, hmax]; exact hno)
    · intro out hout hne
      obtain ⟨pos, nv, bns, blocks, hl, hdec, ho'⟩ := hfound out hout hne
      refine ⟨pos, nv, bns, blocks, by rw [hmin, hmax] at hl; exact hl, hdec, ?_⟩
      rw [ho']
      simp only [queryOf, origRegion, if_neg h, hmin, hmax]

theorem C13_lookup_order_witness :
    (∃ la lb : Loc, ((la = sampleLoc2 ∧ lb = sampleLoc1) ∨ (la = sampleLoc1 ∧ lb = sampleLoc2)) ∧
      ∃ pos, ((footerEntries (sampleOpened sampleV9).hdr.version
          (footerStream sampleEnv (sampleOpened sampleV9))).filter
          (fun e => decide (e.1 = footerKey
            ((sampleOpened sampleV9).hdr.chromosomeMap.at la.chr).index
            ((sampleOpened sampleV9).hdr.chromosomeMap.at lb.chr).index))).getLast? =
        some (footerKey ((sampleOpened sampleV9).hdr.chromosomeMap.at la.chr).index
          ((sampleOpened sampleV9).hdr.chromosomeMap.at lb.chr).index, pos)) ∧
    origRegion (sampleOpened sampleV9).hdr.chromosomeMap sampleLoc2 sampleLoc1 =
      origRegion (sampleOpened sampleV9).hdr.chromosomeMap sampleLoc1 sampleLoc2 ∧
    straw sampleEnv (ascii "VC") (ascii "b.hic") (ascii "2") (ascii "1") (ascii "BP") 10 =
      straw sampleEnv (ascii "VC") (ascii "b.hic") (ascii "1") (ascii "2") (ascii "BP") 10 :=
  match C13_lookup_order sampleEnv (ascii "VC") (ascii "b.hic") (ascii "2") (ascii "1")
    (ascii "BP") 10 (sampleOpened sampleV9) sampleLoc2 sampleLoc1 (0, 2, 0, 2)
    rfl rfl rfl rfl with
  | ⟨la, lb, hl, _, _, _, hfound, hswap⟩ =>
    ⟨⟨la, lb, hl,
      match hfound [{ binX := 10, binY := 10, counts := 0x3F800000 }] rfl
        (List.cons_ne_nil _ _) with
      | ⟨pos, _, _, _, hp, _, _⟩ => ⟨pos, hp⟩⟩,
     (hswap (by decide)).2.1, (hswap (by decide)).2.2⟩

/-! ## Intrachromosomal symmetry -/

theorem natAbs_wrap_sub (a b : Int) :
    (wrap 64 (a - b)).natAbs = (wrap 64 (b - a)).natAbs := by
  simp only [wrap]
  norm_num
  omega

theorem cdiv_cases (a b : Int) :
    cdiv a b = .error .divByZero ∨ cdiv a b = .ok (Int.tdiv a b) := by
  unfold cdiv
  split
  · exact Or.inl rfl
  · split
    · exact Or.inl rfl
    · exact Or.inr rfl

/-- Exchanging the two intervals exchanges the two halves of `regionIndices`. -/
theorem regionOf_swap (a b c d binsize : Int) :
    regionOf (c, d, a, b) binsize =
      (regionOf (a, b, c, d) binsize).map (fun r => (r.2.2.1, r.2.2.2, r.1, r.2.1)) := by
  unfold regionOf
  rcases cdiv_cases a binsize with h1 | h1 <;> rcases cdiv_cases b binsize with h2 | h2 <;>
    rcases cdiv_cases c binsize with h3 | h3 <;> rcases cdiv_cases d binsize with h4 | h4 <;>
    simp only [h1, h2, h3, h4, Except.map]

/-- The legacy mapper with `intra = true` selects the same blocks when the
two intervals are exchanged. -/
theorem legacy_intra_swap (ri0 ri1 ri2 ri3 bbc bcc : Int) :
    getBlockNumbersForRegionFromBinPosition ri2 ri3 ri0 ri1 bbc bcc true =
      getBlockNumbersForRegionFromBinPosition ri0 ri1 ri2 ri3 bbc bcc true := by
  unfold getBlockNumbersForRegionFromBinPosition
  rcases cdiv_cases ri0 bbc with h1 | h1 <;>
    rcases cdiv_cases (wrap 64 (ri1 + 1)) bbc with h2 | h2 <;>
    rcases cdiv_cases ri2 bbc with h3 | h3 <;>
    rcases cdiv_cases (wrap 64 (ri3 + 1)) bbc with h4 | h4 <;>
    simp only [h1, h2, h3, h4, bind, Except.bind, if_true, pure, Except.pure]
  congr 1
  apply eq_of_pairwise_of_mem_iff
  · exact insertGrid_pairwise _ _ _ _ _ _ (insertGrid_pairwise _ _ _ _ _ _ List.Pairwise.nil)
  · exact insertGrid_pairwise _ _ _ _ _ _ (insertGrid_pairwise _ _ _ _ _ _ List.Pairwise.nil)
  · intro x
    simp only [mem_insertGrid, List.not_mem_nil, false_or]
    exact or_comm

/-- The v9 intra mapper selects the same blocks when the two intervals are
exchanged. -/
theorem v9_swap (fp : FloatOps) (ri0 ri1 ri2 ri3 bbc bcc : Int) :
    getBlockNumbersForRegionFromBinPositionV9Intra fp ri2 ri3 ri0 ri1 bbc bcc =
      getBlockNumbersForRegionFromBinPositionV9Intra fp ri0 ri1 ri2 ri3 bbc bcc := by
  simp only [getBlockNumbersForRegionFromBinPositionV9Intra]
  rw [add_comm ri2 ri0, add_comm ri3 ri1, natAbs_wrap_sub ri2 ri1, natAbs_wrap_sub ri3 ri0,
    min_comm (fp.depth (wrap 64 (ri1 - ri2)).natAbs bbc),
    max_comm (fp.depth (wrap 64 (ri1 - ri2)).natAbs bbc)]
  have hc : ((ri2 > ri1 ∧ ri3 < ri0) ∨ (ri3 > ri0 ∧ ri2 < ri1)) ↔
      ((ri0 > ri3 ∧ ri1 < ri2) ∨ (ri1 > ri2 ∧ ri0 < ri3)) := by
    constructor <;> rintro (⟨h, h'⟩ | ⟨h, h'⟩)
    · exact Or.inl ⟨h', h⟩
    · exact Or.inr ⟨h', h⟩
    · exact Or.inl ⟨h', h⟩
    · exact Or.inr ⟨h', h⟩
  simp only [hc]

/-- With `c1 = c2` the filter of the record loop is the same for a rectangle
and for the rectangle with its two intervals exchanged. -/
theorem accepted_swap (q : Query) (a b c d x y : Int) (hc : q.c1 = q.c2) :
    accepted { q with origRegionIndices := (c, d, a, b) } x y =
      accepted { q with origRegionIndices := (a, b, c, d) } x y := by
  simp only [accepted, hc, true_and, ge_iff_le]
  rw [decide_eq_decide]
  tauto

theorem blockNumbersOf_swap (fp : FloatOps) (version c ri0 ri1 ri2 ri3 bbc bcc : Int) :
    blockNumbersOf fp version c c ri2 ri3 ri0 ri1 bbc bcc =
      blockNumbersOf fp version c c ri0 ri1 ri2 ri3 bbc bcc := by
  unfold blockNumbersOf
  split
  · exact v9_swap fp ri0 ri1 ri2 ri3 bbc bcc
  · simp only [decide_True]
    exact legacy_intra_swap ri0 ri1 ri2 ri3 bbc bcc

theorem emitRecord_swap (fp : FloatOps) (junk : Nat → Nat) (q : Query) (a b c d : Int)
    (hc : q.c1 = q.c2) :
    emitRecord fp junk { q with origRegionIndices := (c, d, a, b) } =
      emitRecord fp junk { q with origRegionIndices := (a, b, c, d) } := by
  funext rec
  simp only [emitRecord, accepted_swap q a b c d _ _ hc, normalized]

theorem strawBlocks_congr (env : Env) (version : Int) (http : Option (List Nat))
    (blockMap : BlockMap) (q q' : Query)
    (h : emitRecord env.fp env.junk q = emitRecord env.fp env.junk q') (bns : List Int) :
    ∀ (fin : IStream) (records : List contactRecord),
      strawBlocks env version http blockMap q bns fin records =
        strawBlocks env version http blockMap q' bns fin records := by
  induction bns with
  | nil => intro fin records; rfl
  | cons b rest ih =>
    intro fin records
    simp only [strawBlocks, h]
    split
    · rfl
    · exact ih _ _

/-- For two locations on the same chromosome the run after parsing does not
depend on their order. -/
theorem strawRegion_intra_swap (env : Env) (norm unit : Str) (binsize : Int) (o : Opened)
    (l1 l2 : Loc)
    (h : (o.hdr.chromosomeMap.at l1.chr).index = (o.hdr.chromosomeMap.at l2.chr).index) :
    strawRegion env norm unit binsize o l2 l1 = strawRegion env norm unit binsize o l1 l2 := by
  have h12 : origRegion o.hdr.chromosomeMap l1 l2 = (l1.pos1, l1.pos2, l2.pos1, l2.pos2) := by
    unfold origRegion
    rw [if_neg (by rw [h]; exact lt_irrefl _)]
  have h21 : origRegion o.hdr.chromosomeMap l2 l1 = (l2.pos1, l2.pos2, l1.pos1, l1.pos2) := by
    unfold origRegion
    rw [if_neg (by rw [h]; exact lt_irrefl _)]
  simp only [strawRegion, h12, h21, regionOf_swap l1.pos1 l1.pos2 l2.pos1 l2.pos2 binsize, h,
    min_self, max_self]
  cases regionOf (l1.pos1, l1.pos2, l2.pos1, l2.pos2) binsize with
  | error e => rfl
  | ok ri =>
    simp only [Except.map, min_self, max_self]
    split
    · rfl
    · split
      · rfl
      · rename_i nv _
        rw [blockNumbersOf_swap]
        split
        · rfl
        · exact strawBlocks_congr env _ _ _ _ _
            (emitRecord_swap env.fp env.junk
              { norm := norm, binsize := binsize,
                c1 := (o.hdr.chromosomeMap.at l2.chr).index,
                c2 := (o.hdr.chromosomeMap.at l2.chr).index,
                origRegionIndices := (0, 0, 0, 0),
                c1Norm := nv.c1Norm, c2Norm := nv.c2Norm }
              l1.pos1 l1.pos2 l2.pos1 l2.pos2 rfl) _ _ _

theorem parseLoc_chr (m : ChromMap) (junk : Nat → Nat) (loc : Str) (l : Loc)
    (h : parseLoc m junk loc = some (.ok l)) : l.chr = locName loc := by
  unfold parseLoc at h
  simp only [parseLoc_name junk loc] at h
  split at h
  · simp at h
  · split at h
    · split at h
      · simp at h
      · split at h
        · simp at h
        · simp only [Option.some.injEq, Except.ok.injEq] at h
          rw [← h]
    · simp only [Option.some.injEq, Except.ok.injEq] at h
      rw [← h]

theorem parseLoc_eq_none (m : ChromMap) (junk : Nat → Nat) (loc : Str) :
    parseLoc m junk loc = none ↔ m.count (locName loc) = 0 := by
  constructor
  · intro h
    by_contra hc
    unfold parseLoc at h
    simp only [parseLoc_name junk loc, if_neg hc] at h
    split at h
    · split at h
      · simp at h
      · split at h <;> simp at h
    · simp at h
  · exact parseLoc_unknown m junk loc

/-- C14: for two locations that name the same chromosome, `straw` returns a
list for `(chr1loc, chr2loc)` exactly when it returns the same list for
`(chr2loc, chr1loc)`, in every version. On the way: the legacy mapper with
`intra = true` and the v9 intra mapper return the same block numbers when the
two intervals are exchanged, and with `c1 = c2` the filter of the record loop
accepts the same points for both orders of the two intervals. -/
theorem C14_intra_symmetry (env : Env) (norm fname chr1loc chr2loc unit : Str)
    (binsize : Int) (hsame : locName chr1loc = locName chr2loc) :
    (∀ ri0 ri1 ri2 ri3 bbc bcc : Int,
      getBlockNumbersForRegionFromBinPosition ri2 ri3 ri0 ri1 bbc bcc true =
        getBlockNumbersForRegionFromBinPosition ri0 ri1 ri2 ri3 bbc bcc true) ∧
    (∀ ri0 ri1 ri2 ri3 bbc bcc : Int,
      getBlockNumbersForRegionFromBinPositionV9Intra env.fp ri2 ri3 ri0 ri1 bbc bcc =
        getBlockNumbersForRegionFromBinPositionV9Intra env.fp ri0 ri1 ri2 ri3 bbc bcc) ∧
    (∀ (q : Query) (a b c d x y : Int), q.c1 = q.c2 →
      accepted { q with origRegionIndices := (c, d, a, b) } x y =
        accepted { q with origRegionIndices := (a, b, c, d) } x y) ∧
    (∀ out : List contactRecord,
      straw env norm fname chr1loc chr2loc unit binsize = .ok out ↔
        straw env norm fname chr2loc chr1loc unit binsize = .ok out) := by
  refine ⟨legacy_intra_swap, v9_swap env.fp, accepted_swap, ?_⟩
  intro out
  unfold straw
  split
  · rfl
  · cases openSource env fname with
    | none => rfl
    | some o =>
      simp only
      cases h1 : parseLoc o.hdr.chromosomeMap env.junk chr1loc with
      | none =>
        have h2 : parseLoc o.hdr.chromosomeMap env.junk chr2loc = none := by
          rw [parseLoc_eq_none, ← hsame, ← parseLoc_eq_none _ env.junk]
          exact h1
        simp only [h2]
      | some r1 =>
        cases h2 : parseLoc o.hdr.chromosomeMap env.junk chr2loc with
        | none =>
          rw [parseLoc_eq_none, ← hsame, ← parseLoc_eq_none _ env.junk, h1] at h2
          simp at h2
        | some r2 =>
          cases r1 with
          | error e1 =>
            cases r2 with
            | error e2 => simp
            | ok l2 => simp
          | ok l1 =>
            cases r2 with
            | error e2 => simp
            | ok l2 =>
              simp only
              have hchr : l1.chr = l2.chr := by
                rw [parseLoc_chr _ _ _ _ h1, parseLoc_chr _ _ _ _ h2, hsame]
              rw [strawRegion_intra_swap env norm unit binsize o l1 l2 (by rw [hchr])]

theorem C14_intra_symmetry_witness :
    straw sampleEnv (ascii "NONE") (ascii "a.hic") (ascii "X:700:900") (ascii "X:0:500")
      (ascii "BP") 100 = .ok [{ binX := 300, binY := 800, counts := 0x40000000 }] :=
  ((C14_intra_symmetry sampleEnv (ascii "NONE") (ascii "a.hic") (ascii "X:0:500")
    (ascii "X:700:900") (ascii "BP") 100 (by decide)).2.2.2
      [{ binX := 300, binY := 800, counts := 0x40000000 }]).mp rfl

/-! ## The length of a decoded block -/

theorem store_length (st : Decode) (record : contactRecord) (s : IStream) :
    (st.store record s).v.length = st.v.length := by
  simp only [Decode.store, List.length_set]

theorem readRecordsV6_length (n : Nat) :
    ∀ st : Decode, (readRecordsV6 n st).v.length = st.v.length := by
  induction n with
  | zero => intro st; rfl
  | succ n ih => intro st; simp only [readRecordsV6, ih, store_length]

theorem colsShortShort_length (fp : FloatOps) (useShort : Bool) (bx y : Int) (n : Nat) :
    ∀ st : Decode, (colsShortShort fp useShort bx y n st).v.length = st.v.length := by
  induction n with
  | zero => intro st; rfl
  | succ n ih => intro st; simp only [colsShortShort, ih]; split <;> exact store_length _ _ _

theorem colsShortInt_length (fp : FloatOps) (useShort : Bool) (bx y : Int) (n : Nat) :
    ∀ st : Decode, (colsShortInt fp useShort bx y n st).v.length = st.v.length := by
  induction n with
  | zero => intro st; rfl
  | succ n ih => intro st; simp only [colsShortInt, ih]; split <;> exact store_length _ _ _

theorem colsIntShort_length (fp : FloatOps) (useShort : Bool) (bx y : Int) (n : Nat) :
    ∀ st : Decode, (colsIntShort fp useShort bx y n st).v.length = st.v.length := by
  induction n with
  | zero => intro st; rfl
  | succ n ih => intro st; simp only [colsIntShort, ih]; split <;> exact store_length _ _ _

theorem colsIntInt_length (fp : FloatOps) (useShort : Bool) (bx y : Int) (n : Nat) :
    ∀ st : Decode, (colsIntInt fp useShort bx y n st).v.length = st.v.length := by
  induction n with
  | zero => intro st; rfl
  | succ n ih => intro st; simp only [colsIntInt, ih]; split <;> exact store_length _ _ _

theorem rowsShortShort_length (fp : FloatOps) (useShort : Bool) (bx bY : Int) (n : Nat) :
    ∀ st : Decode, (rowsShortShort fp useShort bx bY n st).v.length = st.v.length := by
  induction n with
  | zero => intro st; rfl
  | succ n ih => intro st; simp only [rowsShortShort, ih, colsShortShort_length]

theorem rowsShortInt_length (fp : FloatOps) (useShort : Bool) (bx bY : Int) (n : Nat) :
    ∀ st : Decode, (rowsShortInt fp useShort bx bY n st).v.length = st.v.length := by
  induction n with
  | zero => intro st; rfl
  | succ n ih => intro st; simp only [rowsShortInt, ih, colsShortInt_length]

theorem rowsIntShort_length (fp : FloatOps) (useShort : Bool) (bx bY : Int) (n : Nat) :
    ∀ st : Decode, (rowsIntShort fp useShort bx bY n st).v.length = st.v.length := by
  induction n with
  | zero => intro st; rfl
  | succ n ih => intro st; simp only [rowsIntShort, ih, colsIntShort_length]

theorem rowsIntInt_length (fp : FloatOps) (useShort : Bool) (bx bY : Int) (n : Nat) :
    ∀ st : Decode, (rowsIntInt fp useShort bx bY n st).v.length = st.v.length := by
  induction n with
  | zero => intro st; rfl
  | succ n ih => intro st; simp only [rowsIntInt, ih, colsIntInt_length]

theorem denseLoop_length (fp : FloatOps) (useShort : Bool) (bx bY w : Int) (n : Nat) :
    ∀ (i : Int) (st d : Decode), denseLoop fp useShort bx bY w n i st = .ok d →
      d.v.length = st.v.length := by
  induction n with
  | zero =>
    intro i st d h
    simp only [denseLoop, Except.ok.injEq] at h
    rw [← h]
  | succ n ih =>
    intro i st d h
    simp only [denseLoop] at h
    split at h
    · simp at h
    · rw [ih _ _ _ h]
      split
      · split
        · exact store_length _ _ _
        · rfl
      · split
        · exact store_length _ _ _
        · rfl

theorem except_map_ok {ε α β : Type} (f : α → β) (x : Except ε α) (y : β)
    (h : x.map f = .ok y) : ∃ a, x = .ok a ∧ f a = y := by
  cases x with
  | error e => simp [Except.map] at h
  | ok a => exact ⟨a, rfl, by simpa [Except.map] using h⟩

/-- A decoding loop that returned a vector returned the one it filled. -/
theorem result_ok (st : Decode) (size : Nat) (v : List contactRecord)
    (h : st.result size = .ok v) : v = st.v := by
  unfold Decode.result at h
  split at h
  · simp at h
  · simpa using h.symm

theorem except_bind_ok {α β : Type} (x : Except Fault α) (f : α → Except Fault β) (y : β)
    (h : x.bind f = .ok y) : ∃ a, x = .ok a ∧ f a = .ok y := by
  cases x with
  | error e => simp [Except.bind] at h
  | ok a => exact ⟨a, rfl, by simpa [Except.bind] using h⟩

/-- The vector `readBlock` parses out of a payload has as many elements as
the leading `nRecords` field says. -/
theorem parseBlock_length (fp : FloatOps) (version : Int) (bufferin : IStream)
    (v : List contactRecord) (h : parseBlock fp version bufferin = .ok v) :
    (v.length : Int) = (readIntFromFile bufferin).1 := by
  unfold parseBlock at h
  simp only at h
  by_cases hn : (readIntFromFile bufferin).1 < 0
  · simp [hn] at h
  · have hlen : ((List.replicate (readIntFromFile bufferin).1.toNat zeroRecord).length : Int)
        = (readIntFromFile bufferin).1 := by
      rw [List.length_replicate]
      omega
    rw [if_neg hn] at h
    by_cases h7 : version < 7
    · rw [if_pos h7] at h
      rw [result_ok _ _ _ h, readRecordsV6_length]
      exact hlen
    · rw [if_neg h7] at h
      by_cases hv : version > 8
      · simp only [hv, if_true] at h
        split at h
        · repeat' split at h
          all_goals
            rw [result_ok _ _ _ h]
            simp only [rowsShortShort_length, rowsShortInt_length, rowsIntShort_length,
              rowsIntInt_length]
            exact hlen
        · split at h
          · obtain ⟨d, hd, hdv⟩ := except_bind_ok _ _ _ h
            rw [result_ok _ _ _ hdv, denseLoop_length _ _ _ _ _ _ _ _ _ hd]
            exact hlen
          · simp only [Except.ok.injEq] at h
            rw [← h]
            exact hlen
      · simp only [hv, if_false, Bool.and_self, if_true] at h
        split at h
        · rw [result_ok _ _ _ h, rowsShortShort_length]
          exact hlen
        · split at h
          · obtain ⟨d, hd, hdv⟩ := except_bind_ok _ _ _ h
            rw [result_ok _ _ _ hdv, denseLoop_length _ _ _ _ _ _ _ _ _ hd]
            exact hlen
          · simp only [Except.ok.injEq] at h
            rw [← h]
            exact hlen

/-! ## readSize against readBlock -/

theorem readSize_of_readBlock (fp : FloatOps) (inflate : List Nat → Nat → List Nat)
    (junk : Nat → Nat) (version : Int) (fin : IStream) (http : Option (List Nat))
    (idx : indexEntry) (v : List contactRecord) (f : IStream)
    (h : readBlock fp inflate junk version fin http idx = .ok (v, f)) :
    readSize inflate junk fin http idx = .ok ((v.length : Int), f) := by
  unfold readBlock at h
  unfold readSize
  split
  · rename_i h0
    rw [if_pos h0] at h
    simp only [Except.ok.injEq, Prod.mk.injEq] at h
    rw [← h.1, ← h.2]
    rfl
  · rename_i h0
    rw [if_neg h0] at h
    split
    · rename_i h1
      rw [if_pos h1] at h
      simp at h
    · rename_i h1
      rw [if_neg h1] at h
      obtain ⟨a, ha, hv⟩ := except_map_ok _ _ _ h
      simp only [Prod.mk.injEq] at hv
      rw [← hv.1, ← hv.2, parseBlock_length _ _ _ _ ha]

theorem wrap32_range (x : Int) : -(2 : Int) ^ 31 ≤ wrap 32 x ∧ wrap 32 x < (2 : Int) ^ 31 := by
  simp only [wrap]
  norm_num
  omega

theorem wrap32_add (a b : Int) : wrap 32 (wrap 32 a + b) = wrap 32 (a + b) := by
  simp only [wrap]
  norm_num
  omega

/-- When `readBlock` returns for every selected block, the loop of `getSize`
returns the number of records decoded, added up in `int`. -/
theorem sizeBlocks_of_decoded (env : Env) (version : Int) (http : Option (List Nat))
    (blockMap : BlockMap) (bns : List Int) :
    ∀ (fin : IStream) (blocks : List (List contactRecord)) (count : Int),
      decodedBlocks env version http blockMap bns fin = .ok blocks →
      -(2 : Int) ^ 31 ≤ count → count < (2 : Int) ^ 31 →
      sizeBlocks env http blockMap bns fin count =
        .ok (wrap 32 (count + (blocks.flatten.length : Int))) := by
  induction bns with
  | nil =>
    intro fin blocks count h h1 h2
    simp only [decodedBlocks, Except.ok.injEq] at h
    subst h
    simp only [sizeBlocks, List.flatten_nil, List.length_nil, Nat.cast_zero, add_zero]
    rw [wrap_of_range 32 (by decide) count (by simpa using h1) (by simpa using h2)]
  | cons b rest ih =>
    intro fin blocks count h h1 h2
    simp only [decodedBlocks] at h
    cases hb : readBlock env.fp env.inflate env.junk version fin http (blockMap.at b) with
    | error e => simp [hb] at h
    | ok r =>
      simp only [hb] at h
      cases hd : decodedBlocks env version http blockMap rest r.2 with
      | error e => simp [hd] at h
      | ok bl =>
        simp only [hd, Except.ok.injEq] at h
        subst h
        have hs := readSize_of_readBlock env.fp env.inflate env.junk version fin http
          (blockMap.at b) r.1 r.2 (by rw [hb])
        simp only [sizeBlocks, hs]
        rw [ih r.2 bl _ hd (wrap32_range _).1 (wrap32_range _).2, wrap32_add]
        simp only [List.flatten_cons, List.length_append, Nat.cast_add, add_assoc]

/-- When the part of `straw` after parsing returns, so does that of
`getSize`, with the number of records decoded, added up in `int`. -/
theorem sizeRegion_of_strawRegion (env : Env) (norm unit : Str) (binsize : Int) (o : Opened)
    (l1 l2 : Loc) (out : List contactRecord)
    (h : strawRegion env norm unit binsize o l1 l2 = .ok out) :
    (out = [] ∧ sizeRegion env norm unit binsize o l1 l2 = .ok 0) ∨
    ∃ ri nv bns blocks,
      regionOf (origRegion o.hdr.chromosomeMap l1 l2) binsize = .ok ri ∧
      loadNorms env o.hdr.version o.http norm (footerFor env norm unit binsize o l1 l2)
        = .ok nv ∧
      blockNumbersFor env norm unit binsize o l1 l2 nv ri = .ok bns ∧
      decodedBlocks env o.hdr.version o.http
        (matrixFor env norm unit binsize o l1 l2 nv).blockMap bns
        (matrixFor env norm unit binsize o l1 l2 nv).fin = .ok blocks ∧
      out = blocks.flatten.filterMap
        (emitRecord env.fp env.junk (queryOf norm binsize o l1 l2 nv)) ∧
      sizeRegion env norm unit binsize o l1 l2 = .ok (wrap 32 (blocks.flatten.length : Int)) := by
  unfold strawRegion at h
  unfold sizeRegion
  cases hr : regionOf (origRegion o.hdr.chromosomeMap l1 l2) binsize with
  | error e => simp [hr] at h
  | ok ri =>
    simp only [hr] at h
    simp only
    split at h
    · rename_i hret
      left
      refine ⟨by simpa using h.symm, ?_⟩
      rw [if_pos hret]
    · rename_i hret
      rw [if_neg hret]
      cases hn : loadNorms env o.hdr.version o.http norm
        (footerFor env norm unit binsize o l1 l2) with
      | error e =>
        simp only [footerFor] at hn
        simp [hn] at h
      | ok nv =>
        have hn' := hn
        simp only [footerFor] at hn'
        simp only [hn'] at h
        simp only [hn']
        split at h
        · simp at h
        · rename_i bns hb
          rw [strawBlocks_eq] at h
          cases hd : decodedBlocks env o.hdr.version o.http
            (matrixFor env norm unit binsize o l1 l2 nv).blockMap bns
            (matrixFor env norm unit binsize o l1 l2 nv).fin with
          | error e =>
            simp only [matrixFor, footerFor] at hd
            simp [hd, Except.map] at h
          | ok blocks =>
            have hd' := hd
            simp only [matrixFor, footerFor] at hd'
            simp only [hd', Except.map, List.nil_append, Except.ok.injEq] at h
            right
            refine ⟨ri, nv, bns, blocks, rfl, rfl, hb, (by first | rfl | exact hd), h.symm, ?_⟩
            rw [sizeBlocks_of_decoded env o.hdr.version o.http _ bns _ blocks 0 hd'
              (by norm_num) (by norm_num), zero_add]

/-- When `straw` returns, `getSize` either returns 0 on the same early exit or
reaches its block loop after the same steps. -/
theorem getSize_of_straw (env : Env) (norm fname chr1loc chr2loc unit : Str) (binsize : Int)
    (out : List contactRecord)
    (h : straw env norm fname chr1loc chr2loc unit binsize = .ok out) :
    (out = [] ∧ getSize env norm fname chr1loc chr2loc unit binsize = .ok 0) ∨
    ∃ o l1 l2,
      openSource env fname = some o ∧
      parseLoc o.hdr.chromosomeMap env.junk chr1loc = some (.ok l1) ∧
      parseLoc o.hdr.chromosomeMap env.junk chr2loc = some (.ok l2) ∧
      strawRegion env norm unit binsize o l1 l2 = .ok out ∧
      getSize env norm fname chr1loc chr2loc unit binsize =
        sizeRegion env norm unit binsize o l1 l2 := by
  unfold straw at h
  unfold getSize
  by_cases hu : ¬(unit = ascii "BP" ∨ unit = ascii "FRAG")
  · rw [if_pos hu] at h
    rw [if_pos hu]
    exact Or.inl ⟨by simpa using h.symm, rfl⟩
  · rw [if_neg hu] at h
    rw [if_neg hu]
    cases ho : openSource env fname with
    | none =>
      simp only [ho] at h
      exact Or.inl ⟨by simpa using h.symm, rfl⟩
    | some o =>
      simp only [ho] at h
      simp only
      cases h1 : parseLoc o.hdr.chromosomeMap env.junk chr1loc with
      | none =>
        simp only [h1] at h
        exact Or.inl ⟨by simpa using h.symm, rfl⟩
      | some r1 =>
        cases r1 with
        | error e => simp [h1] at h
        | ok l1 =>
          simp only [h1] at h
          simp only
          cases h2 : parseLoc o.hdr.chromosomeMap env.junk chr2loc with
          | none =>
            simp only [h2] at h
            exact Or.inl ⟨by simpa using h.symm, rfl⟩
          | some r2 =>
            cases r2 with
            | error e => simp [h2] at h
            | ok l2 =>
              simp only [h2] at h
              exact Or.inr ⟨o, l1, l2, rfl, h1, h2, h, rfl⟩

/-- C18 (as amended): whenever `readBlock` returns for an index entry,
`readSize` returns for it the number of elements of the vector `readBlock`
returned (the leading `nRecords` field; both are 0 when `size == 0`). Hence
whenever `straw` returns, `getSize` returns for the same arguments the total
number of records `readBlock` yields over the selected blocks, reduced to an
`int`: it is that total when the total is below 2^31, and then the length of
the result of `straw` is at most the result of `getSize`. -/
theorem C18_size_parity (env : Env) (norm fname chr1loc chr2loc unit : Str) (binsize : Int)
    (out : List contactRecord)
    (hrun : straw env norm fname chr1loc chr2loc unit binsize = .ok out) :
    (∀ (version : Int) (fin : IStream) (http : Option (List Nat)) (idx : indexEntry)
        (v : List contactRecord) (f : IStream),
      readBlock env.fp env.inflate env.junk version fin http idx = .ok (v, f) →
      readSize env.inflate env.junk fin http idx = .ok ((v.length : Int), f) ∧
      (parseBlock env.fp version
          (IStream.open (inflateBlock env.inflate env.junk fin http idx).1 env.junk) = .ok v →
        (v.length : Int) = (readIntFromFile
          (IStream.open (inflateBlock env.inflate env.junk fin http idx).1 env.junk)).1)) ∧
    (∀ (version : Int) (fin : IStream) (http : Option (List Nat)) (idx : indexEntry),
      idx.size = 0 →
      readBlock env.fp env.inflate env.junk version fin http idx = .ok ([], fin) ∧
      readSize env.inflate env.junk fin http idx = .ok (0, fin)) ∧
    ∃ total : Nat,
      ((total = 0 ∧ out = []) ∨
        ∃ o l1 l2 ri nv bns blocks,
          openSource env fname = some o ∧
          parseLoc o.hdr.chromosomeMap env.junk chr1loc = some (.ok l1) ∧
          parseLoc o.hdr.chromosomeMap env.junk chr2loc = some (.ok l2) ∧
          regionOf (origRegion o.hdr.chromosomeMap l1 l2) binsize = .ok ri ∧
          loadNorms env o.hdr.version o.http norm (footerFor env norm unit binsize o l1 l2)
            = .ok nv ∧
          blockNumbersFor env norm unit binsize o l1 l2 nv ri = .ok bns ∧
          decodedBlocks env o.hdr.version o.http
            (matrixFor env norm unit binsize o l1 l2 nv).blockMap bns
            (matrixFor env norm unit binsize o l1 l2 nv).fin = .ok blocks ∧
          total = blocks.flatten.length ∧
          out = blocks.flatten.filterMap
            (emitRecord env.fp env.junk (queryOf norm binsize o l1 l2 nv))) ∧
      getSize env norm fname chr1loc chr2loc unit binsize = .ok (wrap 32 (total : Int)) ∧
      out.length ≤ total ∧
      (total < 2 ^ 31 →
        getSize env norm fname chr1loc chr2loc unit binsize = .ok (total : Int)) := by
  refine ⟨?_, ?_, ?_⟩
  · intro version fin http idx v f hb
    exact ⟨readSize_of_readBlock _ _ _ _ _ _ _ _ _ hb, parseBlock_length _ _ _ _⟩
  · intro version fin http idx h0
    simp only [readBlock, readSize, h0, if_true, and_self]
  · have key : ∃ total : Nat,
        ((total = 0 ∧ out = []) ∨
          ∃ o l1 l2 ri nv bns blocks,
            openSource env fname = some o ∧
            parseLoc o.hdr.chromosomeMap env.junk chr1loc = some (.ok l1) ∧
            parseLoc o.hdr.chromosomeMap env.junk chr2loc = some (.ok l2) ∧
            regionOf (origRegion o.hdr.chromosomeMap l1 l2) binsize = .ok ri ∧
            loadNorms env o.hdr.version o.http norm (footerFor env norm unit binsize o l1 l2)
              = .ok nv ∧
            blockNumbersFor env norm unit binsize o l1 l2 nv ri = .ok bns ∧
            decodedBlocks env o.hdr.version o.http
              (matrixFor env norm unit binsize o l1 l2 nv).blockMap bns
              (matrixFor env norm unit binsize o l1 l2 nv).fin = .ok blocks ∧
            total = blocks.flatten.length ∧
            out = blocks.flatten.filterMap
              (emitRecord env.fp env.junk (queryOf norm binsize o l1 l2 nv))) ∧
        getSize env norm fname chr1loc chr2loc unit binsize = .ok (wrap 32 (total : Int)) ∧
        out.length ≤ total := by
      rcases getSize_of_straw env norm fname chr1loc chr2loc unit binsize out hrun with
        ⟨h0, hg⟩ | ⟨o, l1, l2, ho, h1, h2, hreg, hg⟩
      · exact ⟨0, Or.inl ⟨rfl, h0⟩, by rw [hg]; rfl, by rw [h0]; exact Nat.le_refl _⟩
      · rcases sizeRegion_of_strawRegion env norm unit binsize o l1 l2 out hreg with
          ⟨h0, hs⟩ | ⟨ri, nv, bns, blocks, hri, hnv, hbns, hdec, hout, hs⟩
        · exact ⟨0, Or.inl ⟨rfl, h0⟩, by rw [hg, hs]; rfl, by rw [h0]; exact Nat.le_refl _⟩
        · refine ⟨blocks.flatten.length,
            Or.inr ⟨o, l1, l2, ri, nv, bns, blocks, ho, h1, h2, hri, hnv, hbns, hdec, rfl, hout⟩,
            by rw [hg, hs], ?_⟩
          rw [hout]
          exact List.length_filterMap_le _ _
    obtain ⟨total, hdesc, hg, hle⟩ := key
    refine ⟨total, hdesc, hg, hle, ?_⟩
    intro hlt
    rw [hg, wrap_of_range 32 (by decide) (total : Int) (by norm_num; omega) (by norm_num; omega)]

theorem C18_size_parity_witness :
    ∃ total : Nat,
      getSize sampleEnv (ascii "NONE") (ascii "a.hic") (ascii "X") (ascii "X") (ascii "BP") 100
        = .ok (wrap 32 (total : Int)) ∧
      [({ binX := 300, binY := 800, counts := 0x40000000 } : contactRecord)].length ≤ total := by
  obtain ⟨total, _, hg, hle, _⟩ :=
    (C18_size_parity sampleEnv (ascii "NONE") (ascii "a.hic") (ascii "X") (ascii "X")
      (ascii "BP") 100 [{ binX := 300, binY := 800, counts := 0x40000000 }] rfl).2.2
  exact ⟨total, hg, hle⟩

/-- C18, the claim as stated fails: the two blocks of `g.hic` announce
1073741824 records each, so that for the whole chromosome `readBlock` yields
1073741824 records for block 0 and as many for block 1 (and none for the
other selected blocks, which have no entry); `straw` returns, and `getSize`,
which adds the counts up in an `int`, returns -2147483648: not the total
2147483648, and below the length of the result of `straw`. -/
theorem C18_counterexample :
    getSize sampleEnv (ascii "NONE") (ascii "g.hic") (ascii "X") (ascii "X") (ascii "BP") 100
      = .ok (-2147483648) ∧
    decodedBlocks sampleEnv 8 none
        (matrixFor sampleEnv (ascii "NONE") (ascii "BP") 100 (sampleOpened sampleHuge) sampleLocX
          sampleLocX sampleHugeNorms).blockMap [0, 1, 2, 3, 4, 5, 6]
        (matrixFor sampleEnv (ascii "NONE") (ascii "BP") 100 (sampleOpened sampleHuge) sampleLocX
          sampleLocX sampleHugeNorms).fin =
      .ok [List.replicate 1073741824 zeroRecord, List.replicate 1073741824 zeroRecord,
        [], [], [], [], []] ∧
    (List.replicate 1073741824 zeroRecord).length +
      (List.replicate 1073741824 zeroRecord).length = 2147483648 ∧
    ∃ out, straw sampleEnv (ascii "NONE") (ascii "g.hic") (ascii "X") (ascii "X") (ascii "BP") 100
      = .ok out ∧ ¬ ((out.length : Int) ≤ -2147483648) :=
  ⟨rfl, rfl, by simp only [List.length_replicate], _, rfl, by omega⟩

/-! ## Decoding a block -/

theorem readTemp_remains (s : IStream) (bs t : List Nat) (n : Nat) (hn : bs.length = n)
    (h : s.remains (bs ++ t)) :
    (s.readTemp n).1 = bs ∧ (s.readTemp n).2.remains t := by
  obtain ⟨hg, hr⟩ := h
  subst hn
  have hgood : s.eof = false ∧ s.fail = false := by
    simpa [IStream.good] using hg
  have htake : (List.take bs.length (List.drop s.pos s.data)) = bs := by
    rw [hr, List.take_left]
  refine ⟨?_, ?_, ?_⟩
  · simp only [IStream.readTemp, IStream.read, hg, if_true, htake]
  · simp only [IStream.readTemp, IStream.read, hg, if_true, htake, IStream.good, hgood.1,
      hgood.2]
    rfl
  · simp only [IStream.readTemp, IStream.read, hg, if_true, htake]
    rw [← List.drop_drop, hr, List.drop_left]

theorem bytesOf_length (n : Nat) (x : Int) : (bytesOf n x).length = n := by
  simp [bytesOf]

theorem divmod_mul256 (x m : Int) (hm : 0 < m) :
    x / (256 * m) = x / 256 / m ∧ x % (256 * m) = x % 256 + 256 * (x / 256 % m) := by
  have h1 := Int.emod_add_ediv x 256
  have h2 := Int.emod_add_ediv (x / 256) m
  have hr0 := Int.emod_nonneg x (by norm_num : (256 : Int) ≠ 0)
  have hr1 := Int.emod_lt_of_pos x (by norm_num : (0 : Int) < 256)
  have hq0 := Int.emod_nonneg (x / 256) (ne_of_gt hm)
  have hq1 := Int.emod_lt_of_pos (x / 256) hm
  refine (Int.ediv_emod_unique (by omega : (0 : Int) < 256 * m)).mpr
    (⟨?_, ?_, ?_⟩ : x % 256 + 256 * (x / 256 % m) + 256 * m * (x / 256 / m) = x ∧ _ ∧ _)
  · linear_combination h1 + 256 * h2
  · omega
  · omega

theorem bytesOf_succ (n : Nat) (x : Int) :
    bytesOf (n + 1) x = (x % 256).toNat :: bytesOf n (x / 256) := by
  simp only [bytesOf, List.range_succ_eq_map, List.map_cons, List.map_map, pow_zero,
    Int.ediv_one]
  congr 1
  apply List.map_congr_left
  intro i _
  simp only [Function.comp, pow_succ]
  rw [mul_comm, (divmod_mul256 x (256 ^ i) (by positivity)).1]

/-- The little-endian value of the `n` bytes of `x` is `x` modulo `256^n`. -/
theorem leNat_bytesOf (n : Nat) : ∀ x : Int, (leNat (bytesOf n x) : Int) = x % 256 ^ n := by
  induction n with
  | zero => intro x; simp [bytesOf, leNat, Int.emod_one]
  | succ n ih =>
    intro x
    have h0 := Int.emod_nonneg x (by norm_num : (256 : Int) ≠ 0)
    have h1 := Int.emod_lt_of_pos x (by norm_num : (0 : Int) < 256)
    have hp : (0 : Int) < 256 ^ n := by positivity
    rw [bytesOf_succ, leNat, pow_succ, mul_comm ((256 : Int) ^ n), (divmod_mul256 x _ hp).2]
    push_cast
    rw [ih, Int.toNat_of_nonneg h0, Int.emod_emod_of_dvd _ (dvd_refl _)]

theorem leInt_i16 (w : Int) (h1 : -32768 ≤ w) (h2 : w < 32768) : leInt (i16 w) = w := by
  simp only [i16, leInt, bytesOf_length, leNat_bytesOf, wrap]
  norm_num
  omega

theorem leInt_i64 (w : Int) (h1 : -9223372036854775808 ≤ w) (h2 : w < 9223372036854775808) :
    leInt (i64 w) = w := by
  simp only [i64, leInt, bytesOf_length, leNat_bytesOf, wrap]
  norm_num
  omega

theorem leNat_f32 (x : Nat) (h : x < 4294967296) : leNat (f32 x) = x := by
  have := leNat_bytesOf 4 (x : Int)
  simp only [f32]
  norm_num at this
  omega

theorem readInt_remains (s : IStream) (x : Int) (t : List Nat)
    (h1 : -2147483648 ≤ x) (h2 : x < 2147483648) (h : s.remains (i32 x ++ t)) :
    (readIntFromFile s).1 = x ∧ (readIntFromFile s).2.remains t := by
  obtain ⟨hv, hr⟩ := readTemp_remains s (i32 x) t 4 (bytesOf_length 4 x) h
  exact ⟨by simp only [readIntFromFile, hv, leInt_i32 x h1 h2], hr⟩

theorem readShort_remains (s : IStream) (x : Int) (t : List Nat)
    (h1 : -32768 ≤ x) (h2 : x < 32768) (h : s.remains (i16 x ++ t)) :
    (readShortFromFile s).1 = x ∧ (readShortFromFile s).2.remains t := by
  obtain ⟨hv, hr⟩ := readTemp_remains s (i16 x) t 2 (bytesOf_length 2 x) h
  exact ⟨by simp only [readShortFromFile, hv, leInt_i16 x h1 h2], hr⟩

theorem readLong_remains (s : IStream) (x : Int) (t : List Nat)
    (h1 : -9223372036854775808 ≤ x) (h2 : x < 9223372036854775808)
    (h : s.remains (i64 x ++ t)) :
    (readLongFromFile s).1 = x ∧ (readLongFromFile s).2.remains t := by
  obtain ⟨hv, hr⟩ := readTemp_remains s (i64 x) t 8 (bytesOf_length 8 x) h
  exact ⟨by simp only [readLongFromFile, hv, leInt_i64 x h1 h2], hr⟩

theorem readFloat_remains (s : IStream) (x : Nat) (t : List Nat) (h1 : x < 4294967296)
    (h : s.remains (f32 x ++ t)) :
    (readFloatFromFile s).1 = x ∧ (readFloatFromFile s).2.remains t := by
  obtain ⟨hv, hr⟩ := readTemp_remains s (f32 x) t 4 (bytesOf_length 4 x) h
  exact ⟨by simp only [readFloatFromFile, hv, leNat_f32 x h1], hr⟩

/-- Any four bytes are skipped by a read of an int or of a float. -/
theorem skip4_remains (s : IStream) (bs t : List Nat) (hn : bs.length = 4)
    (h : s.remains (bs ++ t)) :
    (readIntFromFile s).2.remains t ∧ (readFloatFromFile s).2.remains t :=
  ⟨(readTemp_remains s bs t 4 hn h).2, (readTemp_remains s bs t 4 hn h).2⟩

/-- Any eight bytes are skipped by a read of a long or of a double. -/
theorem skip8_remains (s : IStream) (bs t : List Nat) (hn : bs.length = 8)
    (h : s.remains (bs ++ t)) :
    (readLongFromFile s).2.remains t ∧ (readDoubleFromFile s).2.remains t :=
  ⟨(readTemp_remains s bs t 8 hn h).2, (readTemp_remains s bs t 8 hn h).2⟩

theorem getline_remains (s : IStream) (m t old : List Nat) (d : Nat) (hm : ∀ b ∈ m, b ≠ d)
    (h : s.remains (m ++ d :: t)) :
    (getline s old d).1 = m ∧ (getline s old d).2.remains t := by
  obtain ⟨hg, hr⟩ := h
  have hgood : s.eof = false ∧ s.fail = false := by
    simpa [IStream.good] using hg
  have htw : (m ++ d :: t).takeWhile (fun b => b != d) = m := by
    rw [List.takeWhile_append_of_pos (by intro a ha; simpa using hm a ha)]
    simp
  have hlt : m.length < (m ++ d :: t).length := by simp
  refine ⟨?_, ?_, ?_⟩
  · simp only [getline, hg, if_true, hr, htw, hlt]
  · simp only [getline, hg, if_true, hr, htw, hlt, IStream.good, hgood.1, hgood.2]
    rfl
  · simp only [getline, hg, if_true, hr, htw, hlt]
    rw [Nat.add_assoc, ← List.drop_drop, hr]
    simp

theorem open_remains (data : List Nat) (junk : Nat → Nat) :
    (IStream.open data junk).remains data :=
  ⟨rfl, rfl⟩

/-! ## Blocks of version 6 -/

theorem tupleRecords_length (n : Nat) : ∀ s : IStream, (tupleRecords n s).length = n := by
  induction n with
  | zero => intro s; rfl
  | succ n ih => intro s; simp only [tupleRecords, List.length_cons, ih]

/-- C22: evaluation of `readBlock` and `straw` at an input on which the claim
fails. The only block of `h.hic` (version 8) has `nRecords = 2` and the type
byte 3. `readBlock` has no branch for such a type and no error path: it
returns the vector as it was created, two records `(0, 0, 0)`, and `straw`
emits both for a query whose rectangle contains the origin. -/
theorem C22_unknown_type_not_rejected :
    (blockHeader 8 (blockPayload (fun bs _ => bs) (fun _ => 0)
      (IStream.open (i32 2 ++ i32 0 ++ i32 0 ++ [0] ++ [3]) (fun _ => 0)) none
      { size := 14, position := 0 })).type = 3 ∧
    readBlock sampleFp (fun bs _ => bs) (fun _ => 0) 8
        (IStream.open (i32 2 ++ i32 0 ++ i32 0 ++ [0] ++ [3]) (fun _ => 0)) none
        { size := 14, position := 0 } =
      .ok ([zeroRecord, zeroRecord],
        (inflateBlock (fun bs _ => bs) (fun _ => 0)
          (IStream.open (i32 2 ++ i32 0 ++ i32 0 ++ [0] ++ [3]) (fun _ => 0)) none
          { size := 14, position := 0 }).2) ∧
    straw sampleEnv (ascii "NONE") (ascii "h.hic") (ascii "X") (ascii "X") (ascii "BP") 100 =
      .ok [{ binX := 0, binY := 0, counts := 0 }, { binX := 0, binY := 0, counts := 0 }] :=
  ⟨rfl, rfl, rfl⟩

/-- C23: evaluation of the primitive reads and of `readBlock` at inputs on
which the claim fails. A read that crosses the end of the buffer sets
`failbit` on the stream, which nothing tests, and returns the temporary as it
stands: the bytes that were available followed by indeterminate ones (here 0,
255, 7 or 63 as the junk supply says). A block that ends after the
`colCount` of its row is decoded into a record all the same. -/
theorem C23_short_read_yields_value :
    (readIntFromFile (IStream.open [1, 2] (fun _ => 0))).1 = 513 ∧
    (readIntFromFile (IStream.open [1, 2] (fun _ => 255))).1 = -65023 ∧
    (readIntFromFile (IStream.open [1, 2] (fun _ => 0))).2.fail = true ∧
    (readCharFromFile (IStream.open [] (fun _ => 7))).1 = 7 ∧
    (readShortFromFile (IStream.open [1] (fun _ => 7))).1 = 1793 ∧
    (readLongFromFile (IStream.open [1, 0, 0, 0] (fun _ => 0))).1 = 1 ∧
    (readFloatFromFile (IStream.open [0, 0, 128] (fun _ => 63))).1 = 0x3F800000 ∧
    (readDoubleFromFile (IStream.open [] (fun _ => 0))).1 = 0 ∧
    readBlock sampleFp (fun bs _ => bs) (fun _ => 0) 8
        (IStream.open sampleTruncated (fun _ => 0)) none { size := 20, position := 0 } =
      .ok ([{ binX := 0, binY := 8, counts := 0 }],
        (inflateBlock (fun bs _ => bs) (fun _ => 0) (IStream.open sampleTruncated (fun _ => 0))
          none { size := 20, position := 0 }).2) :=
  ⟨by decide, by decide, rfl, by decide, by decide, by decide, by decide, by decide, rfl⟩

/-! ## The header -/

theorem read_remains (s : IStream) (bs t old : List Nat) (n : Nat) (hn : bs.length = n)
    (h : s.remains (bs ++ t)) :
    (s.read n old).1 = bs ∧ (s.read n old).2.remains t := by
  obtain ⟨hg, hr⟩ := h
  subst hn
  have hgood : s.eof = false ∧ s.fail = false := by
    simpa [IStream.good] using hg
  have htake : (List.take bs.length (List.drop s.pos s.data)) = bs := by
    rw [hr, List.take_left]
  refine ⟨?_, ?_, ?_⟩
  · simp only [IStream.read, hg, if_true, htake]
  · simp only [IStream.read, hg, if_true, htake, IStream.good, hgood.1, hgood.2]
    rfl
  · simp only [IStream.read, hg, if_true, htake]
    rw [← List.drop_drop, hr, List.drop_left]

theorem encodeAttrs_cons (p : Str × Str) (ps : List (Str × Str)) (rest : List Nat) :
    encodeAttrs (p :: ps) ++ rest = p.1 ++ 0 :: (p.2 ++ 0 :: (encodeAttrs ps ++ rest)) := by
  simp [encodeAttrs, zstr]

theorem encodeChroms_cons (version : Int) (p : Str × Int) (ps : List (Str × Int))
    (rest : List Nat) :
    encodeChroms version (p :: ps) ++ rest =
      p.1 ++ 0 :: ((if version > 8 then i64 p.2 else i32 p.2) ++
        (encodeChroms version ps ++ rest)) := by
  simp [encodeChroms, zstr]

theorem skipAttributes_encode (attrs : List (Str × Str)) (rest : List Nat) :
    ∀ s : IStream, (∀ p ∈ attrs, noNul p.1 ∧ noNul p.2) →
      s.remains (encodeAttrs attrs ++ rest) →
      (skipAttributes attrs.length s).remains rest := by
  induction attrs with
  | nil => intro s _ h; simpa [encodeAttrs, skipAttributes] using h
  | cons p ps ih =>
    intro s hp h
    obtain ⟨hk, hv⟩ := hp p (List.mem_cons_self _ _)
    rw [encodeAttrs_cons] at h
    obtain ⟨_, s1⟩ := getline_remains s p.1 _ [] 0 hk h
    obtain ⟨_, s2⟩ := getline_remains _ p.2 _ [] 0 hv s1
    simp only [List.length_cons, skipAttributes]
    exact ih _ (fun q hq => hp q (List.mem_cons_of_mem _ hq)) s2

theorem readChromosomes_encode (version : Int) (chrs : List (Str × Int)) (rest : List Nat) :
    ∀ (i : Int) (s : IStream) (m : ChromMap),
      (∀ p ∈ chrs, noNul p.1 ∧ lengthFits version p.2) →
      s.remains (encodeChroms version chrs ++ rest) →
      (readChromosomes version chrs.length i s m).1 = chromMapOf i m chrs ∧
      (readChromosomes version chrs.length i s m).2.remains rest := by
  induction chrs with
  | nil => intro i s m _ h; exact ⟨rfl, by simpa [encodeChroms] using h⟩
  | cons p ps ih =>
    intro i s m hp h
    obtain ⟨hk, hl⟩ := hp p (List.mem_cons_self _ _)
    rw [encodeChroms_cons] at h
    obtain ⟨v1, s1⟩ := getline_remains s p.1 _ [] 0 hk h
    simp only [List.length_cons, readChromosomes, chromMapOf, v1]
    by_cases hv : version > 8
    · simp only [lengthFits, hv, if_true] at hl
      simp only [hv, if_true] at s1 ⊢
      obtain ⟨v2, s2⟩ := readLong_remains _ p.2 _ hl.1 hl.2 s1
      rw [v2]
      exact ih _ _ _ (fun q hq => hp q (List.mem_cons_of_mem _ hq)) s2
    · simp only [lengthFits, hv, if_false] at hl
      simp only [hv, if_false] at s1 ⊢
      obtain ⟨v2, s2⟩ := readInt_remains _ p.2 _ hl.1 hl.2 s1
      rw [v2]
      exact ih _ _ _ (fun q hq => hp q (List.mem_cons_of_mem _ hq)) s2

theorem lookup_set_self (m : ChromMap) (name : Str) (c : chromosome) :
    (m.set name c).lookup name = some c := by
  simp [ChromMap.set, List.lookup]

theorem lookup_set_ne (m : ChromMap) (name key : Str) (c : chromosome) (h : key ≠ name) :
    (m.set name c).lookup key = m.lookup key := by
  have hb : (key == name) = false := by simpa using h
  simp only [ChromMap.set, List.lookup, hb]
  induction m with
  | nil => rfl
  | cons q qs ih =>
    by_cases hq : q.1 = name
    · have hne : (key == q.1) = false := by rw [hq]; exact hb
      rw [List.filter_cons_of_neg (by simpa using hq)]
      obtain ⟨q1, q2⟩ := q
      simp only at hne
      simp only [List.lookup, hne, ih]
    · rw [List.filter_cons_of_pos (by simpa using hq)]
      obtain ⟨q1, q2⟩ := q
      cases hk : key == q1 <;> simp only [List.lookup, hk, ih]

theorem chromMapOf_lookup_other (t : List (Str × Int)) :
    ∀ (i : Int) (m : ChromMap) (key : Str), key ∉ t.map Prod.fst →
      (chromMapOf i m t).lookup key = m.lookup key := by
  induction t with
  | nil => intro i m key _; rfl
  | cons p ps ih =>
    intro i m key hk
    simp only [List.map_cons, List.mem_cons, not_or] at hk
    rw [chromMapOf, ih _ _ _ hk.2, lookup_set_ne _ _ _ _ hk.1]

theorem chromMapOf_lookup (t : List (Str × Int)) :
    ∀ (i : Int) (m : ChromMap), (t.map Prod.fst).Nodup →
      ∀ (k : Nat) (name : Str) (len : Int), t[k]? = some (name, len) →
        (chromMapOf i m t).lookup name = some { name := name, index := i + k, length := len } := by
  induction t with
  | nil => intro i m _ k name len h; simp at h
  | cons p ps ih =>
    intro i m hnd k name len h
    simp only [List.map_cons, List.nodup_cons] at hnd
    cases k with
    | zero =>
      simp only [List.getElem?_cons_zero, Option.some.injEq] at h
      subst h
      rw [chromMapOf, chromMapOf_lookup_other _ _ _ _ hnd.1, lookup_set_self]
      simp
    | succ k =>
      simp only [List.getElem?_cons_succ] at h
      rw [chromMapOf, ih _ _ hnd.2 k name len h]
      congr 2
      push_cast
      ring

theorem chromMapOf_length (t : List (Str × Int)) :
    ∀ (i : Int) (m : ChromMap), (t.map Prod.fst).Nodup →
      (∀ q ∈ m, q.1 ∉ t.map Prod.fst) →
      (chromMapOf i m t).length = m.length + t.length := by
  induction t with
  | nil => intro i m _ _; rfl
  | cons p ps ih =>
    intro i m hnd hm
    simp only [List.map_cons, List.nodup_cons] at hnd
    have hfil : m.filter (fun q => q.1 != p.1) = m := by
      rw [List.filter_eq_self]
      intro q hq
      have := hm q hq
      simp only [List.map_cons, List.mem_cons, not_or] at this
      simpa using this.1
    rw [chromMapOf, ih _ _ hnd.2]
    · simp only [ChromMap.set, hfil, List.length_cons]
      omega
    · intro q hq
      simp only [ChromMap.set, hfil, List.mem_cons] at hq
      rcases hq with rfl | hq
      · exact hnd.1
      · have := hm q hq
        simp only [List.map_cons, List.mem_cons, not_or] at this
        exact this.2

theorem readHeaderBody_encode (version master m0 : Int) (genomeId : Str)
    (nviPosition nviLength : Int) (attrs : List (Str × Str)) (chrs : List (Str × Int))
    (rest : List Nat) (s : IStream)
    (hm : -9223372036854775808 ≤ master ∧ master < 9223372036854775808)
    (hg : noNul genomeId) (ha : ∀ p ∈ attrs, noNul p.1 ∧ noNul p.2)
    (hna : attrs.length < 2147483648)
    (hc : ∀ p ∈ chrs, noNul p.1 ∧ lengthFits version p.2) (hnc : chrs.length < 2147483648)
    (h : s.remains (i64 master ++ (genomeId ++ 0 ::
      ((if version > 8 then i64 nviPosition ++ i64 nviLength else []) ++
        (i32 attrs.length ++ (encodeAttrs attrs ++
          (i32 chrs.length ++ (encodeChroms version chrs ++ rest)))))))) :
    (readHeaderBody version s m0).masterIndexPosition = master ∧
    (readHeaderBody version s m0).version = version ∧
    (readHeaderBody version s m0).chromosomeMap = chromMapOf 0 [] chrs ∧
    (readHeaderBody version s m0).fin.remains rest := by
  obtain ⟨v1, s1⟩ := read_remains s (i64 master) _ (bytesOf 8 m0) 8 (bytesOf_length 8 _) h
  obtain ⟨_, s2⟩ := getline_remains _ genomeId _ [] 0 hg s1
  have s3 : (if version > 8 then
      (readLongFromFile (readLongFromFile (getline (s.read 8 (bytesOf 8 m0)).2 [] 0).2).2).2
      else (getline (s.read 8 (bytesOf 8 m0)).2 [] 0).2).remains
        (i32 attrs.length ++ (encodeAttrs attrs ++
          (i32 chrs.length ++ (encodeChroms version chrs ++ rest)))) := by
    by_cases hv : version > 8
    · simp only [hv, if_true, List.append_assoc] at s2 ⊢
      have a1 := (skip8_remains _ (i64 nviPosition) _ (bytesOf_length 8 _) s2).1
      exact (skip8_remains _ (i64 nviLength) _ (bytesOf_length 8 _) a1).1
    · simp only [hv, if_false, List.nil_append] at s2 ⊢
      exact s2
  obtain ⟨v4, s4⟩ := readInt_remains _ (attrs.length : Int) _ (by omega) (by omega) s3
  have s5 := skipAttributes_encode attrs _ _ ha s4
  obtain ⟨v6, s6⟩ := readInt_remains _ (chrs.length : Int) _ (by omega) (by omega) s5
  obtain ⟨v7, s7⟩ := readChromosomes_encode version chrs rest 0 _ [] hc s6
  simp only [readHeaderBody, v1, v4, v6, Int.toNat_ofNat, v7, leInt_i64 master hm.1 hm.2,
    true_and]
  exact s7

/-- C24: for a well-formed header with magic `HIC` and version `v >= 6` whose
chromosome names are pairwise distinct, `readHeader` returns as
`masterIndexPosition` the i64 that follows the version and a map with exactly
`nChrs` entries in which the `k`-th listed name (from 0) has index `k` and its
listed length, read as an i64 when `v > 8` and as an i32 otherwise; the two
i64 fields that follow the genome id when `v > 8` and the attribute pairs are
skipped: the stream is left right behind the chromosome table. -/
theorem C24_header_decoded (junk : Nat → Nat) (version0 master0 version master : Int)
    (genomeId : Str) (nviPosition nviLength : Int) (attrs : List (Str × Str))
    (chrs : List (Str × Int)) (rest : List Nat)
    (hv : 6 ≤ version) (hv2 : version < 2147483648)
    (hm : -9223372036854775808 ≤ master ∧ master < 9223372036854775808)
    (hg : noNul genomeId) (ha : ∀ p ∈ attrs, noNul p.1 ∧ noNul p.2)
    (hna : attrs.length < 2147483648)
    (hc : ∀ p ∈ chrs, noNul p.1 ∧ lengthFits version p.2) (hnc : chrs.length < 2147483648)
    (hdist : (chrs.map Prod.fst).Nodup) :
    (readHeader (IStream.open
      (encodeHeader version master genomeId nviPosition nviLength attrs chrs ++ rest) junk)
      version0 master0).masterIndexPosition = master ∧
    (readHeader (IStream.open
      (encodeHeader version master genomeId nviPosition nviLength attrs chrs ++ rest) junk)
      version0 master0).version = version ∧
    (readHeader (IStream.open
      (encodeHeader version master genomeId nviPosition nviLength attrs chrs ++ rest) junk)
      version0 master0).chromosomeMap.length = chrs.length ∧
    (∀ (k : Nat) (name : Str) (len : Int), chrs[k]? = some (name, len) →
      (readHeader (IStream.open
        (encodeHeader version master genomeId nviPosition nviLength attrs chrs ++ rest) junk)
        version0 master0).chromosomeMap.lookup name =
          some { name := name, index := k, length := len }) ∧
    (readHeader (IStream.open
      (encodeHeader version master genomeId nviPosition nviLength attrs chrs ++ rest) junk)
      version0 master0).fin.remains rest := by
  have h0 : (IStream.open
      (encodeHeader version master genomeId nviPosition nviLength attrs chrs ++ rest)
      junk).remains ([72, 73, 67] ++ 0 :: (i32 version ++ (i64 master ++ (genomeId ++ 0 ::
        ((if version > 8 then i64 nviPosition ++ i64 nviLength else []) ++
          (i32 attrs.length ++ (encodeAttrs attrs ++
            (i32 chrs.length ++ (encodeChroms version chrs ++ rest))))))))) := by
    have e : encodeHeader version master genomeId nviPosition nviLength attrs chrs ++ rest =
        [72, 73, 67] ++ 0 :: (i32 version ++ (i64 master ++ (genomeId ++ 0 ::
          ((if version > 8 then i64 nviPosition ++ i64 nviLength else []) ++
            (i32 attrs.length ++ (encodeAttrs attrs ++
              (i32 chrs.length ++ (encodeChroms version chrs ++ rest)))))))) := by
      simp only [encodeHeader, zstr, List.append_assoc, List.singleton_append,
        List.cons_append, List.nil_append]
    rw [e]
    exact open_remains _ _
  obtain ⟨v1, s1⟩ := getline_remains _ [72, 73, 67] _ [] 0 (by decide) h0
  obtain ⟨v2, s2⟩ := read_remains _ (i32 version) _ (bytesOf 4 version0) 4
    (bytesOf_length 4 _) s1
  obtain ⟨b1, b2, b3, b4⟩ := readHeaderBody_encode version master master0 genomeId nviPosition
    nviLength attrs chrs rest _ hm hg ha hna hc hnc s2
  have hver : leInt (i32 version) = version := leInt_i32 version (by omega) hv2
  have hrd : readHeader (IStream.open
      (encodeHeader version master genomeId nviPosition nviLength attrs chrs ++ rest) junk)
      version0 master0 =
      readHeaderBody version ((getline (IStream.open
        (encodeHeader version master genomeId nviPosition nviLength attrs chrs ++ rest)
        junk) [] 0).2.read 4 (bytesOf 4 version0)).2 master0 := by
    simp only [readHeader, readMagicString, v1, v2, hver, List.getD_cons_zero,
      List.getD_cons_succ, beq_self_eq_true, Bool.and_self, Bool.not_true,
      Bool.false_eq_true, if_false, if_neg (not_lt.mpr hv)]
  rw [hrd]
  refine ⟨b1, b2, ?_, ?_, b4⟩
  · rw [b3, chromMapOf_length chrs 0 [] hdist (by intro q hq; simp at hq)]
    simp
  · intro k name len hk
    rw [b3, chromMapOf_lookup chrs 0 [] hdist k name len hk]
    simp

theorem C24_header_decoded_witness :
    (readHeader (IStream.open
      (encodeHeader 9 210 (ascii "g") 0 0 [(ascii "software", ascii "x")]
        [(ascii "1", 20), (ascii "2", 6000000000)] ++ [1, 2, 3]) (fun _ => 0))
      0 0).chromosomeMap.lookup (ascii "2") =
        some { name := ascii "2", index := (1 : Nat), length := 6000000000 } :=
  (C24_header_decoded (fun _ => 0) 0 0 9 210 (ascii "g") 0 0 [(ascii "software", ascii "x")]
    [(ascii "1", 20), (ascii "2", 6000000000)] [1, 2, 3] (by decide) (by decide) (by decide)
    (by decide) (by decide) (by decide)
    (by intro p hp
        simp only [List.mem_cons, List.mem_singleton, List.not_mem_nil, or_false] at hp
        rcases hp with rfl | rfl <;> exact ⟨by decide, by decide⟩)
    (by decide) (by decide)).2.2.2.1 1 (ascii "2") 6000000000 rfl

/-! ## Location strings -/

theorem getline_end (s : IStream) (m old : List Nat) (d : Nat) (hm : ∀ b ∈ m, b ≠ d)
    (h : s.remains m) :
    (getline s old d).1 = m ∧ (getline s old d).2.eof = true ∧
      (getline s old d).2.fail = m.isEmpty := by
  obtain ⟨hg, hr⟩ := h
  have htw : m.takeWhile (fun b => b != d) = m := by
    rw [List.takeWhile_eq_self_iff]
    intro a ha
    simpa using hm a ha
  simp only [getline, hg, if_true, hr, htw, lt_irrefl, if_false, and_self]

theorem getline_not_good (s : IStream) (old : List Nat) (d : Nat) (h : s.good = false) :
    (getline s old d).2.fail = true := by
  simp only [getline, h, Bool.false_eq_true, if_false]

theorem good_of_eof (s : IStream) (h : s.eof = true) : s.good = false := by
  simp [IStream.good, h]

theorem stol_digits (ds : List Nat) (hne : ds ≠ []) (hd : ∀ c ∈ ds, isDigit c = true)
    (hv : (digitsValue ds : Int) ≤ 9223372036854775807) :
    stol ds = .ok (digitsValue ds : Int) := by
  obtain ⟨c, cs, rfl⟩ := List.exists_cons_of_ne_nil hne
  have hc := hd c (List.mem_cons_self _ _)
  simp only [isDigit, Bool.and_eq_true, decide_eq_true_eq] at hc
  have hsp : isSpace c = false := by
    simp only [isSpace, Bool.or_eq_false_iff, beq_eq_false_iff_ne, Bool.and_eq_false_iff,
      decide_eq_false_iff_not]
    omega
  have hdw : (c :: cs).dropWhile isSpace = c :: cs := by
    simp only [List.dropWhile, hsp]
  have h45 : (some c == some 45) = false := by
    simp only [beq_eq_false_iff_ne, ne_eq, Option.some.injEq]
    omega
  have h43 : (some c == some 43) = false := by
    simp only [beq_eq_false_iff_ne, ne_eq, Option.some.injEq]
    omega
  have htw : (c :: cs).takeWhile isDigit = c :: cs := by
    rw [List.takeWhile_eq_self_iff]
    exact hd
  have hnn : (0 : Int) ≤ (digitsValue (c :: cs) : Int) := Int.natCast_nonneg _
  simp only [stol, hdw, List.head?_cons, h45, h43, Bool.or_self, Bool.false_eq_true, if_false,
    htw, List.isEmpty_cons]
  rw [if_neg]
  norm_num
  omega

theorem digit_ne_colon (ds : List Nat) (hd : ∀ c ∈ ds, isDigit c = true) : ∀ b ∈ ds, b ≠ 58 := by
  intro b hb
  have := hd b hb
  simp only [isDigit, Bool.and_eq_true, decide_eq_true_eq] at this
  omega

theorem remains_fail (s : IStream) (r : List Nat) (h : s.remains r) : s.fail = false := by
  have := h.1
  simp only [IStream.good, Bool.and_eq_true, Bool.not_eq_true'] at this
  exact this.2

/-- A location `NAME:start:end` of a known chromosome gives `[start, end]`. -/
theorem parseLoc_range (m : ChromMap) (junk : Nat → Nat) (name ds1 ds2 : Str)
    (hname : ∀ b ∈ name, b ≠ 58) (hknown : m.count name ≠ 0)
    (h1 : ds1 ≠ []) (hd1 : ∀ c ∈ ds1, isDigit c = true)
    (hv1 : (digitsValue ds1 : Int) ≤ 9223372036854775807)
    (h2 : ds2 ≠ []) (hd2 : ∀ c ∈ ds2, isDigit c = true)
    (hv2 : (digitsValue ds2 : Int) ≤ 9223372036854775807) :
    parseLoc m junk (name ++ 58 :: (ds1 ++ 58 :: ds2)) =
      some (.ok { chr := name, pos1 := digitsValue ds1, pos2 := digitsValue ds2 }) := by
  obtain ⟨v1, s1⟩ := getline_remains _ name _ [] 58 hname
    (open_remains (name ++ 58 :: (ds1 ++ 58 :: ds2)) junk)
  obtain ⟨v2, s2⟩ := getline_remains _ ds1 _ [] 58 (digit_ne_colon ds1 hd1) s1
  obtain ⟨v3, _, f3⟩ := getline_end _ ds2 [] 58 (digit_ne_colon ds2 hd2) s2
  have f2 := remains_fail _ _ s2
  have e3 : ds2.isEmpty = false := by
    cases ds2 with
    | nil => exact absurd rfl h2
    | cons _ _ => rfl
  simp only [parseLoc, v1, if_neg hknown, v2, v3, f2, f3, e3, Bool.not_false, Bool.and_self,
    if_true, stol_digits ds1 h1 hd1 hv1, stol_digits ds2 h2 hd2 hv2]

/-- A location `NAME` of a known chromosome gives `[0, length]`. -/
theorem parseLoc_whole (m : ChromMap) (junk : Nat → Nat) (name : Str)
    (hname : ∀ b ∈ name, b ≠ 58) (hknown : m.count name ≠ 0) :
    parseLoc m junk name =
      some (.ok { chr := name, pos1 := 0, pos2 := (m.at name).length }) := by
  obtain ⟨v1, e1, _⟩ := getline_end _ name [] 58 hname (open_remains name junk)
  have f2 := getline_not_good _ [] 58 (good_of_eof _ e1)
  simp only [parseLoc, v1, if_neg hknown, f2, Bool.not_true, Bool.false_and,
    Bool.false_eq_true, if_false]

/-- A location `NAME:x` of a known chromosome, with a single field after the
name, gives `[0, length]`. -/
theorem parseLoc_one_bound (m : ChromMap) (junk : Nat → Nat) (name x : Str)
    (hname : ∀ b ∈ name, b ≠ 58) (hknown : m.count name ≠ 0) (hx : ∀ b ∈ x, b ≠ 58) :
    parseLoc m junk (name ++ 58 :: x) =
      some (.ok { chr := name, pos1 := 0, pos2 := (m.at name).length }) := by
  obtain ⟨v1, s1⟩ := getline_remains _ name _ [] 58 hname (open_remains (name ++ 58 :: x) junk)
  obtain ⟨_, e2, _⟩ := getline_end _ x [] 58 hx s1
  have f3 := getline_not_good _ [] 58 (good_of_eof _ e2)
  simp only [parseLoc, v1, if_neg hknown, f3, Bool.not_true, Bool.and_false,
    Bool.false_eq_true, if_false]

theorem cdiv_ok (a b : Int) (h0 : b ≠ 0) (h1 : b ≠ -1) : cdiv a b = .ok (Int.tdiv a b) := by
  unfold cdiv
  rw [if_neg h0, if_neg (fun h => h1 h.2)]

/-- C25: for a location string of a known chromosome `NAME`, the form
`NAME:start:end` gives the interval `[start, end]`, and a string with no range
or with a single field after the name gives `[0, length of NAME]` with the
length of the header. Whenever the run after parsing returns past the footer,
the blocks were selected for the region whose four bounds are the bounds of
`origRegionIndices` divided by `binsize` (C++ division, `binsize` not 0 or -1)
and the records were filtered with `origRegionIndices` itself. -/
theorem C25_location_intervals (env : Env) (norm unit : Str) (binsize : Int) (o : Opened)
    (name : Str) (hname : ∀ b ∈ name, b ≠ 58) (hknown : o.hdr.chromosomeMap.count name ≠ 0) :
    (∀ ds1 ds2 : Str,
      ds1 ≠ [] → (∀ c ∈ ds1, isDigit c = true) →
      (digitsValue ds1 : Int) ≤ 9223372036854775807 →
      ds2 ≠ [] → (∀ c ∈ ds2, isDigit c = true) →
      (digitsValue ds2 : Int) ≤ 9223372036854775807 →
      parseLoc o.hdr.chromosomeMap env.junk (name ++ 58 :: (ds1 ++ 58 :: ds2)) =
        some (.ok { chr := name, pos1 := digitsValue ds1, pos2 := digitsValue ds2 })) ∧
    parseLoc o.hdr.chromosomeMap env.junk name =
      some (.ok { chr := name, pos1 := 0, pos2 := (o.hdr.chromosomeMap.at name).length }) ∧
    (∀ x : Str, (∀ b ∈ x, b ≠ 58) →
      parseLoc o.hdr.chromosomeMap env.junk (name ++ 58 :: x) =
        some (.ok { chr := name, pos1 := 0, pos2 := (o.hdr.chromosomeMap.at name).length })) ∧
    (∀ (l1 l2 : Loc) (out : List contactRecord),
      binsize ≠ 0 → binsize ≠ -1 →
      strawRegion env norm unit binsize o l1 l2 = .ok out →
      ((footerFor env norm unit binsize o l1 l2).ret = false ∧ out = []) ∨
      ∃ nv bns blocks,
        blockNumbersFor env norm unit binsize o l1 l2 nv
          (Int.tdiv (origRegion o.hdr.chromosomeMap l1 l2).1 binsize,
           Int.tdiv (origRegion o.hdr.chromosomeMap l1 l2).2.1 binsize,
           Int.tdiv (origRegion o.hdr.chromosomeMap l1 l2).2.2.1 binsize,
           Int.tdiv (origRegion o.hdr.chromosomeMap l1 l2).2.2.2 binsize) = .ok bns ∧
        decodedBlocks env o.hdr.version o.http
          (matrixFor env norm unit binsize o l1 l2 nv).blockMap bns
          (matrixFor env norm unit binsize o l1 l2 nv).fin = .ok blocks ∧
        out = blocks.flatten.filterMap
          (emitRecord env.fp env.junk (queryOf norm binsize o l1 l2 nv)) ∧
        (queryOf norm binsize o l1 l2 nv).origRegionIndices =
          origRegion o.hdr.chromosomeMap l1 l2 ∧
        ∀ r ∈ out,
          inRect (origRegion o.hdr.chromosomeMap l1 l2) r.binX r.binY ∨
          inRect (origRegion o.hdr.chromosomeMap l1 l2) r.binY r.binX) := by
  refine ⟨?_, parseLoc_whole _ _ _ hname hknown, ?_, ?_⟩
  · intro ds1 ds2 h1 hd1 hv1 h2 hd2 hv2
    exact parseLoc_range _ _ _ _ _ hname hknown h1 hd1 hv1 h2 hd2 hv2
  · intro x hx
    exact parseLoc_one_bound _ _ _ _ hname hknown hx
  · intro l1 l2 out hb0 hb1 hrun
    rcases strawRegion_ok env norm unit binsize o l1 l2 out hrun with h | ⟨ri, nv, bns, blocks, _, hri, _, hbns, hdec, hout⟩
    · exact Or.inl h
    · right
      have hreg : regionOf (origRegion o.hdr.chromosomeMap l1 l2) binsize =
          .ok (Int.tdiv (origRegion o.hdr.chromosomeMap l1 l2).1 binsize,
           Int.tdiv (origRegion o.hdr.chromosomeMap l1 l2).2.1 binsize,
           Int.tdiv (origRegion o.hdr.chromosomeMap l1 l2).2.2.1 binsize,
           Int.tdiv (origRegion o.hdr.chromosomeMap l1 l2).2.2.2 binsize) := by
        simp only [regionOf, cdiv_ok _ _ hb0 hb1]
      rw [hreg] at hri
      cases hri
      refine ⟨nv, bns, blocks, hbns, hdec, hout, rfl, ?_⟩
      intro r hr
      rw [hout] at hr
      obtain ⟨rec, _, hemit⟩ := List.mem_filterMap.mp hr
      obtain ⟨hacc, hreq⟩ := (emitRecord_eq_some _ _ _ rec r).mp hemit
      subst hreq
      rcases (accepted_iff _ _ _).mp hacc with h | ⟨_, h⟩
      · exact Or.inl h
      · exact Or.inr h

theorem C25_location_intervals_witness :
    parseLoc (sampleOpened sampleV8).hdr.chromosomeMap sampleEnv.junk (ascii "X:0:500") =
      some (.ok { chr := ascii "X", pos1 := (0 : Nat), pos2 := (500 : Nat) }) :=
  (C25_location_intervals sampleEnv (ascii "NONE") (ascii "BP") 100 (sampleOpened sampleV8)
    (ascii "X") (by decide) (by decide)).1 (ascii "0") (ascii "500")
    (by decide) (by decide) (by decide) (by decide) (by decide) (by decide)

/-! ## The matrix record -/

theorem encodeBlockTable_cons (b : Int × indexEntry) (bs : List (Int × indexEntry))
    (rest : List Nat) :
    encodeBlockTable (b :: bs) ++ rest =
      i32 b.1 ++ (i64 b.2.position ++ (i32 b.2.size ++ (encodeBlockTable bs ++ rest))) := by
  simp [encodeBlockTable, encodeBlockEntry]

theorem readBlockTable_encode (found : Bool) (blocks : List (Int × indexEntry))
    (rest : List Nat) :
    ∀ (s : IStream) (m : BlockMap), (∀ b ∈ blocks, blockEntryFits b) →
      s.remains (encodeBlockTable blocks ++ rest) →
      (readBlockTable found blocks.length s m).1 = (if found then blockMapOf m blocks else m) ∧
      (readBlockTable found blocks.length s m).2.remains rest := by
  induction blocks with
  | nil =>
    intro s m _ h
    refine ⟨by simp [readBlockTable, blockMapOf], ?_⟩
    simpa [encodeBlockTable, readBlockTable] using h
  | cons b bs ih =>
    intro s m hfit h
    obtain ⟨h1, h2, h3⟩ := hfit b (List.mem_cons_self _ _)
    rw [encodeBlockTable_cons] at h
    obtain ⟨v1, s1⟩ := readInt_remains s b.1 _ h1.1 h1.2 h
    obtain ⟨v2, s2⟩ := readLong_remains _ b.2.position _ h2.1 h2.2 s1
    obtain ⟨v3, s3⟩ := readInt_remains _ b.2.size _ h3.1 h3.2 s2
    obtain ⟨r1, r2⟩ := ih _ (if found then m.set b.1 b.2 else m)
      (fun q hq => hfit q (List.mem_cons_of_mem _ hq)) s3
    simp only [List.length_cons, readBlockTable, v1, v2, v3]
    refine ⟨?_, r2⟩
    rw [r1]
    cases found <;> simp [blockMapOf]

theorem encodeZoom_append (e : ZoomEntry) (rest : List Nat) :
    encodeZoom e ++ rest =
      e.unit ++ 0 :: (e.skipped ++ (i32 e.binSize ++ (i32 e.blockBinCount ++
        (i32 e.blockColumnCount ++ (i32 e.blocks.length ++
          (encodeBlockTable e.blocks ++ rest)))))) := by
  simp [encodeZoom, encodeZoomHeader, zstr]

/-- Any twenty bytes are skipped by the reads of the old zoom index and of
the four statistics. -/
theorem skip20_remains (s : IStream) (bs t : List Nat) (hn : bs.length = 20)
    (h : s.remains (bs ++ t)) :
    (readFloatFromFile (readFloatFromFile (readFloatFromFile (readFloatFromFile
      (readIntFromFile s).2).2).2).2).2.remains t := by
  have e : bs = bs.take 4 ++ ((bs.drop 4).take 4 ++ (((bs.drop 4).drop 4).take 4 ++
      ((((bs.drop 4).drop 4).drop 4).take 4 ++ (((bs.drop 4).drop 4).drop 4).drop 4))) := by
    simp only [List.take_append_drop]
  rw [e] at h
  simp only [List.append_assoc] at h
  have a1 := (skip4_remains s _ _ (by simp [hn]) h).1
  have a2 := (skip4_remains _ _ _ (by simp [hn]) a1).2
  have a3 := (skip4_remains _ _ _ (by simp [hn]) a2).2
  have a4 := (skip4_remains _ _ _ (by simp [hn]) a3).2
  exact (skip4_remains _ _ _ (by simp [hn]) a4).2

/-- Reading one resolution entry of a well-formed matrix record. -/
theorem readMatrixZoomData_encode (s : IStream) (e : ZoomEntry) (rest : List Nat)
    (myunit : Str) (mybinsize bbc0 bcc0 : Int) (hfit : e.fits)
    (h : s.remains (encodeZoom e ++ rest)) :
    (readMatrixZoomData s myunit mybinsize bbc0 bcc0).blockMap =
      (if e.isFor myunit mybinsize then blockMapOf [] e.blocks else []) ∧
    (readMatrixZoomData s myunit mybinsize bbc0 bcc0).myBlockBinCount =
      (if e.isFor myunit mybinsize then e.blockBinCount else bbc0) ∧
    (readMatrixZoomData s myunit mybinsize bbc0 bcc0).myBlockColumnCount =
      (if e.isFor myunit mybinsize then e.blockColumnCount else bcc0) ∧
    (readMatrixZoomData s myunit mybinsize bbc0 bcc0).found = e.isFor myunit mybinsize ∧
    (readMatrixZoomData s myunit mybinsize bbc0 bcc0).fin.remains rest := by
  obtain ⟨hu, hs, hb, hbb, hbc, hn, hbl⟩ := hfit
  rw [encodeZoom_append] at h
  obtain ⟨v1, s1⟩ := getline_remains s e.unit _ [] 0 hu h
  have s2 := skip20_remains _ e.skipped _ hs s1
  obtain ⟨v3, s3⟩ := readInt_remains _ e.binSize _ hb.1 hb.2 s2
  obtain ⟨v4, s4⟩ := readInt_remains _ e.blockBinCount _ hbb.1 hbb.2 s3
  obtain ⟨v5, s5⟩ := readInt_remains _ e.blockColumnCount _ hbc.1 hbc.2 s4
  obtain ⟨v6, s6⟩ := readInt_remains _ (e.blocks.length : Int) _ (by omega) (by omega) s5
  obtain ⟨v7, s7⟩ := readBlockTable_encode (e.isFor myunit mybinsize) e.blocks rest _ [] hbl s6
  simp only [readMatrixZoomData, v1, v3, v4, v5, v6, Int.toNat_ofNat]
  refine ⟨?_, ?_, ?_, ?_, ?_⟩
  · exact v7
  · rfl
  · rfl
  · rfl
  · exact s7

theorem blockMap_lookup_set (m : BlockMap) (n k : Int) (e : indexEntry) :
    (m.set n e).lookup k = if k = n then some e else m.lookup k := by
  by_cases hk : k = n
  · subst hk
    simp [BlockMap.set, List.lookup]
  · have hb : (k == n) = false := by simpa using hk
    simp only [BlockMap.set, List.lookup, hb, if_neg hk]
    induction m with
    | nil => rfl
    | cons q qs ih =>
      obtain ⟨q1, q2⟩ := q
      by_cases hq : q1 = n
      · have hne : (k == q1) = false := by rw [hq]; exact hb
        rw [List.filter_cons_of_neg (by simpa using hq)]
        simp only [List.lookup, hne, ih]
      · rw [List.filter_cons_of_pos (by simpa using hq)]
        cases hkq : k == q1 <;> simp only [List.lookup, hkq, ih]

/-- In the block map of a table every listed block number has the
`(position, size)` of its last listing, and there is no other new key. -/
theorem blockMapOf_lookup (blocks : List (Int × indexEntry)) :
    ∀ (m : BlockMap) (k : Int),
      (blockMapOf m blocks).lookup k = (blocks.reverse.lookup k).or (m.lookup k) := by
  induction blocks with
  | nil => intro m k; simp [blockMapOf]
  | cons b bs ih =>
    intro m k
    have e : blockMapOf m (b :: bs) = blockMapOf (m.set b.1 b.2) bs := rfl
    rw [e, ih, List.reverse_cons, List.lookup_append, blockMap_lookup_set]
    obtain ⟨b1, b2⟩ := b
    by_cases hk : k = b1
    · subst hk
      cases List.lookup k bs.reverse <;> simp [List.lookup]
    · have hb : (k == b1) = false := by simpa using hk
      cases List.lookup k bs.reverse <;> simp [List.lookup, hb, hk]

theorem blockMapOf_length (blocks : List (Int × indexEntry)) :
    ∀ m : BlockMap, (blocks.map Prod.fst).Nodup →
      (∀ q ∈ m, q.1 ∉ blocks.map Prod.fst) →
      (blockMapOf m blocks).length = m.length + blocks.length := by
  induction blocks with
  | nil => intro m _ _; rfl
  | cons b bs ih =>
    intro m hnd hm
    simp only [List.map_cons, List.nodup_cons] at hnd
    have hfil : m.filter (fun q => q.1 != b.1) = m := by
      rw [List.filter_eq_self]
      intro q hq
      have := hm q hq
      simp only [List.map_cons, List.mem_cons, not_or] at this
      simpa using this.1
    have e : blockMapOf m (b :: bs) = blockMapOf (m.set b.1 b.2) bs := rfl
    rw [e, ih _ hnd.2]
    · simp only [BlockMap.set, hfil, List.length_cons]
      omega
    · intro q hq
      simp only [BlockMap.set, hfil, List.mem_cons] at hq
      rcases hq with rfl | hq
      · exact hnd.1
      · have := hm q hq
        simp only [List.map_cons, List.mem_cons, not_or] at this
        exact this.2

theorem blockMapOf_nodup (blocks : List (Int × indexEntry))
    (hnd : (blocks.map Prod.fst).Nodup) (b : Int × indexEntry) (hb : b ∈ blocks) :
    (blockMapOf [] blocks).lookup b.1 = some b.2 := by
  rw [blockMapOf_lookup]
  have hr : (blocks.reverse.map Prod.fst).Nodup := by
    rw [List.map_reverse]
    exact List.nodup_reverse.mpr hnd
  have hm : b ∈ blocks.reverse := List.mem_reverse.mpr hb
  generalize blocks.reverse = l at hr hm
  induction l with
  | nil => simp at hm
  | cons q qs ih =>
    simp only [List.map_cons, List.nodup_cons] at hr
    obtain ⟨q1, q2⟩ := q
    rcases List.mem_cons.mp hm with heq | hin
    · subst heq
      simp [List.lookup]
    · have hne : b.1 ≠ q1 := by
        intro h
        have hmem := List.mem_map_of_mem Prod.fst hin
        rw [h] at hmem
        exact hr.1 hmem
      have hbq : (b.1 == q1) = false := by simpa using hne
      simp only [List.lookup, hbq]
      exact ih hr.2 hin

theorem readMatrixLoop_found (unit : Str) (resolution : Int) (n : Nat) (st : ZoomResult)
    (h : st.found = true) : readMatrixLoop unit resolution n st = st := by
  cases n with
  | zero => rfl
  | succ n => simp only [readMatrixLoop, h, if_true]

theorem encodeZooms_cons (e : ZoomEntry) (es : List ZoomEntry) (rest : List Nat) :
    encodeZooms (e :: es) ++ rest = encodeZoom e ++ (encodeZooms es ++ rest) := by
  simp [encodeZooms]

/-- The loop of `readMatrix` over the resolution entries of a well-formed
matrix record stops behind the first entry for the query. -/
theorem readMatrixLoop_encode (unit : Str) (resolution : Int) (entries : List ZoomEntry)
    (rest : List Nat) :
    ∀ st : ZoomResult, st.found = false → st.blockMap = [] → (∀ e ∈ entries, e.fits) →
      st.fin.remains (encodeZooms entries ++ rest) →
      (∀ e, entries.find? (fun e => e.isFor unit resolution) = some e →
        (readMatrixLoop unit resolution entries.length st).blockMap = blockMapOf [] e.blocks ∧
        (readMatrixLoop unit resolution entries.length st).myBlockBinCount = e.blockBinCount ∧
        (readMatrixLoop unit resolution entries.length st).myBlockColumnCount
          = e.blockColumnCount ∧
        (readMatrixLoop unit resolution entries.length st).found = true ∧
        (readMatrixLoop unit resolution entries.length st).fin.remains
          (encodeZooms (entriesAfter unit resolution entries) ++ rest)) ∧
      (entries.find? (fun e => e.isFor unit resolution) = none →
        (readMatrixLoop unit resolution entries.length st).blockMap = [] ∧
        (readMatrixLoop unit resolution entries.length st).myBlockBinCount
          = st.myBlockBinCount ∧
        (readMatrixLoop unit resolution entries.length st).myBlockColumnCount
          = st.myBlockColumnCount ∧
        (readMatrixLoop unit resolution entries.length st).found = false ∧
        (readMatrixLoop unit resolution entries.length st).fin.remains rest) := by
  induction entries with
  | nil =>
    intro st hf hb _ h
    refine ⟨by intro e he; simp at he, ?_⟩
    intro _
    exact ⟨hb, rfl, rfl, hf, by simpa [encodeZooms] using h⟩
  | cons e es ih =>
    intro st hf hb hfit h
    rw [encodeZooms_cons] at h
    obtain ⟨z1, z2, z3, z4, z5⟩ := readMatrixZoomData_encode st.fin e _ unit resolution
      st.myBlockBinCount st.myBlockColumnCount (hfit e (List.mem_cons_self _ _)) h
    simp only [List.length_cons, readMatrixLoop, hf, Bool.false_eq_true, if_false]
    cases hm : e.isFor unit resolution with
    | true =>
      simp only [hm, if_true] at z1 z2 z3 z4
      rw [readMatrixLoop_found _ _ _ _ z4]
      refine ⟨?_, by intro hn; simp [List.find?, hm] at hn⟩
      intro e' he'
      simp only [List.find?, hm, Option.some.injEq] at he'
      subst he'
      refine ⟨z1, z2, z3, z4, ?_⟩
      simpa [entriesAfter, List.dropWhile, hm] using z5
    | false =>
      simp only [hm, Bool.false_eq_true, if_false] at z1 z2 z3 z4
      obtain ⟨i1, i2⟩ := ih _ z4 z1 (fun q hq => hfit q (List.mem_cons_of_mem _ hq)) z5
      constructor
      · intro e' he'
        simp only [List.find?, hm] at he'
        have := i1 e' he'
        simpa [entriesAfter, List.dropWhile, hm] using this
      · intro hn
        simp only [List.find?, hm] at hn
        obtain ⟨j1, j2, j3, j4, j5⟩ := i2 hn
        exact ⟨j1, by rw [j2, z2], by rw [j3, z3], j4, j5⟩

theorem seekg_remains (fin : IStream) (p : Int) (hfail : fin.fail = false) (hp : 0 ≤ p) :
    (fin.seekg p).remains (fin.data.drop p.toNat) := by
  simp only [IStream.seekg, hfail, Bool.false_eq_true, if_false, if_neg (not_lt.mpr hp),
    IStream.remains, IStream.good]
  simp

/-- On a well-formed matrix record `readMatrix` stops behind the first
resolution entry for the query. -/
theorem readMatrix_encode (fin : IStream) (pos : Int) (unit : Str)
    (resolution bbc0 bcc0 c1 c2 : Int) (entries : List ZoomEntry) (rest : List Nat)
    (hfail : fin.fail = false) (hpos : 0 ≤ pos)
    (hc1 : -2147483648 ≤ c1 ∧ c1 < 2147483648) (hc2 : -2147483648 ≤ c2 ∧ c2 < 2147483648)
    (hn : entries.length < 2147483648) (hfit : ∀ e ∈ entries, e.fits)
    (himg : fin.data.drop pos.toNat = encodeMatrix c1 c2 entries ++ rest) :
    (∀ e, entries.find? (fun e => e.isFor unit resolution) = some e →
      (readMatrix fin pos unit resolution bbc0 bcc0).blockMap = blockMapOf [] e.blocks ∧
      (readMatrix fin pos unit resolution bbc0 bcc0).myBlockBinCount = e.blockBinCount ∧
      (readMatrix fin pos unit resolution bbc0 bcc0).myBlockColumnCount = e.blockColumnCount ∧
      (readMatrix fin pos unit resolution bbc0 bcc0).found = true ∧
      (readMatrix fin pos unit resolution bbc0 bcc0).fin.remains
        (encodeZooms (entriesAfter unit resolution entries) ++ rest)) ∧
    (entries.find? (fun e => e.isFor unit resolution) = none →
      (readMatrix fin pos unit resolution bbc0 bcc0).blockMap = [] ∧
      (readMatrix fin pos unit resolution bbc0 bcc0).myBlockBinCount = bbc0 ∧
      (readMatrix fin pos unit resolution bbc0 bcc0).myBlockColumnCount = bcc0 ∧
      (readMatrix fin pos unit resolution bbc0 bcc0).found = false ∧
      (readMatrix fin pos unit resolution bbc0 bcc0).fin.remains rest) := by
  have s0 := seekg_remains fin pos hfail hpos
  rw [himg] at s0
  simp only [encodeMatrix, List.append_assoc] at s0
  obtain ⟨_, s1⟩ := readInt_remains _ c1 _ hc1.1 hc1.2 s0
  obtain ⟨_, s2⟩ := readInt_remains _ c2 _ hc2.1 hc2.2 s1
  obtain ⟨v3, s3⟩ := readInt_remains _ (entries.length : Int) _ (by omega) (by omega) s2
  have hrm : readMatrix fin pos unit resolution bbc0 bcc0 =
      readMatrixLoop unit resolution entries.length
        { blockMap := [], myBlockBinCount := bbc0, myBlockColumnCount := bcc0, found := false,
          fin := (readIntFromFile (readIntFromFile (readIntFromFile (fin.seekg pos)).2).2).2 } := by
    simp only [readMatrix, v3, Int.toNat_ofNat]
  rw [hrm]
  exact readMatrixLoop_encode unit resolution entries rest _ rfl rfl hfit s3

/-- C26: on a well-formed matrix record, `readMatrix` returns the block index
of the first resolution entry, in file order, whose unit and bin size are
those of the query: the returned map has exactly the listed block numbers as
keys, each with its `(position, size)` (that of its last listing, should a
number be listed twice), `blockBinCount` and `blockColumnCount` are those of
that entry, and the stream is left right behind its block table, before the
entries that follow. When no entry matches, the map is empty and the two
counts are left as they were. -/
theorem C26_matrix_lookup (fin : IStream) (pos : Int) (unit : Str)
    (resolution bbc0 bcc0 c1 c2 : Int) (entries : List ZoomEntry) (rest : List Nat)
    (hfail : fin.fail = false) (hpos : 0 ≤ pos)
    (hc1 : -2147483648 ≤ c1 ∧ c1 < 2147483648) (hc2 : -2147483648 ≤ c2 ∧ c2 < 2147483648)
    (hn : entries.length < 2147483648) (hfit : ∀ e ∈ entries, e.fits)
    (himg : fin.data.drop pos.toNat = encodeMatrix c1 c2 entries ++ rest) :
    (∀ e, entries.find? (fun e => e.isFor unit resolution) = some e →
      (readMatrix fin pos unit resolution bbc0 bcc0).found = true ∧
      (∀ k, (readMatrix fin pos unit resolution bbc0 bcc0).blockMap.lookup k =
        e.blocks.reverse.lookup k) ∧
      ((e.blocks.map Prod.fst).Nodup →
        (readMatrix fin pos unit resolution bbc0 bcc0).blockMap.length = e.blocks.length ∧
        ∀ b ∈ e.blocks,
          (readMatrix fin pos unit resolution bbc0 bcc0).blockMap.lookup b.1 = some b.2) ∧
      (readMatrix fin pos unit resolution bbc0 bcc0).myBlockBinCount = e.blockBinCount ∧
      (readMatrix fin pos unit resolution bbc0 bcc0).myBlockColumnCount = e.blockColumnCount ∧
      (readMatrix fin pos unit resolution bbc0 bcc0).fin.remains
        (encodeZooms (entriesAfter unit resolution entries) ++ rest)) ∧
    (entries.find? (fun e => e.isFor unit resolution) = none →
      (readMatrix fin pos unit resolution bbc0 bcc0).found = false ∧
      (readMatrix fin pos unit resolution bbc0 bcc0).blockMap = [] ∧
      (readMatrix fin pos unit resolution bbc0 bcc0).myBlockBinCount = bbc0 ∧
      (readMatrix fin pos unit resolution bbc0 bcc0).myBlockColumnCount = bcc0) := by
  obtain ⟨l1, l2⟩ := readMatrix_encode fin pos unit resolution bbc0 bcc0 c1 c2 entries rest
    hfail hpos hc1 hc2 hn hfit himg
  constructor
  · intro e he
    obtain ⟨a1, a2, a3, a4, a5⟩ := l1 e he
    refine ⟨a4, ?_, ?_, a2, a3, a5⟩
    · intro k
      rw [a1, blockMapOf_lookup]
      cases List.lookup k e.blocks.reverse <;> rfl
    · intro hnd
      rw [a1]
      refine ⟨?_, fun b hb => blockMapOf_nodup e.blocks hnd b hb⟩
      rw [blockMapOf_length e.blocks [] hnd (by intro q hq; simp at hq)]
      simp
  · intro hnone
    obtain ⟨a1, a2, a3, a4, _⟩ := l2 hnone
    exact ⟨a4, a1, a2, a3⟩

theorem C26_matrix_lookup_witness :
    (readMatrix (IStream.open (encodeMatrix 0 0 sampleZooms ++ [7]) (fun _ => 0)) 0
      (ascii "BP") 100 0 0).myBlockBinCount = 10 ∧
    (readMatrix (IStream.open (encodeMatrix 0 0 sampleZooms ++ [7]) (fun _ => 0)) 0
      (ascii "BP") 100 0 0).blockMap.lookup 1 = some { size := 16, position := 64 } :=
  ⟨((C26_matrix_lookup (IStream.open (encodeMatrix 0 0 sampleZooms ++ [7]) (fun _ => 0)) 0
      (ascii "BP") 100 0 0 0 0 sampleZooms [7] rfl (by decide) (by decide) (by decide)
      (by decide) (by decide) rfl).1 _ rfl).2.2.2.1,
   ((C26_matrix_lookup (IStream.open (encodeMatrix 0 0 sampleZooms ++ [7]) (fun _ => 0)) 0
      (ascii "BP") 100 0 0 0 0 sampleZooms [7] rfl (by decide) (by decide) (by decide)
      (by decide) (by decide) rfl).1 _ rfl).2.1 1⟩

/-! ## The matrix record over HTTP -/

theorem map_getD_range (bs : List Nat) (d : Nat → Nat) :
    (List.range bs.length).map (fun i => bs.getD i (d i)) = bs := by
  apply List.ext_getElem
  · simp
  · intro i h1 h2
    simp only [List.getElem_map, List.getElem_range, List.getD_eq_getElem?_getD,
      List.getElem?_eq_getElem h2, Option.getD_some]

/-- A range request inside the resource, seen through a buffer of the
requested size, is the requested bytes. -/
theorem membuf_getData (res : List Nat) (p n : Int) (junk : Nat → Nat) (bs t : List Nat)
    (hp : 0 ≤ p) (hn : 0 ≤ n) (hr : res.drop p.toNat = bs ++ t) (hl : bs.length = n.toNat) :
    membuf (getData res p n) n junk = bs := by
  have hg : getData res p n = (bs ++ t).take (bs.length + 1) := by
    simp only [getData, if_neg (by omega : ¬(p < 0 ∨ n < 0)), hr, hl]
  rw [hg]
  unfold membuf
  rw [← hl]
  have e : (List.range bs.length).map
      (fun i => ((bs ++ t).take (bs.length + 1)).getD i (junk i % 256)) =
      (List.range bs.length).map (fun i => bs.getD i (junk i % 256)) := by
    apply List.map_congr_left
    intro i hi
    have hi' : i < bs.length := List.mem_range.mp hi
    simp only [List.getD_eq_getElem?_getD]
    rw [List.getElem?_take_of_lt (by omega), List.getElem?_append_left hi']
  rw [e]
  exact map_getD_range bs (fun i => junk i % 256)

theorem encodeBlockTable_length (blocks : List (Int × indexEntry)) :
    (encodeBlockTable blocks).length = 16 * blocks.length := by
  induction blocks with
  | nil => rfl
  | cons b bs ih =>
    have e := encodeBlockTable_cons b bs []
    simp only [List.append_nil] at e
    rw [e]
    simp only [List.length_append, i32, i64, bytesOf_length, ih, List.length_cons]
    omega

theorem encodeZoomHeader_length (e : ZoomEntry) (hs : e.skipped.length = 20) :
    (encodeZoomHeader e).length = e.unit.length + 37 := by
  simp only [encodeZoomHeader, zstr, List.length_append, i32, bytesOf_length, hs,
    List.length_singleton]

theorem encodeZoomHeader_append (e : ZoomEntry) (rest : List Nat) :
    encodeZoomHeader e ++ rest =
      e.unit ++ 0 :: (e.skipped ++ (i32 e.binSize ++ (i32 e.blockBinCount ++
        (i32 e.blockColumnCount ++ (i32 e.blocks.length ++ rest))))) := by
  simp [encodeZoomHeader, zstr]

/-- What the reads of `readMatrixZoomDataHttp` on the fetched header of a
well-formed resolution entry give. -/
theorem zoomHeader_reads (e : ZoomEntry) (junk : Nat → Nat) (hfit : e.fits) :
    (getline (IStream.open (encodeZoomHeader e) junk) [] 0).1 = e.unit ∧
    (readIntFromFile (readFloatFromFile (readFloatFromFile (readFloatFromFile
      (readFloatFromFile (readIntFromFile
        (getline (IStream.open (encodeZoomHeader e) junk) [] 0).2).2).2).2).2).2).1
      = e.binSize ∧
    (readIntFromFile (readIntFromFile (readFloatFromFile (readFloatFromFile
      (readFloatFromFile (readFloatFromFile (readIntFromFile
        (getline (IStream.open (encodeZoomHeader e) junk) [] 0).2).2).2).2).2).2).2).1
      = e.blockBinCount ∧
    (readIntFromFile (readIntFromFile (readIntFromFile (readFloatFromFile (readFloatFromFile
      (readFloatFromFile (readFloatFromFile (readIntFromFile
        (getline (IStream.open (encodeZoomHeader e) junk) [] 0).2).2).2).2).2).2).2).2).1
      = e.blockColumnCount ∧
    (readIntFromFile (readIntFromFile (readIntFromFile (readIntFromFile (readFloatFromFile
      (readFloatFromFile (readFloatFromFile (readFloatFromFile (readIntFromFile
        (getline (IStream.open (encodeZoomHeader e) junk) [] 0).2).2).2).2).2).2).2).2).2).1
      = (e.blocks.length : Int) := by
  obtain ⟨hu, hs, hb, hbb, hbc, hn, _⟩ := hfit
  have h0 := open_remains (encodeZoomHeader e) junk
  have e0 := encodeZoomHeader_append e []
  simp only [List.append_nil] at e0
  rw [e0] at h0
  rw [e0]
  obtain ⟨v1, s1⟩ := getline_remains _ e.unit _ [] 0 hu h0
  have s2 := skip20_remains _ e.skipped _ hs s1
  obtain ⟨v3, s3⟩ := readInt_remains _ e.binSize _ hb.1 hb.2 s2
  obtain ⟨v4, s4⟩ := readInt_remains _ e.blockBinCount _ hbb.1 hbb.2 s3
  obtain ⟨v5, s5⟩ := readInt_remains _ e.blockColumnCount _ hbc.1 hbc.2 s4
  obtain ⟨v6, _⟩ := readInt_remains _ (e.blocks.length : Int) _ (by omega) (by omega) s5
  exact ⟨v1, v3, v4, v5, v6⟩

/-- Reading one resolution entry of a well-formed matrix record over HTTP:
the same block map, counts and `found` as the local reader gives, and on an
entry that does not match the position behind the entry. -/
theorem readMatrixZoomDataHttp_encode (res : List Nat) (junk : Nat → Nat) (e : ZoomEntry)
    (rest : List Nat) (myunit : Str) (mybinsize : Int) (st : ZoomHttpResult)
    (hfit : e.fits) (hunit : e.unit = ascii "BP" ∨ e.unit = ascii "FRAG")
    (hlen : res.length < 9223372036854775808) (hp : 0 ≤ st.myFilePosition)
    (h : res.drop st.myFilePosition.toNat = encodeZoom e ++ rest) :
    (readMatrixZoomDataHttp res junk myunit mybinsize st).blockMap =
      (if e.isFor myunit mybinsize then blockMapOf [] e.blocks else []) ∧
    (readMatrixZoomDataHttp res junk myunit mybinsize st).myBlockBinCount =
      (if e.isFor myunit mybinsize then e.blockBinCount else st.myBlockBinCount) ∧
    (readMatrixZoomDataHttp res junk myunit mybinsize st).myBlockColumnCount =
      (if e.isFor myunit mybinsize then e.blockColumnCount else st.myBlockColumnCount) ∧
    (readMatrixZoomDataHttp res junk myunit mybinsize st).found = e.isFor myunit mybinsize ∧
    (e.isFor myunit mybinsize = false →
      0 ≤ (readMatrixZoomDataHttp res junk myunit mybinsize st).myFilePosition ∧
      res.drop (readMatrixZoomDataHttp res junk myunit mybinsize st).myFilePosition.toNat
        = rest) := by
  have hfit' := hfit
  obtain ⟨hu, hs, hb, hbb, hbc, hn, hbl⟩ := hfit
  have hhl := encodeZoomHeader_length e hs
  have htl := encodeBlockTable_length e.blocks
  -- the position is inside the resource
  have hdl : res.length - st.myFilePosition.toNat =
      (encodeZoomHeader e).length + (encodeBlockTable e.blocks).length + rest.length := by
    have := congrArg List.length h
    simp only [encodeZoom, List.length_append, List.length_drop] at this
    omega
  -- the first byte and the header size
  have hfirst : (getData res st.myFilePosition 1).getD 0 (junk 0 % 256) = e.unit.getD 0 0 ∧
      e.unit.getD 0 0 = (if e.unit = ascii "BP" then 66 else 70) := by
    have hg : getData res st.myFilePosition 1 = (encodeZoom e ++ rest).take 2 := by
      simp only [getData, if_neg (by omega : ¬(st.myFilePosition < 0 ∨ (1 : Int) < 0)), h]
      rfl
    rw [hg, encodeZoom_append]
    rcases hunit with hq | hq <;> rw [hq] <;> exact ⟨rfl, by decide⟩
  have hsize : ((if (if e.unit = ascii "BP" then (66 : Nat) else 70) == 66 then (36 : Int) + 3
      else 36 + 5)) = ((encodeZoomHeader e).length : Int) := by
    rw [hhl]
    rcases hunit with hq | hq <;> rw [hq] <;> decide
  have hchk : ((if e.unit = ascii "BP" then (66 : Nat) else 70) != 66 &&
      (if e.unit = ascii "BP" then (66 : Nat) else 70) != 70) = false := by
    rcases hunit with hq | hq <;> rw [hq] <;> decide
  -- the fetched header
  have hhead : membuf (getData res st.myFilePosition ((encodeZoomHeader e).length : Int))
      ((encodeZoomHeader e).length : Int) junk = encodeZoomHeader e :=
    membuf_getData res _ _ junk (encodeZoomHeader e) (encodeBlockTable e.blocks ++ rest) hp
      (Int.natCast_nonneg _) (by rw [h, encodeZoom, List.append_assoc]) (by simp)
  obtain ⟨r1, r3, r4, r5, r6⟩ := zoomHeader_reads e junk hfit'
  have hwrap : wrap 64 ((e.blocks.length : Int) * 16) = ((encodeBlockTable e.blocks).length : Int) := by
    rw [htl, wrap_of_range 64 (by decide) _ (by norm_num; omega) (by norm_num; omega)]
    push_cast
    ring
  -- the fetched table
  have htable : membuf (getData res (st.myFilePosition + ((encodeZoomHeader e).length : Int))
      ((encodeBlockTable e.blocks).length : Int)) ((encodeBlockTable e.blocks).length : Int) junk
        = encodeBlockTable e.blocks := by
    apply membuf_getData res _ _ junk (encodeBlockTable e.blocks) rest (by omega)
      (Int.natCast_nonneg _) _ (by simp)
    have e1 : (st.myFilePosition + ((encodeZoomHeader e).length : Int)).toNat =
        st.myFilePosition.toNat + (encodeZoomHeader e).length := by omega
    rw [e1, ← List.drop_drop, h, encodeZoom, List.append_assoc, List.drop_left]
  obtain ⟨t1, _⟩ := readBlockTable_encode true e.blocks []
    (IStream.open (encodeBlockTable e.blocks) junk) [] hbl
    (by simpa using open_remains (encodeBlockTable e.blocks) junk)
  simp only [readMatrixZoomDataHttp, hfirst.1, hfirst.2, hchk, Bool.false_eq_true, if_false,
    hsize, hhead, r1, r3, r4, r5, r6, hwrap, htable, Int.toNat_ofNat]
  cases hm : e.isFor myunit mybinsize with
  | true =>
    have hd : decide (myunit = e.unit ∧ mybinsize = e.binSize) = true := hm
    simp only [hd, if_true, t1, true_and]
    intro hcontra
    cases hcontra
  | false =>
    have hd : decide (myunit = e.unit ∧ mybinsize = e.binSize) = false := hm
    simp only [hd, Bool.false_eq_true, if_false, true_and]
    intro _
    have hw : wrap 64 (st.myFilePosition + ((encodeZoomHeader e).length : Int) +
        ((encodeBlockTable e.blocks).length : Int)) =
        st.myFilePosition + ((encodeZoomHeader e).length : Int) +
          ((encodeBlockTable e.blocks).length : Int) := by
      apply wrap_of_range 64 (by decide) _ (by norm_num; omega) (by norm_num; omega)
    rw [hw]
    refine ⟨by omega, ?_⟩
    have e1 : (st.myFilePosition + ((encodeZoomHeader e).length : Int) +
        ((encodeBlockTable e.blocks).length : Int)).toNat =
        st.myFilePosition.toNat + ((encodeZoomHeader e).length +
          (encodeBlockTable e.blocks).length) := by omega
    rw [e1, ← List.drop_drop, h, encodeZoom, ← List.length_append, List.drop_left]

theorem readMatrixHttpLoop_found (res : List Nat) (junk : Nat → Nat) (unit : Str)
    (resolution : Int) (n : Nat) (st : ZoomHttpResult) (h : st.found = true) :
    readMatrixHttpLoop res junk unit resolution n st = st := by
  cases n with
  | zero => rfl
  | succ n => simp only [readMatrixHttpLoop, h, if_true]

/-- The loop of `readMatrixHttp` over the resolution entries of a well-formed
matrix record gives what the loop of `readMatrix` gives. -/
theorem readMatrixHttpLoop_encode (res : List Nat) (junk : Nat → Nat) (unit : Str)
    (resolution : Int) (entries : List ZoomEntry) (rest : List Nat)
    (hlen : res.length < 9223372036854775808) :
    ∀ st : ZoomHttpResult, st.found = false → st.blockMap = [] → 0 ≤ st.myFilePosition →
      (∀ e ∈ entries, e.fits ∧ (e.unit = ascii "BP" ∨ e.unit = ascii "FRAG")) →
      res.drop st.myFilePosition.toNat = encodeZooms entries ++ rest →
      (∀ e, entries.find? (fun e => e.isFor unit resolution) = some e →
        (readMatrixHttpLoop res junk unit resolution entries.length st).blockMap
          = blockMapOf [] e.blocks ∧
        (readMatrixHttpLoop res junk unit resolution entries.length st).myBlockBinCount
          = e.blockBinCount ∧
        (readMatrixHttpLoop res junk unit resolution entries.length st).myBlockColumnCount
          = e.blockColumnCount ∧
        (readMatrixHttpLoop res junk unit resolution entries.length st).found = true) ∧
      (entries.find? (fun e => e.isFor unit resolution) = none →
        (readMatrixHttpLoop res junk unit resolution entries.length st).blockMap = [] ∧
        (readMatrixHttpLoop res junk unit resolution entries.length st).myBlockBinCount
          = st.myBlockBinCount ∧
        (readMatrixHttpLoop res junk unit resolution entries.length st).myBlockColumnCount
          = st.myBlockColumnCount ∧
        (readMatrixHttpLoop res junk unit resolution entries.length st).found = false) := by
  induction entries with
  | nil =>
    intro st hf hb _ _ _
    refine ⟨by intro e he; simp at he, ?_⟩
    intro _
    exact ⟨hb, rfl, rfl, hf⟩
  | cons e es ih =>
    intro st hf hb hp hfit h
    rw [encodeZooms_cons] at h
    obtain ⟨hfe, hue⟩ := hfit e (List.mem_cons_self _ _)
    obtain ⟨z1, z2, z3, z4, z5⟩ := readMatrixZoomDataHttp_encode res junk e _ unit resolution st
      hfe hue hlen hp h
    simp only [List.length_cons, readMatrixHttpLoop, hf, Bool.false_eq_true, if_false]
    cases hm : e.isFor unit resolution with
    | true =>
      simp only [hm, if_true] at z1 z2 z3 z4
      rw [readMatrixHttpLoop_found _ _ _ _ _ _ z4]
      refine ⟨?_, by intro hn; simp [List.find?, hm] at hn⟩
      intro e' he'
      simp only [List.find?, hm, Option.some.injEq] at he'
      subst he'
      exact ⟨z1, z2, z3, z4⟩
    | false =>
      simp only [hm, Bool.false_eq_true, if_false] at z1 z2 z3 z4
      obtain ⟨p1, p2⟩ := z5 hm
      obtain ⟨i1, i2⟩ := ih _ z4 z1 p1 (fun q hq => hfit q (List.mem_cons_of_mem _ hq)) p2
      constructor
      · intro e' he'
        simp only [List.find?, hm] at he'
        exact i1 e' he'
      · intro hn
        simp only [List.find?, hm] at hn
        obtain ⟨j1, j2, j3, j4⟩ := i2 hn
        exact ⟨j1, by rw [j2, z2], by rw [j3, z3], j4⟩

/-- On a well-formed matrix record `readMatrixHttp` finds the first
resolution entry for the query. -/
theorem readMatrixHttp_encode (res : List Nat) (junk : Nat → Nat) (pos : Int) (unit : Str)
    (resolution bbc0 bcc0 c1 c2 : Int) (entries : List ZoomEntry) (rest : List Nat)
    (hlen : res.length < 9223372036854775808) (hpos : 0 ≤ pos)
    (hc1 : -2147483648 ≤ c1 ∧ c1 < 2147483648) (hc2 : -2147483648 ≤ c2 ∧ c2 < 2147483648)
    (hn : entries.length < 2147483648)
    (hfit : ∀ e ∈ entries, e.fits ∧ (e.unit = ascii "BP" ∨ e.unit = ascii "FRAG"))
    (himg : res.drop pos.toNat = encodeMatrix c1 c2 entries ++ rest) :
    (∀ e, entries.find? (fun e => e.isFor unit resolution) = some e →
      (readMatrixHttp res junk pos unit resolution bbc0 bcc0).blockMap
        = blockMapOf [] e.blocks ∧
      (readMatrixHttp res junk pos unit resolution bbc0 bcc0).myBlockBinCount
        = e.blockBinCount ∧
      (readMatrixHttp res junk pos unit resolution bbc0 bcc0).myBlockColumnCount
        = e.blockColumnCount ∧
      (readMatrixHttp res junk pos unit resolution bbc0 bcc0).found = true) ∧
    (entries.find? (fun e => e.isFor unit resolution) = none →
      (readMatrixHttp res junk pos unit resolution bbc0 bcc0).blockMap = [] ∧
      (readMatrixHttp res junk pos unit resolution bbc0 bcc0).myBlockBinCount = bbc0 ∧
      (readMatrixHttp res junk pos unit resolution bbc0 bcc0).myBlockColumnCount = bcc0 ∧
      (readMatrixHttp res junk pos unit resolution bbc0 bcc0).found = false) := by
  have himg' : res.drop pos.toNat =
      (i32 c1 ++ i32 c2 ++ i32 entries.length) ++ (encodeZooms entries ++ rest) := by
    rw [himg]
    simp only [encodeMatrix, List.append_assoc]
  have hdl : res.length - pos.toNat = 12 + (encodeZooms entries ++ rest).length := by
    have := congrArg List.length himg'
    simp only [List.length_append, List.length_drop, i32, bytesOf_length] at this
    simp only [List.length_append]
    omega
  have hbuf : membuf (getData res pos 12) 12 junk = i32 c1 ++ i32 c2 ++ i32 entries.length :=
    membuf_getData res pos 12 junk _ _ hpos (by decide) himg'
      (by simp [i32, bytesOf_length])
  have h0 := open_remains (i32 c1 ++ i32 c2 ++ i32 entries.length) junk
  have e0 : i32 c1 ++ i32 c2 ++ i32 entries.length = i32 c1 ++ (i32 c2 ++ (i32 entries.length ++ [])) := by
    simp
  rw [e0] at h0
  rw [e0] at hbuf
  obtain ⟨_, s1⟩ := readInt_remains _ c1 _ hc1.1 hc1.2 h0
  obtain ⟨_, s2⟩ := readInt_remains _ c2 _ hc2.1 hc2.2 s1
  obtain ⟨v3, _⟩ := readInt_remains _ (entries.length : Int) _ (by omega) (by omega) s2
  have hw : wrap 64 (pos + 12) = pos + 12 :=
    wrap_of_range 64 (by decide) _ (by norm_num; omega) (by norm_num; omega)
  have hrm : readMatrixHttp res junk pos unit resolution bbc0 bcc0 =
      readMatrixHttpLoop res junk unit resolution entries.length
        { blockMap := [], myFilePosition := pos + 12, myBlockBinCount := bbc0,
          myBlockColumnCount := bcc0, found := false } := by
    simp only [readMatrixHttp, hbuf, v3, Int.toNat_ofNat, hw]
  rw [hrm]
  apply readMatrixHttpLoop_encode res junk unit resolution entries rest hlen _ rfl rfl
    (by show (0 : Int) ≤ pos + 12; omega) hfit
  show res.drop (pos + 12).toNat = encodeZooms entries ++ rest
  have e1 : (pos + 12).toNat = pos.toNat + 12 := by omega
  rw [e1, ← List.drop_drop, himg']
  apply List.drop_left'
  simp [i32, bytesOf_length]

/-- C27 (as amended): parity of the two matrix locators on a well-formed
matrix record, that is a byte image that holds, from the given offset on,
`c1`, `c2`, the number of resolution entries and the entries in full, each
with as many block-table entries as its `nBlocks` says, and with the unit
string `BP` or `FRAG`: `readMatrixHttp` on the resource returns the same block
map, `blockBinCount`, `blockColumnCount` and `found` as `readMatrix` reading
the same bytes from the same offset of a file. -/
theorem C27_http_parity (fin : IStream) (junk : Nat → Nat) (pos : Int) (unit : Str)
    (resolution bbc0 bcc0 c1 c2 : Int) (entries : List ZoomEntry) (rest : List Nat)
    (hfail : fin.fail = false) (hlen : fin.data.length < 9223372036854775808)
    (hpos : 0 ≤ pos)
    (hc1 : -2147483648 ≤ c1 ∧ c1 < 2147483648) (hc2 : -2147483648 ≤ c2 ∧ c2 < 2147483648)
    (hn : entries.length < 2147483648)
    (hfit : ∀ e ∈ entries, e.fits ∧ (e.unit = ascii "BP" ∨ e.unit = ascii "FRAG"))
    (himg : fin.data.drop pos.toNat = encodeMatrix c1 c2 entries ++ rest) :
    (readMatrixHttp fin.data junk pos unit resolution bbc0 bcc0).blockMap =
      (readMatrix fin pos unit resolution bbc0 bcc0).blockMap ∧
    (readMatrixHttp fin.data junk pos unit resolution bbc0 bcc0).myBlockBinCount =
      (readMatrix fin pos unit resolution bbc0 bcc0).myBlockBinCount ∧
    (readMatrixHttp fin.data junk pos unit resolution bbc0 bcc0).myBlockColumnCount =
      (readMatrix fin pos unit resolution bbc0 bcc0).myBlockColumnCount ∧
    (readMatrixHttp fin.data junk pos unit resolution bbc0 bcc0).found =
      (readMatrix fin pos unit resolution bbc0 bcc0).found := by
  obtain ⟨l1, l2⟩ := readMatrix_encode fin pos unit resolution bbc0 bcc0 c1 c2 entries rest
    hfail hpos hc1 hc2 hn (fun e he => (hfit e he).1) himg
  obtain ⟨h1, h2⟩ := readMatrixHttp_encode fin.data junk pos unit resolution bbc0 bcc0 c1 c2
    entries rest hlen hpos hc1 hc2 hn hfit himg
  cases hfind : entries.find? (fun e => e.isFor unit resolution) with
  | none =>
    obtain ⟨a1, a2, a3, a4, _⟩ := l2 hfind
    obtain ⟨b1, b2, b3, b4⟩ := h2 hfind
    exact ⟨by rw [a1, b1], by rw [a2, b2], by rw [a3, b3], by rw [a4, b4]⟩
  | some e =>
    obtain ⟨a1, a2, a3, a4, _⟩ := l1 e hfind
    obtain ⟨b1, b2, b3, b4⟩ := h1 e hfind
    exact ⟨by rw [a1, b1], by rw [a2, b2], by rw [a3, b3], by rw [a4, b4]⟩

theorem C27_http_parity_witness :
    (readMatrixHttp (encodeMatrix 0 0 sampleZooms ++ [7]) (fun _ => 0) 0 (ascii "BP") 100
      0 0).blockMap =
      (readMatrix (IStream.open (encodeMatrix 0 0 sampleZooms ++ [7]) (fun _ => 0)) 0
        (ascii "BP") 100 0 0).blockMap :=
  (C27_http_parity (IStream.open (encodeMatrix 0 0 sampleZooms ++ [7]) (fun _ => 0))
    (fun _ => 0) 0 (ascii "BP") 100 0 0 0 0 sampleZooms [7] rfl (by decide) (by decide)
    (by decide) (by decide) (by decide) (by decide) rfl).1

/-- C27, the claim as stated fails: in `sampleNegativeBlocks` both unit
strings are `BP`, and the first entry, which does not match, has
`nBlocks = -1`. `readMatrix` reads no block-table entry for it and finds the
second entry; `readMatrixHttp` moves its offset by `39 + (-1) * 16` bytes,
which is inside the first entry, reads a byte that is neither `B` nor `F`
there and gives up with an empty map. -/
theorem C27_counterexample :
    (readMatrix (IStream.open sampleNegativeBlocks (fun _ => 0)) 0 (ascii "BP") 100
      0 0).found = true ∧
    (readMatrix (IStream.open sampleNegativeBlocks (fun _ => 0)) 0 (ascii "BP") 100
      0 0).myBlockBinCount = 10 ∧
    (readMatrix (IStream.open sampleNegativeBlocks (fun _ => 0)) 0 (ascii "BP") 100
      0 0).blockMap = [(1, { size := 16, position := 64 }), (0, { size := 24, position := 40 })] ∧
    (readMatrixHttp sampleNegativeBlocks (fun _ => 0) 0 (ascii "BP") 100 0 0).found = false ∧
    (readMatrixHttp sampleNegativeBlocks (fun _ => 0) 0 (ascii "BP") 100 0 0).myBlockBinCount
      = 0 ∧
    (readMatrixHttp sampleNegativeBlocks (fun _ => 0) 0 (ascii "BP") 100 0 0).blockMap = [] :=
  ⟨rfl, rfl, rfl, rfl, rfl, rfl⟩

/-! ## The footer -/

theorem readMasterIndex_encode (key : Str) (entries : List (Str × Int × Int))
    (rest : List Nat) :
    ∀ (s : IStream) (found : Bool) (pos : Int), (∀ e ∈ entries, masterEntryFits e) →
      s.remains ((entries.map encodeMasterEntry).flatten ++ rest) →
      (readMasterIndex key entries.length s found pos).1 =
        (found || decide (key ∈ entries.map Prod.fst)) ∧
      (readMasterIndex key entries.length s found pos).2.2.remains rest := by
  induction entries with
  | nil =>
    intro s found pos _ h
    refine ⟨by simp [readMasterIndex], ?_⟩
    simpa [readMasterIndex] using h
  | cons e es ih =>
    intro s found pos hfit h
    obtain ⟨h1, h2, h3⟩ := hfit e (List.mem_cons_self _ _)
    have e0 : ((e :: es).map encodeMasterEntry).flatten ++ rest =
        e.1 ++ 0 :: (i64 e.2.1 ++ (i32 e.2.2 ++ ((es.map encodeMasterEntry).flatten ++ rest))) := by
      simp [encodeMasterEntry, zstr]
    rw [e0] at h
    obtain ⟨v1, s1⟩ := getline_remains s e.1 _ [] 0 h1 h
    obtain ⟨v2, s2⟩ := readLong_remains _ e.2.1 _ h2.1 h2.2 s1
    obtain ⟨_, s3⟩ := readInt_remains _ e.2.2 _ h3.1 h3.2 s2
    simp only [List.length_cons, readMasterIndex, v1]
    by_cases hk : e.1 = key
    · rw [if_pos hk]
      obtain ⟨r1, r2⟩ := ih _ true _ (fun q hq => hfit q (List.mem_cons_of_mem _ hq)) s3
      refine ⟨?_, r2⟩
      rw [r1]
      simp [hk]
    · rw [if_neg hk]
      obtain ⟨r1, r2⟩ := ih _ found pos (fun q hq => hfit q (List.mem_cons_of_mem _ hq)) s3
      refine ⟨?_, r2⟩
      rw [r1]
      have hk' : (key == e.1) = false := by
        simp only [beq_eq_false_iff_ne, ne_eq]
        exact fun h => hk h.symm
      simp [hk']

theorem skipValues_encode (version : Int) (vals : List (List Nat)) (rest : List Nat) :
    ∀ s : IStream, (∀ v ∈ vals, v.length = valueWidth version) →
      s.remains (vals.flatten ++ rest) → (skipValues version vals.length s).remains rest := by
  induction vals with
  | nil => intro s _ h; simpa [skipValues] using h
  | cons v vs ih =>
    intro s hw h
    have hv := hw v (List.mem_cons_self _ _)
    simp only [List.flatten_cons, List.append_assoc] at h
    simp only [List.length_cons, skipValues]
    apply ih _ (fun q hq => hw q (List.mem_cons_of_mem _ hq))
    by_cases hver : version > 8
    · simp only [valueWidth, hver, if_true] at hv
      simp only [hver, if_true]
      exact (skip4_remains s v _ hv h).2
    · simp only [valueWidth, hver, if_false] at hv
      simp only [hver, if_false]
      exact (skip8_remains s v _ hv h).2

theorem skipFactors_encode (version : Int) (fs : List (Int × List Nat)) (rest : List Nat) :
    ∀ s : IStream,
      (∀ f ∈ fs, (-2147483648 ≤ f.1 ∧ f.1 < 2147483648) ∧ f.2.length = valueWidth version) →
      s.remains ((fs.map (fun f => i32 f.1 ++ f.2)).flatten ++ rest) →
      (skipFactors version fs.length s).remains rest := by
  induction fs with
  | nil => intro s _ h; simpa [skipFactors] using h
  | cons f fs ih =>
    intro s hw h
    obtain ⟨hr, hv⟩ := hw f (List.mem_cons_self _ _)
    simp only [List.map_cons, List.flatten_cons, List.append_assoc] at h
    obtain ⟨_, s1⟩ := readInt_remains s f.1 _ hr.1 hr.2 h
    simp only [List.length_cons, skipFactors]
    apply ih _ (fun q hq => hw q (List.mem_cons_of_mem _ hq))
    by_cases hver : version > 8
    · simp only [valueWidth, hver, if_true] at hv
      simp only [hver, if_true]
      exact (skip4_remains _ f.2 _ hv s1).2
    · simp only [valueWidth, hver, if_false] at hv
      simp only [hver, if_false]
      exact (skip8_remains _ f.2 _ hv s1).2

theorem skipExpectedValues_encode (version : Int) (typed : Bool) (es : List ExpectedEntry)
    (rest : List Nat) :
    ∀ s : IStream, (∀ e ∈ es, e.fits version) →
      s.remains ((es.map (encodeExpected version typed)).flatten ++ rest) →
      (skipExpectedValues version typed es.length s).remains rest := by
  induction es with
  | nil => intro s _ h; simpa [skipExpectedValues] using h
  | cons e es ih =>
    intro s hfit h
    obtain ⟨ht, hu, hb, hnv, hv, hnf, hf⟩ := hfit e (List.mem_cons_self _ _)
    have e0 : ((e :: es).map (encodeExpected version typed)).flatten ++ rest =
        (if typed then zstr e.typeString else []) ++ (e.unit ++ 0 :: (i32 e.binSize ++
          ((if version > 8 then i64 e.values.length else i32 e.values.length) ++
            (e.values.flatten ++ (i32 e.factors.length ++
              ((e.factors.map (fun f => i32 f.1 ++ f.2)).flatten ++
                ((es.map (encodeExpected version typed)).flatten ++ rest))))))) := by
      simp [encodeExpected, zstr]
    rw [e0] at h
    have s0 : (if typed then (getline s [] 0).2 else s).remains
        (e.unit ++ 0 :: (i32 e.binSize ++
          ((if version > 8 then i64 e.values.length else i32 e.values.length) ++
            (e.values.flatten ++ (i32 e.factors.length ++
              ((e.factors.map (fun f => i32 f.1 ++ f.2)).flatten ++
                ((es.map (encodeExpected version typed)).flatten ++ rest))))))) := by
      cases typed with
      | true =>
        simp only [if_true, zstr, List.append_assoc, List.singleton_append] at h ⊢
        exact (getline_remains s e.typeString _ [] 0 ht h).2
      | false =>
        simpa using h
    obtain ⟨_, s1⟩ := getline_remains _ e.unit _ [] 0 hu s0
    obtain ⟨_, s2⟩ := readInt_remains _ e.binSize _ hb.1 hb.2 s1
    simp only [List.length_cons, skipExpectedValues]
    apply ih _ (fun q hq => hfit q (List.mem_cons_of_mem _ hq))
    by_cases hver : version > 8
    · simp only [hver, if_true] at s2 ⊢
      obtain ⟨v3, s3⟩ := readLong_remains _ (e.values.length : Int) _ (by omega) (by omega) s2
      have s4 := skipValues_encode version e.values _ _ hv s3
      obtain ⟨v5, s5⟩ := readInt_remains _ (e.factors.length : Int) _ (by omega) (by omega)
        (by simpa [hver] using s4)
      have s6 := skipFactors_encode version e.factors _ _ hf s5
      simpa [v3, v5, hver] using s6
    · simp only [hver, if_false] at s2 ⊢
      obtain ⟨v3, s3⟩ := readInt_remains _ (e.values.length : Int) _ (by omega) (by omega) s2
      have s4 := skipValues_encode version e.values _ _ hv s3
      obtain ⟨v5, s5⟩ := readInt_remains _ (e.factors.length : Int) _ (by omega) (by omega)
        (by simpa [hver] using s4)
      have s6 := skipFactors_encode version e.factors _ _ hf s5
      simpa [v3, v5, hver] using s6

theorem readNormEntry_encode (version : Int) (ne : NormEntry) (t : List Nat) (s : IStream)
    (hfit : ne.fits version) (h : s.remains (encodeNormEntry version ne ++ t)) :
    (readNormEntry version s).1 = ne ∧ (readNormEntry version s).2.remains t := by
  obtain ⟨h1, h2, h3, h4, h5, h6⟩ := hfit
  have e0 : encodeNormEntry version ne ++ t =
      ne.normtype ++ 0 :: (i32 ne.chrIdx ++ (ne.unit1 ++ 0 :: (i32 ne.resolution1 ++
        (i64 ne.entry.position ++
          ((if version > 8 then i64 ne.entry.size else i32 ne.entry.size) ++ t))))) := by
    simp [encodeNormEntry, zstr]
  rw [e0] at h
  obtain ⟨v1, s1⟩ := getline_remains s ne.normtype _ [] 0 h1 h
  obtain ⟨v2, s2⟩ := readInt_remains _ ne.chrIdx _ h2.1 h2.2 s1
  obtain ⟨v3, s3⟩ := getline_remains _ ne.unit1 _ [] 0 h3 s2
  obtain ⟨v4, s4⟩ := readInt_remains _ ne.resolution1 _ h4.1 h4.2 s3
  obtain ⟨v5, s5⟩ := readLong_remains _ ne.entry.position _ h5.1 h5.2 s4
  obtain ⟨n1, n2, n3, n4, ⟨n5, n6⟩⟩ := ne
  simp only at h1 h2 h3 h4 h5 h6 v1 v2 v3 v4 v5 s1 s2 s3 s4 s5
  by_cases hver : version > 8
  · simp only [lengthFits, hver, if_true] at h6 s5
    obtain ⟨v6, s6⟩ := readLong_remains _ n5 _ h6.1 h6.2 s5
    simp only [readNormEntry, hver, if_true, v1, v2, v3, v4, v5, v6, true_and]
    exact s6
  · simp only [lengthFits, hver, if_false] at h6 s5
    obtain ⟨v6, s6⟩ := readInt_remains _ n5 _ h6.1 h6.2 s5
    simp only [readNormEntry, hver, if_false, v1, v2, v3, v4, v5, v6, true_and]
    exact s6

theorem normIndexEntries_encode (version : Int) (norms : List NormEntry) (rest : List Nat) :
    ∀ s : IStream, (∀ e ∈ norms, e.fits version) →
      s.remains ((norms.map (encodeNormEntry version)).flatten ++ rest) →
      normIndexEntries version norms.length s = norms := by
  induction norms with
  | nil => intro s _ _; rfl
  | cons ne nes ih =>
    intro s hfit h
    simp only [List.map_cons, List.flatten_cons, List.append_assoc] at h
    obtain ⟨v1, s1⟩ := readNormEntry_encode version ne _ s (hfit ne (List.mem_cons_self _ _)) h
    simp only [List.length_cons, normIndexEntries, v1]
    rw [ih _ (fun q hq => hfit q (List.mem_cons_of_mem _ hq)) s1]

theorem readNormIndex_remains (version c1 c2 : Int) (norm unit : Str) (resolution : Int)
    (norms : List NormEntry) (rest : List Nat) :
    ∀ st : NormIndex, (∀ e ∈ norms, e.fits version) →
      st.fin.remains ((norms.map (encodeNormEntry version)).flatten ++ rest) →
      (readNormIndex version c1 c2 norm unit resolution norms.length st).fin.remains rest := by
  induction norms with
  | nil => intro st _ h; simpa [readNormIndex] using h
  | cons ne nes ih =>
    intro st hfit h
    simp only [List.map_cons, List.flatten_cons, List.append_assoc] at h
    obtain ⟨_, s1⟩ := readNormEntry_encode version ne _ st.fin
      (hfit ne (List.mem_cons_self _ _)) h
    simp only [List.length_cons, readNormIndex]
    exact ih _ (fun q hq => hfit q (List.mem_cons_of_mem _ hq)) s1

/-- C28: on a well-formed footer that holds the matrix key, with a
normalization other than `NONE`, `readFooter` returns true, skips both
expected-value maps (`nValues` an i64 and values and factors f32 when
`version > 8`, an i32 and f64 otherwise; a type string in front of each entry
of the second map only) and hands back as `c1NormEntry` the
`(filePosition, sizeInBytes)` of the index entry for `(c1, norm, unit,
resolution)`, the last one if there are several, and the caller's value if
there is none; likewise `c2NormEntry` for `c2`; the stream is left behind the
index. With `NONE` it returns true with both entries untouched and the stream
right behind the master index. -/
theorem C28_footer_norm_entries (fin : IStream) (version c1 c2 : Int) (norm unit : Str)
    (resolution pos0 : Int) (e1 e2 : indexEntry) (nBytes : Int)
    (master : List (Str × Int × Int)) (exp1 exp2 : List ExpectedEntry)
    (norms : List NormEntry) (rest : List Nat)
    (hm : ∀ e ∈ master, masterEntryFits e) (hml : master.length < 2147483648)
    (hx1 : ∀ e ∈ exp1, e.fits version) (hl1 : exp1.length < 2147483648)
    (hx2 : ∀ e ∈ exp2, e.fits version) (hl2 : exp2.length < 2147483648)
    (hn : ∀ e ∈ norms, e.fits version) (hln : norms.length < 2147483648)
    (hkey : footerKey c1 c2 ∈ master.map Prod.fst)
    (himg : fin.remains (encodeFooter version nBytes master exp1 exp2 norms ++ rest)) :
    (readFooter fin version c1 c2 norm unit resolution pos0 e1 e2).ret = true ∧
    (norm ≠ ascii "NONE" →
      (readFooter fin version c1 c2 norm unit resolution pos0 e1 e2).c1NormEntry =
        (((norms.filter (fun e => e.isFor c1 norm unit resolution)).getLast?.map
          NormEntry.entry).getD e1) ∧
      (readFooter fin version c1 c2 norm unit resolution pos0 e1 e2).c2NormEntry =
        (((norms.filter (fun e => e.isFor c2 norm unit resolution)).getLast?.map
          NormEntry.entry).getD e2) ∧
      (readFooter fin version c1 c2 norm unit resolution pos0 e1 e2).fin.remains rest) ∧
    (norm = ascii "NONE" →
      (readFooter fin version c1 c2 norm unit resolution pos0 e1 e2).c1NormEntry = e1 ∧
      (readFooter fin version c1 c2 norm unit resolution pos0 e1 e2).c2NormEntry = e2 ∧
      (readFooter fin version c1 c2 norm unit resolution pos0 e1 e2).fin.remains
        (encodeFooterTail version exp1 exp2 norms ++ rest)) := by
  have e0 : encodeFooter version nBytes master exp1 exp2 norms ++ rest =
      (if version > 8 then i64 nBytes else i32 nBytes) ++ (i32 master.length ++
        ((master.map encodeMasterEntry).flatten ++
          (encodeFooterTail version exp1 exp2 norms ++ rest))) := by
    simp only [encodeFooter, List.append_assoc]
  rw [e0] at himg
  have s0 : (if version > 8 then (readLongFromFile fin).2 else (readIntFromFile fin).2).remains
      (i32 master.length ++ ((master.map encodeMasterEntry).flatten ++
          (encodeFooterTail version exp1 exp2 norms ++ rest))) := by
    by_cases hver : version > 8
    · simp only [hver, if_true] at himg ⊢
      exact (skip8_remains fin (i64 nBytes) _ (bytesOf_length 8 _) himg).1
    · simp only [hver, if_false] at himg ⊢
      exact (skip4_remains fin (i32 nBytes) _ (bytesOf_length 4 _) himg).1
  obtain ⟨v1, s1⟩ := readInt_remains _ (master.length : Int) _ (by omega) (by omega) s0
  obtain ⟨m1, m2⟩ := readMasterIndex_encode (footerKey c1 c2) master _ _ false pos0 hm s1
  have hfound : (readMasterIndex (footerKey c1 c2) master.length
      (readIntFromFile (if version > 8 then (readLongFromFile fin).2
        else (readIntFromFile fin).2)).2 false pos0).1 = true := by
    rw [m1]
    simpa using hkey
  have e1' : encodeFooterTail version exp1 exp2 norms ++ rest =
      i32 exp1.length ++ ((exp1.map (encodeExpected version false)).flatten ++
        (i32 exp2.length ++ ((exp2.map (encodeExpected version true)).flatten ++
          (i32 norms.length ++ ((norms.map (encodeNormEntry version)).flatten ++ rest))))) := by
    simp only [encodeFooterTail, List.append_assoc]
  refine ⟨?_, ?_, ?_⟩
  · simp only [readFooter, v1, Int.toNat_ofNat, hfound, Bool.not_true, Bool.false_eq_true,
      if_false]
    split <;> rfl
  · intro hnorm
    rw [e1'] at m2
    obtain ⟨v2, s2⟩ := readInt_remains _ (exp1.length : Int) _ (by omega) (by omega) m2
    have s3 := skipExpectedValues_encode version false exp1 _ _ hx1 s2
    obtain ⟨v4, s4⟩ := readInt_remains _ (exp2.length : Int) _ (by omega) (by omega) s3
    have s5 := skipExpectedValues_encode version true exp2 _ _ hx2 s4
    obtain ⟨v6, s6⟩ := readInt_remains _ (norms.length : Int) _ (by omega) (by omega) s5
    have hsp := readNormIndex_spec version c1 c2 norm unit resolution norms.length
      { c1NormEntry := e1, c2NormEntry := e2, found1 := false, found2 := false,
        fin := (readIntFromFile (skipExpectedValues version true exp2.length
          (readIntFromFile (skipExpectedValues version false exp1.length
            (readIntFromFile (readMasterIndex (footerKey c1 c2) master.length
              (readIntFromFile (if version > 8 then (readLongFromFile fin).2
                else (readIntFromFile fin).2)).2 false pos0).2.2).2)).2)).2 }
    rw [normIndexEntries_encode version norms rest _ hn s6] at hsp
    have hrm := readNormIndex_remains version c1 c2 norm unit resolution norms rest
      { c1NormEntry := e1, c2NormEntry := e2, found1 := false, found2 := false,
        fin := (readIntFromFile (skipExpectedValues version true exp2.length
          (readIntFromFile (skipExpectedValues version false exp1.length
            (readIntFromFile (readMasterIndex (footerKey c1 c2) master.length
              (readIntFromFile (if version > 8 then (readLongFromFile fin).2
                else (readIntFromFile fin).2)).2 false pos0).2.2).2)).2)).2 } hn s6
    simp only [readFooter, v1, Int.toNat_ofNat, hfound, Bool.not_true, Bool.false_eq_true,
      if_false, if_neg hnorm, v2, v4, v6]
    exact ⟨hsp.1, hsp.2, hrm⟩
  · intro hnorm
    simp only [readFooter, v1, Int.toNat_ofNat, hfound, Bool.not_true, Bool.false_eq_true,
      if_false, if_pos hnorm, true_and]
    exact m2

theorem C28_footer_norm_entries_witness :
    (readFooter (IStream.open (encodeFooter 9 0 [(ascii "0_1", 140, 67)] sampleExpected
        sampleExpected sampleNorms ++ [7]) (fun _ => 0)) 9 0 1 (ascii "VC") (ascii "BP") 10 0
      { size := 0, position := 0 } { size := 0, position := 0 }).c1NormEntry =
        { size := 16, position := 100 } ∧
    (readFooter (IStream.open (encodeFooter 9 0 [(ascii "0_1", 140, 67)] sampleExpected
        sampleExpected sampleNorms ++ [7]) (fun _ => 0)) 9 0 1 (ascii "VC") (ascii "BP") 10 0
      { size := 0, position := 0 } { size := 0, position := 0 }).c2NormEntry =
        { size := 16, position := 120 } :=
  ⟨((C28_footer_norm_entries (IStream.open (encodeFooter 9 0 [(ascii "0_1", 140, 67)]
        sampleExpected sampleExpected sampleNorms ++ [7]) (fun _ => 0)) 9 0 1 (ascii "VC")
      (ascii "BP") 10 0 { size := 0, position := 0 } { size := 0, position := 0 } 0
      [(ascii "0_1", 140, 67)] sampleExpected sampleExpected sampleNorms [7]
      (by decide) (by decide) (by decide) (by decide) (by decide) (by decide) (by decide)
      (by decide) (by decide) (open_remains _ _)).2.1 (by decide)).1,
   ((C28_footer_norm_entries (IStream.open (encodeFooter 9 0 [(ascii "0_1", 140, 67)]
        sampleExpected sampleExpected sampleNorms ++ [7]) (fun _ => 0)) 9 0 1 (ascii "VC")
      (ascii "BP") 10 0 { size := 0, position := 0 } { size := 0, position := 0 } 0
      [(ascii "0_1", 140, 67)] sampleExpected sampleExpected sampleNorms [7]
      (by decide) (by decide) (by decide) (by decide) (by decide) (by decide) (by decide)
      (by decide) (by decide) (open_remains _ _)).2.1 (by decide)).2.1⟩

/-! ## Normalization vectors -/

theorem leNat_f64 (x : Nat) (h : x < 18446744073709551616) : leNat (f64 x) = x := by
  have := leNat_bytesOf 8 (x : Int)
  simp only [f64]
  norm_num at this
  omega

theorem readDouble_remains (s : IStream) (x : Nat) (t : List Nat)
    (h1 : x < 18446744073709551616) (h : s.remains (f64 x ++ t)) :
    (readDoubleFromFile s).1 = x ∧ (readDoubleFromFile s).2.remains t := by
  obtain ⟨hv, hr⟩ := readTemp_remains s (f64 x) t 8 (bytesOf_length 8 x) h
  exact ⟨by simp only [readDoubleFromFile, hv, leNat_f64 x h1], hr⟩

theorem nat_set_append_length (pre rest : List Nat) (x c : Nat) :
    (pre ++ x :: rest).set pre.length c = pre ++ c :: rest := by
  induction pre with
  | nil => rfl
  | cons p ps ih => simp only [List.cons_append, List.length_cons, List.set_cons_succ, ih]

theorem readNormValues_length (fp : FloatOps) (version : Int) (n : Nat) :
    ∀ (i : Nat) (s : IStream) (values v : List Nat),
      readNormValues fp version n i s values = .ok v → v.length = values.length := by
  induction n with
  | zero =>
    intro i s values v h
    simp only [readNormValues, Except.ok.injEq] at h
    rw [← h]
  | succ n ih =>
    intro i s values v h
    simp only [readNormValues] at h
    split at h
    · simp at h
    · split at h <;> rw [ih _ _ _ _ h, List.length_set]

/-- The value loop stops at a store past the end of the vector. -/
theorem readNormValues_overflow (fp : FloatOps) (version : Int) (n i : Nat) (s : IStream)
    (values : List Nat) (h : values.length ≤ i) :
    readNormValues fp version (n + 1) i s values = .error .outOfBounds := by
  simp only [readNormValues, if_pos h]

theorem readNormValues_encode (fp : FloatOps) (version : Int) (vs : List Nat)
    (rest : List Nat) :
    ∀ (pre : List Nat) (k : Nat) (s : IStream),
      (∀ x ∈ vs, x < (if version > 8 then 4294967296 else 18446744073709551616)) →
      s.remains ((vs.map (fun x => if version > 8 then f32 x else f64 x)).flatten ++ rest) →
      readNormValues fp version vs.length pre.length s
          (pre ++ List.replicate (vs.length + k) 0) =
        .ok (pre ++ vs.map (fun x => if version > 8 then fp.toDouble x else x)
          ++ List.replicate k 0) := by
  induction vs with
  | nil => intro pre k s _ _; simp [readNormValues]
  | cons v vs ih =>
    intro pre k s hfit h
    have hv := hfit v (List.mem_cons_self _ _)
    simp only [List.map_cons, List.flatten_cons, List.append_assoc] at h
    have e1 : pre ++ List.replicate (vs.length + 1 + k) 0 =
        pre ++ 0 :: List.replicate (vs.length + k) 0 := by
      rw [show vs.length + 1 + k = (vs.length + k) + 1 by omega, List.replicate_succ]
    have hlen : ¬ (pre ++ 0 :: List.replicate (vs.length + k) 0).length ≤ pre.length := by
      simp only [List.length_append, List.length_cons, List.length_replicate]
      omega
    simp only [List.length_cons, readNormValues, e1, if_neg hlen, nat_set_append_length]
    by_cases hver : version > 8
    · simp only [hver, if_true] at hv h ⊢
      obtain ⟨v1, s1⟩ := readFloat_remains s v _ hv h
      have := ih (pre ++ [fp.toDouble v]) k _
        (fun q hq => by simpa [hver] using hfit q (List.mem_cons_of_mem _ hq))
        (by simpa [hver] using s1)
      simp only [List.length_append, List.length_singleton, List.append_assoc,
        List.singleton_append, hver, if_true] at this
      rw [v1, this]
      simp
    · simp only [hver, if_false] at hv h ⊢
      obtain ⟨v1, s1⟩ := readDouble_remains s v _ hv h
      have := ih (pre ++ [v]) k _
        (fun q hq => by simpa [hver] using hfit q (List.mem_cons_of_mem _ hq))
        (by simpa [hver] using s1)
      simp only [List.length_append, List.length_singleton, List.append_assoc,
        List.singleton_append, hver, if_false] at this
      rw [v1, this]
      simp

/-- For a vector whose `nValues` is below 2^31, `readNormalizationVector`
returns exactly `nValues` doubles in file order, `nValues` being read as an
i64 when `version > 8` and as an i32 otherwise: for `version > 8` each is the
stored f32 widened to double, otherwise the stored f64, bit for bit; no entry
is dropped, whatever its value. -/
theorem readNormalizationVector_encode (fp : FloatOps) (version : Int) (s : IStream)
    (values : List Nat) (rest : List Nat) (hn : values.length < 2147483648)
    (hfit : ∀ x ∈ values, x < (if version > 8 then 4294967296 else 18446744073709551616))
    (h : s.remains (encodeNormVector version values ++ rest)) :
    readNormalizationVector fp version s =
      .ok (values.map (fun x => if version > 8 then fp.toDouble x else x)) := by
  have hw : wrap 32 (values.length : Int) = (values.length : Int) :=
    wrap_of_range 32 (by decide) _ (by norm_num; omega) (by norm_num; omega)
  have hnn : ¬ ((values.length : Int) < 0) := by omega
  have key := readNormValues_encode fp version values rest [] 0
  simp only [List.nil_append, List.length_nil, Nat.add_zero, List.replicate_zero,
    List.append_nil] at key
  simp only [encodeNormVector, List.append_assoc] at h
  by_cases hver : version > 8
  · simp only [hver, if_true] at h
    obtain ⟨v1, s1⟩ := readLong_remains s (values.length : Int) _ (by omega) (by omega) h
    simp only [readNormalizationVector, hver, if_true, v1, hw, if_neg hnn, Int.toNat_ofNat]
    rw [key _ hfit (by simpa [hver] using s1)]
    simp [hver]
  · simp only [hver, if_false] at h
    obtain ⟨v1, s1⟩ := readInt_remains s (values.length : Int) _ (by omega) (by omega) h
    simp only [readNormalizationVector, hver, if_false, v1, hw, if_neg hnn, Int.toNat_ofNat]
    rw [key _ hfit (by simpa [hver] using s1)]
    simp [hver]

/-- A version 8 vector with a NaN, a zero and 1.0 comes back as stored. -/
theorem readNormalizationVector_sample :
    readNormalizationVector sampleFp 8
        (IStream.open (encodeNormVector 8 [0x7FF8000000000000, 0, 0x3FF0000000000000] ++ [7])
          (fun _ => 0)) =
      .ok [0x7FF8000000000000, 0, 0x3FF0000000000000] :=
  readNormalizationVector_encode sampleFp 8 _ [0x7FF8000000000000, 0, 0x3FF0000000000000] [7]
    (by decide) (by decide) (open_remains _ _)

/-- C29: evaluation of `readNormalizationVector` at inputs on which the claim
fails. For `version > 8` the count is read as an i64 into `long nValues`, the
vector is created with `(int) nValues` elements and the loop stores
`nValues` values. With `nValues = 4294967297` the vector has one element and
the second store is past its end; with `nValues = 2147483648` the size is
`-2147483648` and the vector cannot be created. Neither call returns
`nValues` doubles. -/
theorem C29_count_truncated_to_int :
    (readLongFromFile (IStream.open (i64 4294967297 ++ f32 0x3F800000 ++ f32 0x40000000)
      (fun _ => 0))).1 = 4294967297 ∧
    wrap 32 4294967297 = 1 ∧
    readNormalizationVector sampleFp 9
        (IStream.open (i64 4294967297 ++ f32 0x3F800000 ++ f32 0x40000000) (fun _ => 0))
      = .error .outOfBounds ∧
    (readLongFromFile (IStream.open (i64 2147483648 ++ f32 0x3F800000) (fun _ => 0))).1
      = 2147483648 ∧
    wrap 32 2147483648 = -2147483648 ∧
    readNormalizationVector sampleFp 9
        (IStream.open (i64 2147483648 ++ f32 0x3F800000) (fun _ => 0))
      = .error .badAlloc :=
  ⟨by decide, by decide, rfl, by decide, by decide, rfl⟩

/-- C30: evaluation of the loop body of `straw` at inputs on which the claim
fails. With bin size 100000 the record of bin 50000 is pushed with
`binX = 705032704`, not with the product 5000000000: `rec.binX * binsize` is
formed in `int` and only then widened. The record of bin 30000, whose product
3000000000 lies in the requested rectangle, gets the coordinate -1294967296
and is dropped by the filter. -/
theorem C30_product_formed_in_int :
    emitRecord sampleFp (fun _ => 0) sampleBigQuery
        { binX := 50000, binY := 3, counts := 0x41A00000 } =
      some { binX := 705032704, binY := 300000, counts := 0x41A00000 } ∧
    (50000 : Int) * 100000 = 5000000000 ∧
    scaled 30000 100000 = -1294967296 ∧
    (30000 : Int) * 100000 = 3000000000 ∧
    emitRecord sampleFp (fun _ => 0) sampleBigQuery
        { binX := 30000, binY := 3, counts := 0x41A00000 } = none :=
  ⟨by decide, by decide, by decide, by decide, by decide⟩

/-! ## The v9 intra mapper on ordered regions -/

/-- An index entry of size 0 gives no records and leaves the stream as it
was. -/
theorem readBlock_zero_size (fp : FloatOps) (inflate : List Nat → Nat → List Nat)
    (junk : Nat → Nat) (version : Int) (fin : IStream) (http : Option (List Nat))
    (idx : indexEntry) (hsize : idx.size = 0) :
    readBlock fp inflate junk version fin http idx = .ok ([], fin) := by
  simp only [readBlock, hsize, if_true]

theorem readSize_zero_size (inflate : List Nat → Nat → List Nat)
    (junk : Nat → Nat) (fin : IStream) (http : Option (List Nat))
    (idx : indexEntry) (hsize : idx.size = 0) :
    readSize inflate junk fin http idx = .ok (0, fin) := by
  simp only [readSize, hsize, if_true]

/-- A block number absent from the block index reads as the entry of size 0
at position 0. -/
theorem at_absent (m : BlockMap) (b : Int) (habs : m.lookup b = none) :
    m.at b = { size := 0, position := 0 } := by
  simp only [BlockMap.at, habs, Option.getD_none]

/-- The outer loop of `straw` passes over an absent block number. -/
theorem strawBlocks_absent (env : Env) (version : Int) (http : Option (List Nat))
    (blockMap : BlockMap) (q : Query) (b : Int) (rest : List Int) (fin : IStream)
    (records : List contactRecord) (habs : blockMap.lookup b = none) :
    strawBlocks env version http blockMap q (b :: rest) fin records =
      strawBlocks env version http blockMap q rest fin records := by
  rw [strawBlocks, readBlock_zero_size _ _ _ _ _ _ _ (by rw [at_absent _ _ habs])]
  simp only [List.filterMap_nil, List.append_nil]

/-- The outer loop of `straw` does the same over the block numbers the file
contains as over all the selected ones. -/
theorem strawBlocks_present (env : Env) (version : Int) (http : Option (List Nat))
    (blockMap : BlockMap) (q : Query) :
    ∀ (bns : List Int) (fin : IStream) (records : List contactRecord),
      strawBlocks env version http blockMap q bns fin records =
        strawBlocks env version http blockMap q
          (bns.filter (fun b => (blockMap.lookup b).isSome)) fin records
  | [], _, _ => rfl
  | b :: rest, fin, records => by
    cases hb : blockMap.lookup b with
    | none =>
      rw [strawBlocks_absent _ _ _ _ _ _ _ _ _ hb, List.filter_cons_of_neg (by simp [hb])]
      exact strawBlocks_present env version http blockMap q rest fin records
    | some e =>
      rw [List.filter_cons_of_pos (by simp [hb]), strawBlocks, strawBlocks]
      cases readBlock env.fp env.inflate env.junk version fin http (blockMap.at b) with
      | error e => rfl
      | ok t => exact strawBlocks_present env version http blockMap q rest _ _

/-- The loop of `getSize` passes over an absent block number, its `int`
count unchanged. -/
theorem sizeBlocks_absent (env : Env) (http : Option (List Nat))
    (blockMap : BlockMap) (b : Int) (rest : List Int) (fin : IStream)
    (count : Int) (habs : blockMap.lookup b = none) :
    sizeBlocks env http blockMap (b :: rest) fin count =
      sizeBlocks env http blockMap rest fin (wrap 32 count) := by
  rw [sizeBlocks, readSize_zero_size _ _ _ _ _ (by rw [at_absent _ _ habs])]
  simp only [add_zero]

/-- C32: `readBlock` returns an empty record list and `readSize` returns 0
for every index entry with `size == 0`, whatever the stream, the source and
the inflater, and the stream comes back as it was; a block number absent from
the block index is looked up as the entry of size 0 at position 0; so in the
outer loop of `straw` an absent block number adds no record and raises no
error, and the loop over all the selected block numbers gives what the loop
over those the file contains gives. -/
theorem C32_absent_block (env : Env) (version : Int) (http : Option (List Nat))
    (blockMap : BlockMap) (q : Query) (idx : indexEntry) (b : Int) (rest bns : List Int)
    (fin : IStream) (records : List contactRecord)
    (hsize : idx.size = 0) (habs : blockMap.lookup b = none) :
    readBlock env.fp env.inflate env.junk version fin http idx = .ok ([], fin) ∧
    readSize env.inflate env.junk fin http idx = .ok (0, fin) ∧
    blockMap.at b = { size := 0, position := 0 } ∧
    readBlock env.fp env.inflate env.junk version fin http (blockMap.at b) = .ok ([], fin) ∧
    strawBlocks env version http blockMap q (b :: rest) fin records =
      strawBlocks env version http blockMap q rest fin records ∧
    strawBlocks env version http blockMap q bns fin records =
      strawBlocks env version http blockMap q
        (bns.filter (fun b => (blockMap.lookup b).isSome)) fin records :=
  ⟨readBlock_zero_size _ _ _ _ _ _ _ hsize, readSize_zero_size _ _ _ _ _ hsize,
   at_absent _ _ habs,
   readBlock_zero_size _ _ _ _ _ _ _ (by rw [at_absent _ _ habs]),
   strawBlocks_absent _ _ _ _ _ _ _ _ _ habs,
   strawBlocks_present _ _ _ _ _ _ _ _⟩

theorem C32_absent_block_witness :
    readBlock sampleEnv.fp sampleEnv.inflate sampleEnv.junk 8
        (IStream.open sampleV8 sampleEnv.junk) none { size := 0, position := 40 } =
      .ok ([], IStream.open sampleV8 sampleEnv.junk) ∧
    readSize sampleEnv.inflate sampleEnv.junk (IStream.open sampleV8 sampleEnv.junk) none
        { size := 0, position := 40 } =
      .ok (0, IStream.open sampleV8 sampleEnv.junk) ∧
    BlockMap.at [(0, { size := 24, position := 40 })] 1 = { size := 0, position := 0 } ∧
    readBlock sampleEnv.fp sampleEnv.inflate sampleEnv.junk 8
        (IStream.open sampleV8 sampleEnv.junk) none
        (BlockMap.at [(0, { size := 24, position := 40 })] 1) =
      .ok ([], IStream.open sampleV8 sampleEnv.junk) ∧
    strawBlocks sampleEnv 8 none [(0, { size := 24, position := 40 })] sampleInter
        (1 :: [2, 3]) (IStream.open sampleV8 sampleEnv.junk) [] =
      strawBlocks sampleEnv 8 none [(0, { size := 24, position := 40 })] sampleInter
        [2, 3] (IStream.open sampleV8 sampleEnv.junk) [] ∧
    strawBlocks sampleEnv 8 none [(0, { size := 24, position := 40 })] sampleInter
        [0, 1, 2, 3] (IStream.open sampleV8 sampleEnv.junk) [] =
      strawBlocks sampleEnv 8 none [(0, { size := 24, position := 40 })] sampleInter
        ([0, 1, 2, 3].filter
          (fun b => (List.lookup b [(0, ({ size := 24, position := 40 } : indexEntry))]).isSome))
        (IStream.open sampleV8 sampleEnv.junk) [] :=
  C32_absent_block sampleEnv 8 none [(0, { size := 24, position := 40 })] sampleInter
    { size := 0, position := 40 } 1 [2, 3] [0, 1, 2, 3] (IStream.open sampleV8 sampleEnv.junk) []
    rfl rfl

/-! ## Value-initialised elements left after the decoded cells -/

end Straw
